import Mathlib

/-!
# automember overlay: a shallow embedding of `automember.c`

C strings (`char *`) are lists of bytes without the terminating NUL, so
`strlen` is `List.length`.  A `struct berval` keeps both of its fields;
`bv_val` is the C string that the pointer designates.  Lengths (`size_t`,
`ber_len_t`) and the array indices are natural numbers: they are bounded by
the size of strings and arrays held in memory, so they do not wrap.  The one
`int` that receives a string length, the result of `snprintf` at line 522,
keeps its range.

Entries live in a heap, a list indexed by address; `entry_dup` allocates the
next address, and `rs->sr_entry` is an address.  Releasing memory is not
modelled, except that a pointer which was never written cannot always be
released.  Allocation failure is not modelled either: every
`ber_memalloc_x` succeeds, and what it returns is not initialised: a berval
that the program has not written is `none`, and reading it yields what the
allocator left there, which the host tells.  The result of `snprintf` is a C
`int`, and its comparison with a `ber_len_t` is made in 64 bits without
sign.

The answers of the host (point-read, filter parser, search, allocator
leftovers) are the fields of `Host`.
-/

set_option autoImplicit false
set_option maxRecDepth 100000

namespace Automember

/-! ## Strings and bervals -/

/-- The opening brace of the placeholder token. -/
def LBRACE : Char := Char.ofNat 123

/-- The closing brace of the placeholder token. -/
def RBRACE : Char := Char.ofNat 125

/-- The string literal that `strcmp` and `strstr` are given in
`automember_xform_uid_to_dn`: an opening brace followed by a closing brace. -/
def TOKEN : List Char := [LBRACE, RBRACE]

/-- The value of `AUTOMEMBER_DEFAULT_SYNTH_TMPL` (lines 22-25). -/
def automember_default_synth_tmpl : List Char := TOKEN

/-- C `strstr(s, needle)`: offset of the first occurrence of `needle` in `s`,
`none` for a NULL result. -/
def strstr : List Char → List Char → Option Nat
  | [], needle => if needle = [] then some 0 else none
  | c :: s, needle =>
    if needle.isPrefixOf (c :: s) then some 0
    else (strstr s needle).map (fun i => i + 1)

/-- A `struct berval`: `bv_val` is `none` for a NULL pointer. -/
structure BerValue where
  bv_len : Nat
  bv_val : Option (List Char)
deriving DecidableEq, Repr

/-- Modelled from the spec: `BER_BVZERO` is a library macro absent from src/;
it makes the berval with a NULL `bv_val` that ends a value array. -/
def BER_BVZERO : BerValue := ⟨0, none⟩

/-- Modelled from the spec: `ber_bvdup` and `ber_dupbv_x` are library
functions absent from src/; they give a value equal to the source value, a
duplicate and not an alias (§4.1): same length, same bytes, and length 0
for a NULL `bv_val`. -/
def ber_bvdup (src : BerValue) : BerValue :=
  match src.bv_val with
  | none => ⟨0, none⟩
  | some s => ⟨src.bv_len, some s⟩

/-- Modelled from the spec: `ber_str2bv_x` is a library function absent from
src/; called as `ber_str2bv_x(b, 0, 0, NULL, ctx)` it makes the value of §3
over the C string `b`: the string plus its length, taken with `strlen`. -/
def ber_str2bv (b : List Char) : BerValue := ⟨b.length, some b⟩

/-! ## The template engine (lines 202-287) -/

/-- The counting pass, lines 232-242.  The state is `(s, n_tokens, tmpl_len)`
with `s` the unscanned rest of the template (`none` once `s` is NULL);
`tmpl_len -= 2; tmpl_len += src_val_len` is `size_t` arithmetic, written
here as one exact step (the running value never drops below zero because
each token found occupies two bytes of the template). -/
def count_pass (src_val_len : Nat) : Nat → Option (List Char) → Nat → Nat → Nat × Nat
  | 0, _, n_tokens, tmpl_len => (n_tokens, tmpl_len)
  | fuel + 1, s, n_tokens, tmpl_len =>
    match s with
    | none => (n_tokens, tmpl_len)
    | some [] => (n_tokens, tmpl_len)
    | some (c :: cs) =>
      match strstr (c :: cs) TOKEN with
      | some p =>
        count_pass src_val_len fuel (some ((c :: cs).drop (p + 2)))
          (n_tokens + 1) (tmpl_len - 2 + src_val_len)
      | none => count_pass src_val_len fuel none n_tokens tmpl_len

/-- The filling pass, lines 247-271.  The state is `(s, d)`: the unscanned
rest of the template and the bytes written to the buffer `b` so far. -/
def fill_pass (src_bytes : List Char) : Nat → Option (List Char) → List Char → List Char
  | 0, _, d => d
  | fuel + 1, s, d =>
    match s with
    | none => d
    | some [] => d
    | some (c :: cs) =>
      match strstr (c :: cs) TOKEN with
      | some s2 =>
        fill_pass src_bytes fuel (some ((c :: cs).drop (s2 + 2)))
          (d ++ (c :: cs).take s2 ++ src_bytes)
      | none => fill_pass src_bytes fuel none (d ++ (c :: cs))

/-- Result of `automember_xform_uid_to_dn`: the berval the returned pointer
designates (`none` for NULL) and the content of `*out_val` after the call:
`none` when `out_val` is NULL, `some none` when it designates a berval that
has never been written. -/
structure XformResult where
  ret : Option BerValue
  out : Option (Option BerValue)
deriving DecidableEq, Repr

/-- The function `automember_xform_uid_to_dn` (lines 202-287).

`src_val` is the berval that the pointer designates: line 214 reads
`src_val->bv_val` before the test of line 218, so a NULL `src_val` is a
fault and no input of this function; its caller passes the address of an
array element.  `out_val` is `none` for NULL, `some none` for a pointer to a
berval never written, `some (some x)` for a pointer to a berval holding `x`.
`fresh_b` is the C string that the buffer `b` reads as when `ber_memalloc_x`
returns it.

Both loops run at most `strlen(tmpl)` times, so that much fuel is enough.
For the empty template neither loop body runs, and nothing is written to
`b`, not even a terminator: `b` is still what the allocator left. -/
def automember_xform_uid_to_dn (fresh_b : List Char) (tmpl : List Char) (src_val : BerValue)
    (out_val : Option (Option BerValue)) : XformResult :=
  let src_val_len := match src_val.bv_val with
    | some s => s.length
    | none => 0
  if tmpl = TOKEN then
    ⟨some (ber_bvdup src_val), out_val⟩
  else
    let tmpl_len := (count_pass src_val_len (tmpl.length + 1) (some tmpl) 0 tmpl.length).2
    let src_bytes := if src_val_len = 0 then [] else (src_val.bv_val.getD []).take src_val_len
    let b := match tmpl with
      | [] => fresh_b
      | _ :: _ => fill_pass src_bytes (tmpl.length + 1) (some tmpl) []
    match out_val with
    | some _ => ⟨some ⟨tmpl_len, some b⟩, some (some ⟨tmpl_len, some b⟩)⟩
    | none => ⟨some (ber_str2bv b), none⟩

/-! ## Host (slapd) data model, as far as the overlay reads or writes it -/

/-- An `AttributeDescription`; equality of two descriptions stands for the
pointer comparison of the source.  `ad_operational` is what
`is_at_operational(ad->ad_type)` answers. -/
structure AttributeDescription where
  ad_cname : List Char
  ad_operational : Bool
deriving DecidableEq, Repr

/-- An `ObjectClass`, with the C string `soc_cname.bv_val`. -/
structure ObjectClass where
  soc_cname : List Char
deriving DecidableEq, Repr

/-- One entry of `op->ors_attrs` before the terminator: its name
(`an_name.bv_val`, not NULL) and its resolved description (`an_desc`, NULL
for the wildcards and for names the schema does not know). -/
structure AttributeName where
  an_name : List Char
  an_desc : Option AttributeDescription
deriving DecidableEq, Repr

/-- An `Attribute`: `a_vals` is `none` for NULL, else the value array, which
ends at its first element with a NULL `bv_val` (or at the end of the list). -/
structure Attribute where
  a_desc : AttributeDescription
  a_vals : Option (List BerValue)
deriving DecidableEq, Repr

/-- An `Entry`: name, normalised name, attribute list. -/
structure Entry where
  e_name : BerValue
  e_nname : BerValue
  e_attrs : List Attribute
deriving DecidableEq, Repr

/-- The word `rs->sr_flags`, bit by bit: the three entry-ownership bits
that make up `REP_ENTRY_MASK`, and the remaining bits as a number. -/
structure ReplyFlags where
  REP_ENTRY_MODIFIABLE : Bool
  REP_ENTRY_MUSTBEFREED : Bool
  REP_ENTRY_MUSTRELEASE : Bool
  other_bits : Nat
deriving DecidableEq, Repr

/-- The values of `rs->sr_type`. -/
inductive slap_reply_t where
  | REP_RESULT
  | REP_SEARCH
  | REP_SEARCHREF
  | REP_OTHER (n : Nat)
deriving DecidableEq, Repr

/-- A `SlapReply`; `sr_entry` is an address in the entry heap. -/
structure SlapReply where
  sr_type : slap_reply_t
  sr_entry : Option Nat
  sr_flags : ReplyFlags
deriving DecidableEq, Repr

/-- A parsed search filter, as `str2filter_x` returns it. -/
inductive Filter where
  | f_and (l r : Filter)
  | f_or (l r : Filter)
  | f_not (f : Filter)
  | f_equality (desc value : List Char)
  | f_present (desc : List Char)
  | f_substrings (desc : List Char) (parts : List (List Char))
deriving DecidableEq, Repr

/-- What `bd_info` of a `BackendDB` designates: this overlay instance
(`on`), or the entry point of the whole stack (`on->on_info`). -/
inductive BackendInfo where
  | overinst
  | on_info
deriving DecidableEq, Repr

/-- A `BackendDB`, with the fields the overlay reads. -/
structure BackendDB where
  db_id : Nat
  bd_info : BackendInfo
  be_suffix : List BerValue
  be_nsuffix : List BerValue
  be_rootdn : BerValue
  be_rootndn : BerValue
deriving DecidableEq, Repr

/-- The response callbacks an operation can carry. -/
inductive slap_callback where
  | collect_memberof_dn_per_entry
  | host_callback (id : Nat)
deriving DecidableEq, Repr

/-- An `Operation`, with the fields the overlay reads or sets. -/
structure Operation where
  o_bd : BackendDB
  o_tag : Nat
  o_req_dn : BerValue
  o_req_ndn : BerValue
  o_dn : BerValue
  o_ndn : BerValue
  ors_scope : Int
  ors_deref : Int
  ors_slimit : Int
  ors_tlimit : Int
  ors_attrs : Option (List AttributeName)
  ors_attrsonly : Int
  o_do_not_cache : Bool
  ors_filter : Option Filter
  ors_filterstr : BerValue
  o_callback : Option slap_callback
deriving DecidableEq, Repr

/-- The per-instance configuration `automember_t` (lines 54-69).  The five
attribute descriptions are resolved by `automember_db_init`, which fails
without creating an instance if one is missing; `synth_tmpl` starts as the
default template. -/
structure automember_t where
  attr_oc : AttributeDescription
  attr_memberuid : AttributeDescription
  attr_member : AttributeDescription
  attr_memberof : AttributeDescription
  attr_uid : AttributeDescription
  oc_member : Option ObjectClass
  oc_memberof : Option ObjectClass
  synth_tmpl : List Char
deriving DecidableEq, Repr

/-- Calls to the two collaborators, in the order they are made. -/
inductive Event where
  | point_read (ndn : BerValue) (oc : Option ObjectClass) (ad : AttributeDescription)
  | search (op2 : Operation)
deriving DecidableEq, Repr

/-- The services of the host that the overlay calls and whose answer it
cannot compute itself. -/
structure Host where
  /-- The call `overlay_entry_get_ov(op, ndn, oc, ad, 0, &e, on)`: status and
  address of the entry (`none` for NULL). -/
  overlay_entry_get_ov : BerValue → Option ObjectClass → AttributeDescription → Int × Option Nat
  /-- Content of slot `i` of an array that `ber_memalloc_x` has just
  returned, read as a `struct berval`: the allocator does not initialise
  memory. -/
  fresh_slot : Nat → BerValue
  /-- Whether the pointer that the allocator left as `bv_val` of slot `i`
  designates no memory that can be read and released: a routine that reads
  or releases through it faults. -/
  fresh_wild : Nat → Bool
  /-- The C string that the buffer `b` of line 244 reads as when
  `ber_memalloc_x` returns it, in the call for the source value `i`. -/
  fresh_buffer : Nat → List Char
  /-- The call `str2filter_x(op, str)`: `none` for NULL. -/
  str2filter_x : List Char → Option Filter
  /-- The call `be_search(&op2, &rs2)`: the replies handed to `op2.o_callback`, in
  order, and the status returned. -/
  be_search : Operation → List SlapReply × Int
  /-- The call `is_entry_objectclass_or_sub(e, oc)`. -/
  is_entry_objectclass_or_sub : Entry → ObjectClass → Bool

/-- Modelled from the spec: `LDAP_SUCCESS` is a constant of the host's
headers, absent from src/; it is the success status of §7. -/
def LDAP_SUCCESS : Int := 0

/-- Modelled from the spec: `LDAP_OTHER` is a constant of the host's
headers, absent from src/; a non-success status of §7. -/
def LDAP_OTHER : Int := 80

/-- Modelled from the spec: `SLAP_CB_CONTINUE` is a constant of the host's
headers, absent from src/; the status that lets the record continue down
the pipeline. -/
def SLAP_CB_CONTINUE : Int := 32768

/-- Modelled from the spec: the name of `slap_anlist_all_user_attributes[0]`,
absent from src/; the "all user attributes" wildcard of §3. -/
def slap_anlist_all_user_attributes : List Char := [Char.ofNat 42]

/-- Modelled from the spec: the name of
`slap_anlist_all_operational_attributes[0]`, absent from src/; the "all
operational attributes" wildcard of §3. -/
def slap_anlist_all_operational_attributes : List Char := [Char.ofNat 43]

/-- Modelled from the spec: `bvmatch` is a host macro absent from src/; two
names match when they have the same length and the same bytes. -/
def bvmatch (a b : List Char) : Bool := decide (a = b)

/-- Modelled from the spec: `attr_find` is a host function absent from src/;
the first attribute of the list carrying the given description. -/
def attr_find (attrs : List Attribute) (desc : AttributeDescription) : Option Attribute :=
  attrs.find? (fun a => decide (a.a_desc = desc))

/-- The values of a berval array: the elements before the terminator. -/
def bvarray_vals (arr : List BerValue) : List BerValue :=
  arr.takeWhile (fun v => v.bv_val.isSome)

/-- Modelled from the spec: `attr_merge(e, desc, vals, NULL)` is a host
function absent from src/; it merges the full value list into the entry
under the attribute's identity (§4.4 step 5): copies of the values are
appended to the attribute `desc`, which is created at the end of the
attribute list when the entry does not have it. -/
def attr_merge (attrs : List Attribute) (desc : AttributeDescription)
    (vals : List BerValue) : List Attribute :=
  match attrs with
  | [] => [⟨desc, some ((bvarray_vals vals).map ber_bvdup)⟩]
  | a :: rest =>
    if a.a_desc = desc then
      ⟨desc, some (bvarray_vals (a.a_vals.getD []) ++ (bvarray_vals vals).map ber_bvdup)⟩ :: rest
    else a :: attr_merge rest desc vals

/-- Modelled from the spec: `attr_dup` is a host function absent from src/;
an independent copy of the attribute. -/
def attr_dup (a : Attribute) : Attribute := a

/-- Modelled from the spec: `entry_dup` is a host function absent from src/;
a duplicate with the same identity, attributes and values (§4.3). -/
def entry_dup (e : Entry) : Entry := ⟨e.e_name, e.e_nname, e.e_attrs⟩

/-- Outcome of a synthesis routine: status, the reply and the entry heap
after the call, and the collaborator calls made. -/
structure Outcome where
  rc : Int
  rs : SlapReply
  heap : List Entry
  trace : List Event
deriving DecidableEq, Repr

/-- Lines 434-442 and 670-680: choose the entry to extend (the reply's own
entry when the reply is flagged modifiable, a duplicate otherwise), merge
the values under `desc`, and when a duplicate was made put it in the reply
and reset the entry-ownership flags.  Of the host's `rs_replace_entry` the
assignment `rs->sr_entry = e` is kept (what it does to the superseded entry
is a release of memory); `sr_flags &= ~REP_ENTRY_MASK` clears the three
ownership bits, and the next statement sets two of them.  `none` when an
address designates no entry. -/
def merge_into_reply (heap : List Entry) (rs : SlapReply) (orig_e : Nat)
    (desc : AttributeDescription) (vals : List BerValue) : Option (SlapReply × List Entry) :=
  match heap[orig_e]? with
  | none => none
  | some orig =>
    let (e, heap1) :=
      if rs.sr_flags.REP_ENTRY_MODIFIABLE then (orig_e, heap)
      else (heap.length, heap ++ [entry_dup orig])
    match heap1[e]? with
    | none => none
    | some ent =>
      let heap2 := heap1.set e { ent with e_attrs := attr_merge ent.e_attrs desc vals }
      if e ≠ orig_e then
        some ({ rs with
                sr_entry := some e
                sr_flags := { rs.sr_flags with
                              REP_ENTRY_MODIFIABLE := true
                              REP_ENTRY_MUSTBEFREED := true
                              REP_ENTRY_MUSTRELEASE := false } }, heap2)
      else some (rs, heap2)

/-! ## Forward synthesis (lines 290-461) -/

/-- The scan of the request list in `automember_populate_member_attr`, lines
356-385.  `synth` and `src` are `is_synth_attr_requested` and
`is_src_attr_requested`; the loop stops once both are set. -/
def member_scan (am : automember_t) :
    List AttributeName → Bool → Bool → Bool × Bool
  | [], synth, src => (synth, src)
  | an :: rest, synth, src =>
    if synth && src then (synth, src)
    else if bvmatch an.an_name slap_anlist_all_user_attributes then
      member_scan am rest (synth || !am.attr_member.ad_operational)
        (src || !am.attr_memberuid.ad_operational)
    else if bvmatch an.an_name slap_anlist_all_operational_attributes then
      member_scan am rest (synth || am.attr_member.ad_operational)
        (src || am.attr_memberuid.ad_operational)
    else if an.an_desc = some am.attr_memberuid then member_scan am rest synth true
    else if an.an_desc = some am.attr_member then member_scan am rest true src
    else member_scan am rest synth src

/-- Lines 347-386: the pair `(is_synth_attr_requested, is_src_attr_requested)`
for a request list `an` (`none` when `op->ors_attrs` is NULL). -/
def member_requested (am : automember_t) (an : Option (List AttributeName)) : Bool × Bool :=
  match an with
  | none => (!am.attr_member.ad_operational, !am.attr_memberuid.ad_operational)
  | some l => member_scan am l false false

/-- The function `automember_fetch_src_attr` (lines 290-323): the outer `none` is a fault
(the host handed back an address that designates no entry), the inner one
a NULL result. -/
def automember_fetch_src_attr (host : Host) (heap : List Entry) (oc : Option ObjectClass)
    (ndn : BerValue) (attr_memberuid : AttributeDescription) : Option (Option Attribute) :=
  let (rc, e) := host.overlay_entry_get_ov ndn oc attr_memberuid
  if rc = LDAP_SUCCESS then
    match e with
    | none => some none
    | some ep =>
      match heap[ep]? with
      | none => none
      | some ent => some ((attr_find ent.e_attrs attr_memberuid).map attr_dup)
  else some none

/-- The loop of lines 414-423 over the source values, from the value at
`attr_idx` on: state `(dst_vals, out_idx, attr_idx)`, a slot of `dst_vals`
being `none` as long as it has not been written.  Each value is transformed
with `&dst_vals[out_idx]` as `out_val`, and `out_idx` advances when the
transformation returns a non-NULL pointer. -/
def xform_loop (host : Host) (tmpl : List Char) :
    List BerValue → List (Option BerValue) → Nat → Nat → List (Option BerValue) × Nat × Nat
  | [], dst_vals, out_idx, attr_idx => (dst_vals, out_idx, attr_idx)
  | v :: vs, dst_vals, out_idx, attr_idx =>
    match v.bv_val with
    | none => (dst_vals, out_idx, attr_idx)
    | some _ =>
      let r := automember_xform_uid_to_dn (host.fresh_buffer attr_idx) tmpl v
        (some (dst_vals.getD out_idx none))
      let dst_vals1 := match r.out with
        | some x => dst_vals.set out_idx x
        | none => dst_vals
      if r.ret.isSome then xform_loop host tmpl vs dst_vals1 (out_idx + 1) (attr_idx + 1)
      else xform_loop host tmpl vs dst_vals1 out_idx (attr_idx + 1)

/-- What a routine that walks a berval array finds in it from slot `i` on,
as `attr_merge` (line 435) and `ber_bvarray_free_x` (line 447) do: the
values before the first berval with a NULL `bv_val`, each value being the
`bv_len` bytes at its `bv_val`.  A slot that was never written holds what
the allocator left.  `none` is a fault: the pointer left in such a slot is
wild, or the walk leaves the array without having met a terminator. -/
def bvarray_walk (host : Host) : List (Option BerValue) → Nat → Option (List BerValue)
  | [], _ => none
  | slot :: rest, i =>
    match slot with
    | some x =>
      match x.bv_val with
      | some s => (bvarray_walk host rest (i + 1)).map (fun l => ⟨x.bv_len, some (s.take x.bv_len)⟩ :: l)
      | none => some []
    | none =>
      if host.fresh_wild i then none
      else
        match (host.fresh_slot i).bv_val with
        | some s =>
          (bvarray_walk host rest (i + 1)).map
            (fun l => ⟨(host.fresh_slot i).bv_len, some (s.take (host.fresh_slot i).bv_len)⟩ :: l)
        | none => some []

/-- Lines 390 and 394-400: the source attribute that the synthesis works
from, with the point-read made to get it.  It is the attribute found on the
entry when the source attribute was requested, and else the one that
`automember_fetch_src_attr` returns.  The outer `none` is a fault. -/
def source_attr (host : Host) (heap : List Entry) (am : automember_t) (orig : Entry)
    (is_src_attr_requested : Bool) : Option (Option Attribute × List Event) :=
  let src := attr_find orig.e_attrs am.attr_memberuid
  if !is_src_attr_requested then
    (automember_fetch_src_attr host heap am.oc_member orig.e_nname am.attr_memberuid).map
      (fun a => (a, [Event.point_read orig.e_nname am.oc_member am.attr_memberuid]))
  else some (src, [])

/-- The function `automember_populate_member_attr` (lines 325-461).  `none` is a fault:
an entry address that designates no entry is dereferenced, or the walk that
`attr_merge` and `ber_bvarray_free_x` make over `dst_vals` faults. -/
def automember_populate_member_attr (host : Host) (heap : List Entry) (op : Operation)
    (rs : SlapReply) (am : automember_t) (force_addition : Bool) : Option Outcome :=
  let rc := SLAP_CB_CONTINUE
  let is_synth_attr_requested := (member_requested am op.ors_attrs).1
  let is_src_attr_requested := (member_requested am op.ors_attrs).2
  if force_addition || is_synth_attr_requested then
    match rs.sr_entry.bind (fun p => heap[p]?.map (fun e => (p, e))) with
    | none => none
    | some (orig_e, orig) =>
      let dst := attr_find orig.e_attrs am.attr_member
      match dst with
      | some _ => some ⟨rc, rs, heap, []⟩
      | none =>
        match source_attr host heap am orig is_src_attr_requested with
        | none => none
        | some (none, trace) => some ⟨rc, rs, heap, trace⟩
        | some (some src, trace) =>
          match src.a_vals with
          | none => some ⟨rc, rs, heap, trace⟩
          | some a_vals =>
            let attr_idx := (bvarray_vals a_vals).length
            let dst_vals : List (Option BerValue) := List.replicate (attr_idx + 1) none
            let (dst_vals, out_idx, _) := xform_loop host am.synth_tmpl a_vals dst_vals 0 0
            if out_idx > 0 then
              let dst_vals := dst_vals.set out_idx (some BER_BVZERO)
              match bvarray_walk host dst_vals 0 with
              | none => none
              | some vals =>
                match merge_into_reply heap rs orig_e am.attr_member vals with
                | none => none
                | some (rs1, heap1) => some ⟨rc, rs1, heap1, trace⟩
            else
              match bvarray_walk host dst_vals 0 with
              | none => none
              | some _ => some ⟨rc, rs, heap, trace⟩
  else some ⟨rc, rs, heap, []⟩

/-! ## Reverse synthesis (lines 463-687) -/

/-- The function `automember_collect_memberof_dn_per_entry` (lines 468-494): the new
`*(sc_ctxt->dn_list)` and the status returned; `none` when `rs->sr_entry`
designates no entry. -/
def automember_collect_memberof_dn_per_entry (heap : List Entry)
    (dn_list : Option (List BerValue)) (rs : SlapReply) : Option (Option (List BerValue) × Int) :=
  match rs.sr_type, rs.sr_entry with
  | slap_reply_t.REP_SEARCH, some p =>
    match heap[p]? with
    | none => none
    | some ent =>
      let n := match dn_list with
        | some l => (bvarray_vals l).length
        | none => 0
      let old := (dn_list.getD []).take n
      some (some (old ++ [ber_bvdup ent.e_name, BER_BVZERO]), LDAP_SUCCESS)
  | _, _ => some (dn_list, LDAP_SUCCESS)

/-- The host's search delivering its replies, one after the other, to the
callback `automember_collect_memberof_dn_per_entry`. -/
def deliver_replies (heap : List Entry) :
    List SlapReply → Option (List BerValue) → Option (Option (List BerValue))
  | [], dn_list => some dn_list
  | r :: rest, dn_list =>
    match automember_collect_memberof_dn_per_entry heap dn_list r with
    | none => none
    | some (dn_list1, _) => deliver_replies heap rest dn_list1

/-- The format string `filter_fmt` of line 504. -/
def filter_fmt : List Char := "(&(objectClass=%s)(memberUid=%s))".toList

/-- C `snprintf` restricted to `%s` conversions: the formatted string,
before truncation to the buffer size. -/
def format_s : List Char → List (List Char) → List Char
  | [], _ => []
  | [c], _ => [c]
  | c :: d :: rest, args =>
    if c = Char.ofNat 37 ∧ d = Char.ofNat 115 then
      match args with
      | a :: more => a ++ format_s rest more
      | [] => format_s rest []
    else c :: format_s (d :: rest) args

/-- Modelled from the spec: the constants `LDAP_REQ_SEARCH`,
`LDAP_SCOPE_SUBTREE`, `LDAP_DEREF_NEVER` and `SLAP_NO_LIMIT` of the host's
headers, absent from src/; the internal query is a subtree search without
limits (§4.5 step 2). -/
def LDAP_REQ_SEARCH : Nat := 99

/-- Modelled from the spec: see `LDAP_REQ_SEARCH`. -/
def LDAP_SCOPE_SUBTREE : Int := 2

/-- Modelled from the spec: see `LDAP_REQ_SEARCH`. -/
def LDAP_DEREF_NEVER : Int := 0

/-- Modelled from the spec: see `LDAP_REQ_SEARCH`. -/
def SLAP_NO_LIMIT : Int := -1

/-- Modelled from the spec: `slap_anlist_no_attrs` is a host table absent
from src/; the request list that asks for identities only (§4.5 step 2). -/
def slap_anlist_no_attrs : List AttributeName := [⟨"1.1".toList, none⟩]

/-- Outcome of `automember_collect_memberof_dn`: status, `*out_dn_list`, and
the collaborator calls made. -/
structure CollectResult where
  rc : Int
  out_dn_list : Option (List BerValue)
  trace : List Event
deriving DecidableEq, Repr

/-- Lines 533-561: the internal search operation `op2`, a copy of `op` with
the search fields set. -/
def internal_search_op (op : Operation) (filter : Filter) (filter_str : BerValue) : Operation :=
  let be : BackendDB := { op.o_bd with bd_info := BackendInfo.on_info }
  { op with
    o_bd := be
    o_tag := LDAP_REQ_SEARCH
    o_req_dn := op.o_bd.be_suffix.headD BER_BVZERO
    o_req_ndn := op.o_bd.be_nsuffix.headD BER_BVZERO
    o_dn := op.o_bd.be_rootdn
    o_ndn := op.o_bd.be_rootndn
    ors_scope := LDAP_SCOPE_SUBTREE
    ors_deref := LDAP_DEREF_NEVER
    ors_slimit := SLAP_NO_LIMIT
    ors_tlimit := SLAP_NO_LIMIT
    ors_attrs := some slap_anlist_no_attrs
    ors_attrsonly := 0
    o_do_not_cache := true
    ors_filter := some filter
    ors_filterstr := filter_str
    o_callback := some slap_callback.collect_memberof_dn_per_entry }

/-- Line 516: the length computed for the filter string. -/
def filter_bv_len (oc : ObjectClass) (uid_value : BerValue) : Nat :=
  filter_fmt.length - 4 + oc.soc_cname.length + (uid_value.bv_val.getD []).length

/-- Line 522: what `snprintf` leaves in the buffer of `filter_bv_len + 1`
bytes. -/
def filter_buffer (oc : ObjectClass) (uid_value : BerValue) : List Char :=
  (format_s filter_fmt [oc.soc_cname, uid_value.bv_val.getD []]).take (filter_bv_len oc uid_value)

/-- What a `BackendDB *` of lines 505-561 designates: the database of the
triggering operation, `*op->o_bd`, or the local variable `be`. -/
inductive BdRef where
  | of_op
  | of_be
deriving DecidableEq, Repr

/-- The variables that lines 506 and 533-561 read and write: the triggering
operation `*op` (with its database `*op->o_bd` in `op.o_bd`), the locals `be`
and `op2`, and what the pointer `op2.o_bd` designates. -/
structure SearchSetup where
  op : Operation
  be : BackendDB
  op2 : Operation
  op2_bd : BdRef
deriving DecidableEq, Repr

/-- The assignment `op2.o_bd->bd_info = x` of line 539: it writes to the
database that `op2.o_bd` designates. -/
def SearchSetup.write_bd_info (s : SearchSetup) (x : BackendInfo) : SearchSetup :=
  match s.op2_bd with
  | BdRef.of_be => { s with be := { s.be with bd_info := x } }
  | BdRef.of_op => { s with op := { s.op with o_bd := { s.op.o_bd with bd_info := x } } }

/-- Lines 506 and 533-561, statement by statement: `be = *op->o_bd`,
`op2 = *op`, `op2.o_bd = &be`, `op2.o_bd->bd_info = on->on_info`, then the
fields of `op2`. -/
def search_setup (op : Operation) (filter : Filter) (filter_str : BerValue) : SearchSetup :=
  let s0 : SearchSetup := ⟨op, op.o_bd, op, BdRef.of_op⟩
  let s1 : SearchSetup := { s0 with op2_bd := BdRef.of_be }
  let s2 : SearchSetup := s1.write_bd_info BackendInfo.on_info
  { s2 with
    op2 :=
      { s2.op2 with
        o_tag := LDAP_REQ_SEARCH
        o_req_dn := s2.op.o_bd.be_suffix.headD BER_BVZERO
        o_req_ndn := s2.op.o_bd.be_nsuffix.headD BER_BVZERO
        o_dn := s2.op.o_bd.be_rootdn
        o_ndn := s2.op.o_bd.be_rootndn
        ors_scope := LDAP_SCOPE_SUBTREE
        ors_deref := LDAP_DEREF_NEVER
        ors_slimit := SLAP_NO_LIMIT
        ors_tlimit := SLAP_NO_LIMIT
        ors_attrs := some slap_anlist_no_attrs
        ors_attrsonly := 0
        o_do_not_cache := true
        ors_filter := some filter
        ors_filterstr := filter_str
        o_callback := some slap_callback.collect_memberof_dn_per_entry } }

/-- The operation that `be_search(&op2, &rs2)` receives: `op2` with the
database that `op2.o_bd` designates. -/
def SearchSetup.search_op (s : SearchSetup) : Operation :=
  { s.op2 with
    o_bd :=
      match s.op2_bd with
      | BdRef.of_be => s.be
      | BdRef.of_op => s.op.o_bd }

/-- The largest value of a C `int`. -/
def INT_MAX : Nat := 2147483647

/-- The value that C `snprintf` returns, an `int`: the length of the
formatted string, and a negative value, -1, when that length is more than
`INT_MAX`. -/
def snprintf_ret (len : Nat) : Int :=
  if len ≤ INT_MAX then (len : Int) else -1

/-- The conversion of an `int` to `ber_len_t`, an unsigned type of 64 bits,
that the comparison `rc > filter_str.bv_len` of line 523 makes. -/
def to_ber_len_t (x : Int) : Nat := (x % 18446744073709551616).toNat

/-- The function `automember_collect_memberof_dn` (lines 496-585); `none` is a
fault. -/
def automember_collect_memberof_dn (host : Host) (heap : List Entry) (op : Operation)
    (oc : ObjectClass) (uid_value : BerValue) : Option CollectResult :=
  let filter_str : BerValue := ⟨filter_bv_len oc uid_value, some (filter_buffer oc uid_value)⟩
  let rc : Int := snprintf_ret (format_s filter_fmt [oc.soc_cname, uid_value.bv_val.getD []]).length
  if to_ber_len_t rc > filter_str.bv_len then some ⟨LDAP_OTHER, none, []⟩
  else
    match host.str2filter_x (filter_buffer oc uid_value) with
    | some filter =>
      let op2 := internal_search_op op filter filter_str
      let (replies, rc) := host.be_search op2
      match deliver_replies heap replies none with
      | none => none
      | some dn_list =>
        if rc = LDAP_SUCCESS then some ⟨LDAP_SUCCESS, dn_list, [Event.search op2]⟩
        else some ⟨LDAP_SUCCESS, none, [Event.search op2]⟩
    | none => some ⟨LDAP_OTHER, none, []⟩

/-- The scan of the request list in `automember_populate_memberof_attr`,
lines 615-637. -/
def memberof_scan (am : automember_t) : List AttributeName → Bool → Bool
  | [], synth => synth
  | an :: rest, synth =>
    if synth then synth
    else if bvmatch an.an_name slap_anlist_all_user_attributes then
      memberof_scan am rest (synth || !am.attr_memberof.ad_operational)
    else if bvmatch an.an_name slap_anlist_all_operational_attributes then
      memberof_scan am rest (synth || am.attr_memberof.ad_operational)
    else if an.an_desc = some am.attr_memberof then memberof_scan am rest true
    else memberof_scan am rest synth

/-- Lines 607-638: `is_synth_attr_requested` of reverse synthesis. -/
def memberof_requested (am : automember_t) (an : Option (List AttributeName)) : Bool :=
  match an with
  | none => !am.attr_memberof.ad_operational
  | some l => memberof_scan am l false

/-- The function `automember_populate_memberof_attr` (lines 587-687); `none` is a fault
(an address that designates no entry, or `am->oc_member` NULL, is
dereferenced). -/
def automember_populate_memberof_attr (host : Host) (heap : List Entry) (op : Operation)
    (rs : SlapReply) (am : automember_t) (force_addition : Bool) : Option Outcome :=
  let rc := SLAP_CB_CONTINUE
  let is_synth_attr_requested := memberof_requested am op.ors_attrs
  if force_addition || is_synth_attr_requested then
    match rs.sr_entry.bind (fun p => heap[p]?.map (fun e => (p, e))) with
    | none => none
    | some (orig_e, orig) =>
      let uid := attr_find orig.e_attrs am.attr_uid
      let memberof := attr_find orig.e_attrs am.attr_memberof
      match memberof with
      | some _ => some ⟨rc, rs, heap, []⟩
      | none =>
        match uid with
        | none => some ⟨SLAP_CB_CONTINUE, rs, heap, []⟩
        | some uid =>
          match uid.a_vals with
          | none => some ⟨SLAP_CB_CONTINUE, rs, heap, []⟩
          | some a_vals =>
            match bvarray_vals a_vals with
            | [] => some ⟨SLAP_CB_CONTINUE, rs, heap, []⟩
            | uid0 :: more =>
              let attr_idx := (uid0 :: more).length
              if attr_idx > 1 then some ⟨SLAP_CB_CONTINUE, rs, heap, []⟩
              else
                match am.oc_member with
                | none => none
                | some oc =>
                  match automember_collect_memberof_dn host heap op oc uid0 with
                  | none => none
                  | some c =>
                    match c.out_dn_list with
                    | some dn_list =>
                      if c.rc = LDAP_SUCCESS then
                        match merge_into_reply heap rs orig_e am.attr_memberof dn_list with
                        | none => none
                        | some (rs1, heap1) => some ⟨SLAP_CB_CONTINUE, rs1, heap1, c.trace⟩
                      else some ⟨SLAP_CB_CONTINUE, rs, heap, c.trace⟩
                    | none => some ⟨SLAP_CB_CONTINUE, rs, heap, c.trace⟩
  else some ⟨rc, rs, heap, []⟩

/-! ## Invocation modes (lines 689-780) -/

/-- The function `automember_response` (lines 692-733), the post-query
mode.  In the test of line 705 the attribute descriptions and the template
are never NULL (see `automember_t`), so it comes down to `am->oc_member`.
`none` is a fault: `rs->sr_entry` designates no entry. -/
def automember_response (host : Host) (heap : List Entry) (op : Operation)
    (rs : SlapReply) (am : automember_t) : Option Outcome :=
  let rc := SLAP_CB_CONTINUE
  match am.oc_member with
  | none => some ⟨SLAP_CB_CONTINUE, rs, heap, []⟩
  | some oc_member =>
    if rs.sr_type = slap_reply_t.REP_SEARCH then
      match rs.sr_entry with
      | none => some ⟨rc, rs, heap, []⟩
      | some p =>
        match heap[p]? with
        | none => none
        | some e =>
          if host.is_entry_objectclass_or_sub e oc_member then
            automember_populate_member_attr host heap op rs am false
          else
            match am.oc_memberof with
            | none => some ⟨rc, rs, heap, []⟩
            | some oc_memberof =>
              if host.is_entry_objectclass_or_sub e oc_memberof then
                automember_populate_memberof_attr host heap op rs am false
              else some ⟨rc, rs, heap, []⟩
    else some ⟨rc, rs, heap, []⟩

/-- The function `automember_search_cb` (lines 739-780), the pre-query mode:
as `automember_response`, without the test of `rs->sr_type` and with
`force_addition = 1`. -/
def automember_search_cb (host : Host) (heap : List Entry) (op : Operation)
    (rs : SlapReply) (am : automember_t) : Option Outcome :=
  let rc := SLAP_CB_CONTINUE
  match am.oc_member with
  | none => some ⟨SLAP_CB_CONTINUE, rs, heap, []⟩
  | some oc_member =>
    match rs.sr_entry with
    | none => some ⟨rc, rs, heap, []⟩
    | some p =>
      match heap[p]? with
      | none => none
      | some e =>
        if host.is_entry_objectclass_or_sub e oc_member then
          automember_populate_member_attr host heap op rs am true
        else
          match am.oc_memberof with
          | none => some ⟨rc, rs, heap, []⟩
          | some oc_memberof =>
            if host.is_entry_objectclass_or_sub e oc_memberof then
              automember_populate_memberof_attr host heap op rs am true
            else some ⟨rc, rs, heap, []⟩

/-! ## Configuration (lines 71-163) -/

/-- The enumeration of lines 72-76: the value of `c->type` for the directive
`automember-member-objectclass`. -/
def CFG_AUTOMEMBER_MEMBER_OBJECTCLASS : Int := 1

/-- The enumeration of lines 72-76: the directive `automember-synth-template`. -/
def CFG_AUTOMEMBER_SYNTHTMPL : Int := 2

/-- The enumeration of lines 72-76: the directive
`automember-memberof-objectclass`. -/
def CFG_AUTOMEMBER_MEMBEROF_OBJECTCLASS : Int := 3

/-- The value of `c->op` as far as the `switch` of line 88 tells it apart:
the two constants named there, and every other value (a setting is added or
replaced). -/
inductive ConfigOp where
  | SLAP_CONFIG_EMIT
  | LDAP_MOD_DELETE
  | other
deriving DecidableEq, Repr

/-- The fields of `ConfigArgs` that `automember_config` reads or writes. -/
structure ConfigArgs where
  op : ConfigOp
  type : Int
  argc : Int
  argv : List (List Char)
  cr_msg : List Char
deriving DecidableEq, Repr

/-- The services of the host that `automember_config` calls, and the size of
the message buffer `c->cr_msg`, whose declaration is in the host's headers. -/
structure ConfigHost where
  /-- The call `oc_find(name)`: `none` for NULL, the class is not in the
  schema. -/
  oc_find : List Char → Option ObjectClass
  /-- The call `ber_strdup(s)`: `none` for NULL. -/
  ber_strdup : List Char → Option (List Char)
  /-- The value of `sizeof(c->cr_msg)`. -/
  cr_msg_size : Nat

/-- What `automember_config` returns and leaves behind: the status, the
instance configuration `*am` and the message buffer `c->cr_msg`. -/
structure ConfigResult where
  rc : Int
  am : automember_t
  cr_msg : List Char
deriving DecidableEq, Repr

/-- The call `snprintf(c->cr_msg, sizeof(c->cr_msg), fmt, ...)`: the
formatted string cut to the buffer. -/
def cr_msg_snprintf (ch : ConfigHost) (fmt : List Char) (args : List (List Char)) : List Char :=
  (format_s fmt args).take (ch.cr_msg_size - 1)

/-- The function `automember_config` (lines 79-163); `none` is a fault:
`c->argv[1]` is read and `argv` has no such element. -/
def automember_config (ch : ConfigHost) (c : ConfigArgs) (am : automember_t) :
    Option ConfigResult :=
  match c.op with
  | ConfigOp.SLAP_CONFIG_EMIT => some ⟨0, am, c.cr_msg⟩
  | ConfigOp.LDAP_MOD_DELETE => some ⟨0, am, c.cr_msg⟩
  | ConfigOp.other =>
    if c.type = CFG_AUTOMEMBER_MEMBER_OBJECTCLASS then
      if c.argc ≠ 2 then
        some ⟨1, am, cr_msg_snprintf ch
          "automember: automember_config:  expects 'automember-member-objectClass <oc-name>'".toList
          []⟩
      else
        match c.argv[1]? with
        | none => none
        | some name =>
          let am1 : automember_t := { am with oc_member := ch.oc_find name }
          match am1.oc_member with
          | none =>
            some ⟨1, am1, cr_msg_snprintf ch
              "automember: automember_config:  'member' objectClass '%s' is undefined".toList
              [name]⟩
          | some _ => some ⟨0, am1, c.cr_msg⟩
    else if c.type = CFG_AUTOMEMBER_MEMBEROF_OBJECTCLASS then
      if c.argc ≠ 2 then
        some ⟨1, am, cr_msg_snprintf ch
          "automember: automember_config:  expects 'automember-memberof-objectClass <oc-name>'".toList
          []⟩
      else
        match c.argv[1]? with
        | none => none
        | some name =>
          let am1 : automember_t := { am with oc_memberof := ch.oc_find name }
          match am1.oc_memberof with
          | none =>
            some ⟨1, am1, cr_msg_snprintf ch
              "automember: automember_config:  'memberof' objectClass '%s' is undefined".toList
              [name]⟩
          | some _ => some ⟨0, am1, c.cr_msg⟩
    else if c.type = CFG_AUTOMEMBER_SYNTHTMPL then
      if c.argc ≠ 2 then
        some ⟨1, am, cr_msg_snprintf ch
          "automember: automember_config:  expects 'automember-synth-template <tmpl-string>'".toList
          []⟩
      else
        match c.argv[1]? with
        | none => none
        | some tmpl =>
          match ch.ber_strdup tmpl with
          | none =>
            some ⟨1, am, cr_msg_snprintf ch
              "automember: automember_config:  failed to duplicate template string ".toList []⟩
          | some arg_copy => some ⟨0, { am with synth_tmpl := arg_copy }, c.cr_msg⟩
    else some ⟨0, am, c.cr_msg⟩

/-! ## Specification-side definitions -/

/-- Number of occurrences of the placeholder in a template: the positions
at which an opening brace is directly followed by a closing brace. -/
def token_count : List Char → Nat
  | [] => 0
  | [_] => 0
  | c :: d :: rest =>
    (if c = LBRACE ∧ d = RBRACE then 1 else 0) + token_count (d :: rest)

/-- The expansion as §4.1 words it: scanning left to right, each occurrence
of the placeholder contributes the source value, every other byte is copied
verbatim. -/
def expand_spec (v : List Char) : List Char → List Char
  | [] => []
  | [c] => [c]
  | c :: d :: rest =>
    if c = LBRACE ∧ d = RBRACE then v ++ expand_spec v rest
    else c :: expand_spec v (d :: rest)

/-- The pieces of a template split at the placeholder. -/
def split_at_token : List Char → List (List Char)
  | [] => [[]]
  | [c] => [[c]]
  | c :: d :: rest =>
    if c = LBRACE ∧ d = RBRACE then [] :: split_at_token rest
    else
      match split_at_token (d :: rest) with
      | p :: ps => (c :: p) :: ps
      | [] => [[c]]

/-- An explicit entry of the request list for the attribute `attr`: an
entry that is neither wildcard and whose description is `attr`. -/
def explicit_entry (attr : AttributeDescription) (an : AttributeName) : Prop :=
  an.an_name ≠ slap_anlist_all_user_attributes ∧
  an.an_name ≠ slap_anlist_all_operational_attributes ∧
  an.an_desc = some attr

/-- The classifier as §4.2 words it for a present request list: the list
holds the all-user-attributes wildcard and the attribute is not operational,
or it holds the all-operational-attributes wildcard and the attribute is
operational, or it holds an explicit entry for the attribute. -/
def requested_by_list (l : List AttributeName) (attr : AttributeDescription) : Prop :=
  ((∃ an ∈ l, an.an_name = slap_anlist_all_user_attributes) ∧ attr.ad_operational = false) ∨
  ((∃ an ∈ l, an.an_name = slap_anlist_all_operational_attributes) ∧ attr.ad_operational = true) ∨
  (∃ an ∈ l, explicit_entry attr an)

/-- The scan of lines 356-385 without its early exit: every entry of the
list is looked at. -/
def member_scan_no_exit (am : automember_t) :
    List AttributeName → Bool → Bool → Bool × Bool
  | [], synth, src => (synth, src)
  | an :: rest, synth, src =>
    if bvmatch an.an_name slap_anlist_all_user_attributes then
      member_scan_no_exit am rest (synth || !am.attr_member.ad_operational)
        (src || !am.attr_memberuid.ad_operational)
    else if bvmatch an.an_name slap_anlist_all_operational_attributes then
      member_scan_no_exit am rest (synth || am.attr_member.ad_operational)
        (src || am.attr_memberuid.ad_operational)
    else if an.an_desc = some am.attr_memberuid then member_scan_no_exit am rest synth true
    else if an.an_desc = some am.attr_member then member_scan_no_exit am rest true src
    else member_scan_no_exit am rest synth src

/-- The scan of lines 615-637 without its early exit. -/
def memberof_scan_no_exit (am : automember_t) : List AttributeName → Bool → Bool
  | [], synth => synth
  | an :: rest, synth =>
    if bvmatch an.an_name slap_anlist_all_user_attributes then
      memberof_scan_no_exit am rest (synth || !am.attr_memberof.ad_operational)
    else if bvmatch an.an_name slap_anlist_all_operational_attributes then
      memberof_scan_no_exit am rest (synth || am.attr_memberof.ad_operational)
    else if an.an_desc = some am.attr_memberof then memberof_scan_no_exit am rest true
    else memberof_scan_no_exit am rest synth

/-- Boolean form of `requested_by_list`, used to state loop invariants. -/
def req_bool (l : List AttributeName) (attr : AttributeDescription) : Bool :=
  (l.any (fun an => bvmatch an.an_name slap_anlist_all_user_attributes) && !attr.ad_operational) ||
  (l.any (fun an => bvmatch an.an_name slap_anlist_all_operational_attributes) && attr.ad_operational) ||
  l.any (fun an => !bvmatch an.an_name slap_anlist_all_user_attributes &&
    !bvmatch an.an_name slap_anlist_all_operational_attributes && decide (an.an_desc = some attr))

/-- The entry the reply designates carries the attribute `desc`. -/
def carries (heap : List Entry) (rs : SlapReply) (desc : AttributeDescription) : Bool :=
  match rs.sr_entry.bind (fun p => heap[p]?) with
  | some e => (attr_find e.e_attrs desc).isSome
  | none => false

/-- The copy-on-write discipline as §3 and §4.3 word it, for a reply whose
entry `orig` sits at address `p` and receives the attribute `desc`: the
entry extended is the reply's own entry exactly when the reply was flagged
modifiable, and then nothing is duplicated and the reply is as before;
otherwise every entry of the heap, `orig` included, is as before, a
duplicate with the same identity, the same attributes and values and the
new attribute is added, the reply designates it, and of the ownership flags
exactly modifiable and must-be-freed are set. -/
def copy_on_write_outcome (heap : List Entry) (rs : SlapReply) (p : Nat) (orig : Entry)
    (desc : AttributeDescription) (out : Outcome) : Prop :=
  ∃ derived : List BerValue,
    (out.rs.sr_entry = rs.sr_entry ↔ rs.sr_flags.REP_ENTRY_MODIFIABLE = true) ∧
    (rs.sr_flags.REP_ENTRY_MODIFIABLE = true →
      out.rs = rs ∧ out.heap.length = heap.length ∧
      out.heap = heap.set p ⟨orig.e_name, orig.e_nname, orig.e_attrs ++ [⟨desc, some derived⟩]⟩) ∧
    (rs.sr_flags.REP_ENTRY_MODIFIABLE = false →
      out.heap = heap ++ [⟨orig.e_name, orig.e_nname, orig.e_attrs ++ [⟨desc, some derived⟩]⟩] ∧
      out.heap[p]? = some orig ∧
      out.rs = ⟨rs.sr_type, some heap.length, ⟨true, true, false, rs.sr_flags.other_bits⟩⟩)

/-- The identities of the entries that a sequence of replies delivers as
search replies, in the order of delivery and with duplicates kept. -/
def delivered_identities (heap : List Entry) (replies : List SlapReply) : List BerValue :=
  replies.filterMap (fun r =>
    match r.sr_type, r.sr_entry with
    | slap_reply_t.REP_SEARCH, some p => heap[p]?.map (fun e => e.e_name)
    | _, _ => none)

/-- The array `*(sc_ctxt->dn_list)` holding the given identities: NULL
while there is none, else the identities followed by the terminator. -/
def dn_list_of (dns : List BerValue) : Option (List BerValue) :=
  if dns = [] then none else some (dns ++ [BER_BVZERO])

/-- The value that §4.1 and the length law of §8 give for a template and a
source value: the expansion of the template, with its length. -/
def expand_value (tmpl : List Char) (v : BerValue) : BerValue :=
  ⟨tmpl.length - 2 * token_count tmpl + token_count tmpl * (v.bv_val.getD []).length,
   some (expand_spec (v.bv_val.getD []) tmpl)⟩

/-- The berval that `automember_xform_uid_to_dn` stores on its path of lines
230-285 for a template and a source value: the length that the counting
pass computed, and the buffer, which for the empty template is as the
allocator left it. -/
def stored_value (fresh_b tmpl : List Char) (v : BerValue) : BerValue :=
  ⟨tmpl.length - 2 * token_count tmpl + token_count tmpl * (v.bv_val.getD []).length,
   some (if tmpl = [] then fresh_b else expand_spec (v.bv_val.getD []) tmpl)⟩

/-- The slots that the loop of lines 414-423 has written for the source
values `vs`, the first of them being the value `j` of the attribute. -/
def stored_values (host : Host) (tmpl : List Char) : List BerValue → Nat → List (Option BerValue)
  | [], _ => []
  | v :: vs, j =>
    some (stored_value (host.fresh_buffer j) tmpl v) :: stored_values host tmpl vs (j + 1)

/-- What a walk reads in slot `i` of an array when the slot was never
written and the pointer in it is not wild: the `bv_len` bytes that the
allocator left. -/
def leftover_value (host : Host) (i : Nat) : BerValue :=
  ⟨(host.fresh_slot i).bv_len,
   (host.fresh_slot i).bv_val.map (List.take (host.fresh_slot i).bv_len)⟩

/-- Every attribute of every entry has a value, as the host keeps its
entries: a value array that is not NULL starts with a value. -/
def attrs_have_values (heap : List Entry) : Prop :=
  ∀ e ∈ heap, ∀ a ∈ e.e_attrs, ∀ l : List BerValue, a.a_vals = some l → bvarray_vals l ≠ []

/-- The host hands out addresses of entries only: what the point-read
returns and what the replies of a search designate are entries of the heap. -/
def host_wf (host : Host) (heap : List Entry) : Prop :=
  (∀ (ndn : BerValue) (oc : Option ObjectClass) (ad : AttributeDescription) (p : Nat),
    (host.overlay_entry_get_ov ndn oc ad).2 = some p → p < heap.length) ∧
  (∀ (op2 : Operation) (r : SlapReply), r ∈ (host.be_search op2).1 →
    ∀ q : Nat, r.sr_entry = some q → q < heap.length)

/-- An internal search is among the collaborator calls. -/
def searches (trace : List Event) : Bool :=
  trace.any (fun ev =>
    match ev with
    | Event.search _ => true
    | Event.point_read _ _ _ => false)

/-- A point-read is among the collaborator calls. -/
def point_reads (trace : List Event) : Bool :=
  trace.any (fun ev =>
    match ev with
    | Event.search _ => false
    | Event.point_read _ _ _ => true)

/-- The internal query as §4.5 step 2 words it, for the triggering operation
`op` and the search operation `op2`: the same database (its identity, its
suffixes and its root identity are those of the triggering operation's
database), the first suffix as base and subtree scope, the root identity
of the database as the identity of the search, no size and no time limit,
no attribute requested, and the do-not-cache flag set. -/
def internal_query_as_specified (op op2 : Operation) : Prop :=
  op2.o_tag = LDAP_REQ_SEARCH ∧
  op2.o_bd.db_id = op.o_bd.db_id ∧
  op2.o_bd.be_suffix = op.o_bd.be_suffix ∧ op2.o_bd.be_nsuffix = op.o_bd.be_nsuffix ∧
  op2.o_bd.be_rootdn = op.o_bd.be_rootdn ∧ op2.o_bd.be_rootndn = op.o_bd.be_rootndn ∧
  op2.o_req_dn = op.o_bd.be_suffix.headD BER_BVZERO ∧
  op2.o_req_ndn = op.o_bd.be_nsuffix.headD BER_BVZERO ∧
  op2.ors_scope = LDAP_SCOPE_SUBTREE ∧
  op2.o_dn = op.o_bd.be_rootdn ∧ op2.o_ndn = op.o_bd.be_rootndn ∧
  op2.ors_slimit = SLAP_NO_LIMIT ∧ op2.ors_tlimit = SLAP_NO_LIMIT ∧
  op2.ors_attrs = some slap_anlist_no_attrs ∧
  op2.o_do_not_cache = true

/-- The outcome of attaching the values `vals` under `desc` to the entry
`orig` at address `p` of the reply, with the copy-on-write discipline of
§4.3: in place when the reply is flagged modifiable, else on a duplicate
that replaces the reply's entry. -/
def attach_outcome (heap : List Entry) (rs : SlapReply) (p : Nat) (orig : Entry)
    (desc : AttributeDescription) (vals : List BerValue) (trace : List Event) : Outcome :=
  if rs.sr_flags.REP_ENTRY_MODIFIABLE then
    ⟨SLAP_CB_CONTINUE, rs,
     heap.set p ⟨orig.e_name, orig.e_nname, orig.e_attrs ++ [⟨desc, some vals⟩]⟩, trace⟩
  else
    ⟨SLAP_CB_CONTINUE,
     ⟨rs.sr_type, some heap.length, ⟨true, true, false, rs.sr_flags.other_bits⟩⟩,
     heap ++ [⟨orig.e_name, orig.e_nname, orig.e_attrs ++ [⟨desc, some vals⟩]⟩], trace⟩

/-! ## Example data for the witnesses -/

/-- The `objectClass` attribute description. -/
def ex_attr_oc : AttributeDescription := ⟨"objectClass".toList, false⟩

/-- The `memberUid` attribute description, a user attribute. -/
def ex_attr_memberuid : AttributeDescription := ⟨"memberUid".toList, false⟩

/-- The `member` attribute description, a user attribute. -/
def ex_attr_member : AttributeDescription := ⟨"member".toList, false⟩

/-- The `memberOf` attribute description, registered as operational
(lines 32-40). -/
def ex_attr_memberof : AttributeDescription := ⟨"memberOf".toList, true⟩

/-- The `uid` attribute description, a user attribute. -/
def ex_attr_uid : AttributeDescription := ⟨"uid".toList, false⟩

/-- The berval of a string. -/
def ex_bv (s : String) : BerValue := ⟨s.length, some s.toList⟩

/-- A configuration with both gates and the template of the first scenario
of §8. -/
def ex_am : automember_t :=
  { attr_oc := ex_attr_oc
    attr_memberuid := ex_attr_memberuid
    attr_member := ex_attr_member
    attr_memberof := ex_attr_memberof
    attr_uid := ex_attr_uid
    oc_member := some ⟨"posixGroup".toList⟩
    oc_memberof := some ⟨"posixAccount".toList⟩
    synth_tmpl := "uid=\x7b\x7d,ou=People,dc=example,dc=com".toList }

/-- The same configuration with the default (identity) template. -/
def ex_am_identity : automember_t :=
  { ex_am with synth_tmpl := automember_default_synth_tmpl }

/-- A reply of a search, its entry at address 0, flagged neither modifiable
nor to be freed: the entry is shared. -/
def ex_rs : SlapReply := ⟨slap_reply_t.REP_SEARCH, some 0, ⟨false, false, false, 0⟩⟩

/-- The same reply flagged modifiable. -/
def ex_rs_modifiable : SlapReply := ⟨slap_reply_t.REP_SEARCH, some 0, ⟨true, false, false, 0⟩⟩

/-- A database with one suffix. -/
def ex_bd : BackendDB :=
  ⟨0, BackendInfo.overinst, [ex_bv "dc=example,dc=com"], [ex_bv "dc=example,dc=com"],
   ex_bv "cn=root,dc=example,dc=com", ex_bv "cn=root,dc=example,dc=com"⟩

/-- A search operation without request list. -/
def ex_op : Operation :=
  { o_bd := ex_bd
    o_tag := LDAP_REQ_SEARCH
    o_req_dn := ex_bv "dc=example,dc=com"
    o_req_ndn := ex_bv "dc=example,dc=com"
    o_dn := ex_bv "uid=carol,ou=People,dc=example,dc=com"
    o_ndn := ex_bv "uid=carol,ou=people,dc=example,dc=com"
    ors_scope := LDAP_SCOPE_SUBTREE
    ors_deref := LDAP_DEREF_NEVER
    ors_slimit := 500
    ors_tlimit := 3600
    ors_attrs := none
    ors_attrsonly := 0
    o_do_not_cache := false
    ors_filter := none
    ors_filterstr := BER_BVZERO
    o_callback := none }

/-- The same operation asking for `memberOf` only. -/
def ex_op_memberof : Operation :=
  { ex_op with ors_attrs := some [⟨"memberOf".toList, some ex_attr_memberof⟩] }

/-- A group entry with two `memberUid` values and no `member`. -/
def ex_group : Entry :=
  ⟨ex_bv "cn=staff,ou=Groups,dc=example,dc=com", ex_bv "cn=staff,ou=groups,dc=example,dc=com",
   [⟨ex_attr_memberuid, some [ex_bv "alice", ex_bv "bob"]⟩]⟩

/-- A group entry that already carries `member`. -/
def ex_group_with_member : Entry :=
  ⟨ex_bv "cn=staff,ou=Groups,dc=example,dc=com", ex_bv "cn=staff,ou=groups,dc=example,dc=com",
   [⟨ex_attr_memberuid, some [ex_bv "alice"]⟩,
    ⟨ex_attr_member, some [ex_bv "uid=zed,ou=People,dc=example,dc=com"]⟩]⟩

/-- A group entry whose single source value is a distinguished name. -/
def ex_group_dn : Entry :=
  ⟨ex_bv "cn=all,ou=Groups,dc=example,dc=com", ex_bv "cn=all,ou=groups,dc=example,dc=com",
   [⟨ex_attr_memberuid, some [ex_bv "cn=admins,ou=Groups,dc=example,dc=com"]⟩]⟩

/-- A user entry with the identifying value `alice`. -/
def ex_user : Entry :=
  ⟨ex_bv "uid=alice,ou=People,dc=example,dc=com", ex_bv "uid=alice,ou=people,dc=example,dc=com",
   [⟨ex_attr_uid, some [ex_bv "alice"]⟩]⟩

/-- The first group that references `alice`. -/
def ex_admins : Entry :=
  ⟨ex_bv "cn=admins,ou=Groups,dc=example,dc=com", ex_bv "cn=admins,ou=groups,dc=example,dc=com",
   [⟨ex_attr_memberuid, some [ex_bv "alice"]⟩]⟩

/-- The second group that references `alice`. -/
def ex_staff : Entry :=
  ⟨ex_bv "cn=staff,ou=Groups,dc=example,dc=com", ex_bv "cn=staff,ou=groups,dc=example,dc=com",
   [⟨ex_attr_memberuid, some [ex_bv "alice", ex_bv "bob"]⟩]⟩

/-- A host whose allocator leaves the bytes `junk` in fresh memory, readable,
whose point-read finds nothing, and whose search delivers the entries at
the addresses 1 and 2 and then succeeds. -/
def ex_host : Host :=
  { overlay_entry_get_ov := fun _ _ _ => (LDAP_OTHER, none)
    fresh_slot := fun _ => ex_bv "junk"
    fresh_wild := fun _ => false
    fresh_buffer := fun _ => "J".toList
    str2filter_x := fun _ =>
      some (Filter.f_and (Filter.f_equality "objectClass".toList "posixGroup".toList)
        (Filter.f_equality "memberUid".toList "alice".toList))
    be_search := fun _ =>
      ([⟨slap_reply_t.REP_SEARCH, some 1, ⟨false, false, false, 0⟩⟩,
        ⟨slap_reply_t.REP_SEARCH, some 2, ⟨false, false, false, 0⟩⟩,
        ⟨slap_reply_t.REP_RESULT, none, ⟨false, false, false, 0⟩⟩], LDAP_SUCCESS)
    is_entry_objectclass_or_sub := fun _ _ => true }

/-- The group `ex_group` with the `member` values of the first scenario of
§8 added. -/
def ex_group_synth : Entry :=
  ⟨ex_group.e_name, ex_group.e_nname,
   ex_group.e_attrs ++
     [⟨ex_attr_member, some [ex_bv "uid=alice,ou=People,dc=example,dc=com",
                             ex_bv "uid=bob,ou=People,dc=example,dc=com"]⟩]⟩

/-- The user `ex_user` with the identities of the two groups as `memberOf`. -/
def ex_user_synth : Entry :=
  ⟨ex_user.e_name, ex_user.e_nname,
   ex_user.e_attrs ++
     [⟨ex_attr_memberof, some [ex_bv "cn=admins,ou=Groups,dc=example,dc=com",
                               ex_bv "cn=staff,ou=Groups,dc=example,dc=com"]⟩]⟩

/-- The reply after a duplicate at address `p` has replaced the entry of
`ex_rs`. -/
def ex_rs_replaced (p : Nat) : SlapReply :=
  ⟨slap_reply_t.REP_SEARCH, some p, ⟨true, true, false, 0⟩⟩

/-- The internal search that reverse synthesis builds for `alice` from
`ex_op_memberof`. -/
def ex_op2 : Operation :=
  internal_search_op ex_op_memberof
    (Filter.f_and (Filter.f_equality "objectClass".toList "posixGroup".toList)
      (Filter.f_equality "memberUid".toList "alice".toList))
    (ex_bv "(&(objectClass=posixGroup)(memberUid=alice))")

/-- The filter that `ex_host` parses every filter string to. -/
def ex_filter : Filter :=
  Filter.f_and (Filter.f_equality "objectClass".toList "posixGroup".toList)
    (Filter.f_equality "memberUid".toList "alice".toList)

/-- The replies that the search of `ex_host` delivers. -/
def ex_replies : List SlapReply :=
  [⟨slap_reply_t.REP_SEARCH, some 1, ⟨false, false, false, 0⟩⟩,
   ⟨slap_reply_t.REP_SEARCH, some 2, ⟨false, false, false, 0⟩⟩,
   ⟨slap_reply_t.REP_RESULT, none, ⟨false, false, false, 0⟩⟩]

/-- A user entry without `uid`. -/
def ex_user_no_uid : Entry :=
  ⟨ex_bv "cn=printer,ou=People,dc=example,dc=com", ex_bv "cn=printer,ou=people,dc=example,dc=com",
   [⟨ex_attr_oc, some [ex_bv "posixAccount"]⟩]⟩

/-- A user entry whose `uid` holds two values. -/
def ex_user_two_uids : Entry :=
  ⟨ex_bv "uid=alice,ou=People,dc=example,dc=com", ex_bv "uid=alice,ou=people,dc=example,dc=com",
   [⟨ex_attr_uid, some [ex_bv "alice", ex_bv "al"]⟩]⟩

/-- A host as `ex_host` whose search delivers the same two entries and then
returns a failure status. -/
def ex_host_search_fails : Host :=
  { ex_host with be_search := fun _ => (ex_replies, LDAP_OTHER) }

/-- A user entry whose `uid` is the single character `*`. -/
def ex_user_star : Entry :=
  ⟨ex_bv "cn=star,ou=People,dc=example,dc=com", ex_bv "cn=star,ou=people,dc=example,dc=com",
   [⟨ex_attr_uid, some [ex_bv "*"]⟩]⟩

/-- The filter that the grammar of LDAP filter strings gives for
`(&(objectClass=posixGroup)(memberUid=*))`: in it `memberUid=*` is a presence
test, not an equality with the value `*`. -/
def ex_filter_star : Filter :=
  Filter.f_and (Filter.f_equality "objectClass".toList "posixGroup".toList)
    (Filter.f_present "memberUid".toList)

/-- A host as `ex_host` whose parser reads
`(&(objectClass=posixGroup)(memberUid=*))` as `ex_filter_star` and rejects
every other string; its search delivers the two groups, which both carry
`memberUid`. -/
def ex_host_star : Host :=
  { ex_host with
    str2filter_x := fun s =>
      if s = "(&(objectClass=posixGroup)(memberUid=*))".toList then some ex_filter_star
      else none }

/-- The internal search that reverse synthesis builds for the identifier
`*` from `ex_op_memberof` on `ex_host_star`. -/
def ex_op2_star : Operation :=
  internal_search_op ex_op_memberof ex_filter_star
    (ex_bv "(&(objectClass=posixGroup)(memberUid=*))")

/-- The user `ex_user_star` with the identities of the two groups as
`memberOf`. -/
def ex_user_star_synth : Entry :=
  ⟨ex_user_star.e_name, ex_user_star.e_nname,
   ex_user_star.e_attrs ++
     [⟨ex_attr_memberof, some [ex_bv "cn=admins,ou=Groups,dc=example,dc=com",
                               ex_bv "cn=staff,ou=Groups,dc=example,dc=com"]⟩]⟩

/-- The operation `ex_op` asking for `member` only. -/
def ex_op_member : Operation :=
  { ex_op with ors_attrs := some [⟨"member".toList, some ex_attr_member⟩] }

/-- The group `ex_group` as it is in flight when `memberUid` was not asked
for: neither `memberUid` nor `member`. -/
def ex_group_bare : Entry :=
  ⟨ex_group.e_name, ex_group.e_nname, [⟨ex_attr_oc, some [ex_bv "posixGroup"]⟩]⟩

/-- A host as `ex_host` whose point-read succeeds and returns the entry at
address 1. -/
def ex_host_store : Host :=
  { ex_host with overlay_entry_get_ov := fun _ _ _ => (LDAP_SUCCESS, some 1) }

/-- The point-read that forward synthesis makes for the group `ex_group`. -/
def ex_point_read : Event :=
  Event.point_read ex_group.e_nname (some ⟨"posixGroup".toList⟩) ex_attr_memberuid

/-- The entry `ex_group_bare` with the given values as `member`. -/
def ex_group_bare_with (vals : List BerValue) : Entry :=
  ⟨ex_group_bare.e_name, ex_group_bare.e_nname,
   ex_group_bare.e_attrs ++ [⟨ex_attr_member, some vals⟩]⟩

/-- A host as `ex_host` that tells groups from users: an entry belongs to
`posixAccount` when it carries `uid`, and to any other class when it does
not. -/
def ex_host_gates : Host :=
  { ex_host with
    is_entry_objectclass_or_sub := fun e oc =>
      if oc.soc_cname = "posixAccount".toList then (attr_find e.e_attrs ex_attr_uid).isSome
      else (attr_find e.e_attrs ex_attr_uid).isNone }

/-- The operation `ex_op` asking for `cn` only: neither `member` nor
`memberUid` nor `memberOf` is requested. -/
def ex_op_cn : Operation :=
  { ex_op with ors_attrs := some [⟨"cn".toList, none⟩] }

/-- The configuration `ex_am` with the reverse gate only: no forward gate. -/
def ex_am_reverse_only : automember_t :=
  { ex_am with oc_member := none }

/-- A schema that knows the classes `posixGroup`, `posixAccount` and
`groupOfNames`; `ber_strdup` succeeds and the message buffer has 256 bytes. -/
def ex_schema : ConfigHost :=
  { oc_find := fun name =>
      if name = "posixGroup".toList ∨ name = "posixAccount".toList ∨
          name = "groupOfNames".toList then some ⟨name⟩
      else none
    ber_strdup := fun s => some s
    cr_msg_size := 256 }

/-- A directive `automember-member-objectClass <name>`, being added. -/
def ex_member_directive (name : String) : ConfigArgs :=
  ⟨ConfigOp.other, CFG_AUTOMEMBER_MEMBER_OBJECTCLASS, 2,
   ["automember-member-objectClass".toList, name.toList], []⟩

/-- A directive `automember-memberof-objectClass <name>`, being added. -/
def ex_memberof_directive (name : String) : ConfigArgs :=
  ⟨ConfigOp.other, CFG_AUTOMEMBER_MEMBEROF_OBJECTCLASS, 2,
   ["automember-memberof-objectClass".toList, name.toList], []⟩

/-- A directive `automember-member-objectClass` with two arguments. -/
def ex_member_directive_arity : ConfigArgs :=
  ⟨ConfigOp.other, CFG_AUTOMEMBER_MEMBER_OBJECTCLASS, 3,
   ["automember-member-objectClass".toList, "posixGroup".toList, "extra".toList], []⟩

/-! ## The template engine: lemmas -/

theorem beq_comm_decide (a c : Char) : (a == c) = decide (c = a) := by
  by_cases h : c = a
  · subst h; simp
  · have h2 : ¬ a = c := fun e => h e.symm
    simp [h, h2]

theorem strstr_token_cons (c : Char) (cs : List Char) :
    strstr (c :: cs) TOKEN =
      if c = LBRACE ∧ cs.head? = some RBRACE then some 0
      else (strstr cs TOKEN).map (fun i => i + 1) := by
  cases cs with
  | nil =>
    rw [strstr]
    simp [TOKEN, List.isPrefixOf, strstr]
  | cons d rest =>
    rw [strstr]
    have e : TOKEN.isPrefixOf (c :: d :: rest) = (decide (c = LBRACE) && decide (d = RBRACE)) := by
      simp only [TOKEN, List.isPrefixOf, Bool.and_true, beq_comm_decide]
    rw [e]
    by_cases h1 : c = LBRACE <;> by_cases h2 : d = RBRACE <;> simp [h1, h2]

theorem token_count_rbrace (rest : List Char) :
    token_count (RBRACE :: rest) = token_count rest := by
  cases rest with
  | nil => rfl
  | cons d rest =>
    have : RBRACE ≠ LBRACE := by decide
    simp [token_count, this]

/-- What one `strstr` step of either pass sees, in terms of the
specification-side functions. -/
theorem strstr_token_spec (v : List Char) : ∀ s : List Char,
    match strstr s TOKEN with
    | none => expand_spec v s = s ∧ token_count s = 0
    | some p => p + 2 ≤ s.length ∧
        expand_spec v s = s.take p ++ v ++ expand_spec v (s.drop (p + 2)) ∧
        token_count s = 1 + token_count (s.drop (p + 2))
  | [] => by simp [strstr, TOKEN, expand_spec, token_count]
  | [c] => by
    rw [strstr_token_cons]
    simp [strstr, TOKEN, expand_spec, token_count]
  | c :: d :: rest => by
    have ih := strstr_token_spec v (d :: rest)
    rw [strstr_token_cons]
    by_cases h : c = LBRACE ∧ d = RBRACE
    · obtain ⟨h1, h2⟩ := h
      subst h1; subst h2
      simp [expand_spec, token_count, token_count_rbrace]
    · have h' : ¬ (c = LBRACE ∧ (d :: rest).head? = some RBRACE) := by simpa using h
      rw [if_neg h']
      cases hs : strstr (d :: rest) TOKEN with
      | none =>
        rw [hs] at ih
        simp only [Option.map_none']
        simp [expand_spec, token_count, h, ih.1, ih.2]
      | some p =>
        rw [hs] at ih
        simp only [Option.map_some']
        obtain ⟨i1, i2, i3⟩ := ih
        refine ⟨by simp at i1 ⊢; omega, ?_, ?_⟩
        · simp only [expand_spec, if_neg h]
          rw [i2]
          simp
        · simp only [token_count, if_neg h]
          rw [i3]
          simp

theorem fill_pass_eq (v : List Char) : ∀ (fuel : Nat) (s d : List Char),
    s.length < fuel → fill_pass v fuel (some s) d = d ++ expand_spec v s := by
  intro fuel
  induction fuel with
  | zero => intro s d h; omega
  | succ fuel ih =>
    intro s d h
    cases s with
    | nil => simp [fill_pass, expand_spec]
    | cons c cs =>
      have sp := strstr_token_spec v (c :: cs)
      rw [fill_pass]
      cases hs : strstr (c :: cs) TOKEN with
      | none =>
        rw [hs] at sp
        simp only []
        rw [sp.1]
        cases fuel <;> simp [fill_pass]
      | some p =>
        rw [hs] at sp
        simp only []
        obtain ⟨s1, s2, _⟩ := sp
        rw [ih _ _ (by simp at s1 h ⊢; omega), s2]
        simp

theorem token_count_le : ∀ s : List Char, 2 * token_count s ≤ s.length
  | [] => by simp [token_count]
  | [c] => by simp [token_count]
  | c :: d :: rest => by
    have i1 := token_count_le (d :: rest)
    have i2 := token_count_le rest
    by_cases h : c = LBRACE ∧ d = RBRACE
    · obtain ⟨h1, h2⟩ := h
      subst h1; subst h2
      simp [token_count, token_count_rbrace]
      omega
    · simp [token_count, h] at i1 ⊢
      omega

theorem expand_spec_length (v : List Char) : ∀ s : List Char,
    (expand_spec v s).length + 2 * token_count s = s.length + token_count s * v.length
  | [] => by simp [token_count, expand_spec]
  | [c] => by simp [token_count, expand_spec]
  | c :: d :: rest => by
    have i1 := expand_spec_length v (d :: rest)
    have i2 := expand_spec_length v rest
    by_cases h : c = LBRACE ∧ d = RBRACE
    · obtain ⟨h1, h2⟩ := h
      subst h1; subst h2
      simp [token_count, token_count_rbrace, expand_spec, Nat.add_mul]
      omega
    · simp [token_count, h, expand_spec] at i1 ⊢
      omega

theorem count_pass_eq (L : Nat) : ∀ (fuel : Nat) (s : List Char) (n tl : Nat),
    s.length < fuel → s.length ≤ tl →
    count_pass L fuel (some s) n tl =
      (n + token_count s, tl - 2 * token_count s + token_count s * L) := by
  intro fuel
  induction fuel with
  | zero => intro s n tl h; omega
  | succ fuel ih =>
    intro s n tl h htl
    cases s with
    | nil => simp [count_pass, token_count]
    | cons c cs =>
      have sp := strstr_token_spec [] (c :: cs)
      rw [count_pass]
      cases hs : strstr (c :: cs) TOKEN with
      | none =>
        rw [hs] at sp
        simp only []
        rw [sp.2]
        cases fuel <;> simp [count_pass]
      | some p =>
        rw [hs] at sp
        simp only []
        obtain ⟨s1, _, s3⟩ := sp
        have hl : ((c :: cs).drop (p + 2)).length = (c :: cs).length - (p + 2) := by simp
        have hk := token_count_le ((c :: cs).drop (p + 2))
        rw [ih _ _ _ (by omega) (by omega), s3]
        simp only [Prod.mk.injEq, Nat.add_mul, Nat.one_mul]
        constructor
        · omega
        · omega

theorem intercalate_split (v : List Char) : ∀ s : List Char,
    split_at_token s ≠ [] ∧ List.intercalate v (split_at_token s) = expand_spec v s
  | [] => by simp [split_at_token, expand_spec, List.intercalate]
  | [c] => by simp [split_at_token, expand_spec, List.intercalate]
  | c :: d :: rest => by
    have i1 := intercalate_split v (d :: rest)
    have i2 := intercalate_split v rest
    by_cases h : c = LBRACE ∧ d = RBRACE
    · simp only [split_at_token, expand_spec, if_pos h]
      refine ⟨by simp, ?_⟩
      rw [← i2.2]
      cases hr : split_at_token rest with
      | nil => exact absurd hr i2.1
      | cons p ps => simp [List.intercalate, List.intersperse]
    · simp only [split_at_token, expand_spec, if_neg h]
      cases hr : split_at_token (d :: rest) with
      | nil => exact absurd hr i1.1
      | cons p ps =>
        refine ⟨by simp, ?_⟩
        rw [← i1.2, hr]
        cases ps <;> simp [List.intercalate, List.intersperse]

theorem split_length : ∀ s : List Char, (split_at_token s).length = token_count s + 1
  | [] => by simp [split_at_token, token_count]
  | [c] => by simp [split_at_token, token_count]
  | c :: d :: rest => by
    have i1 := split_length (d :: rest)
    have i2 := split_length rest
    by_cases h : c = LBRACE ∧ d = RBRACE
    · obtain ⟨h1, h2⟩ := h
      subst h1; subst h2
      simp [split_at_token, token_count, token_count_rbrace, i2]
      omega
    · simp only [split_at_token, token_count, if_neg h]
      cases hr : split_at_token (d :: rest) with
      | nil => rw [hr] at i1; simp at i1
      | cons p ps => rw [hr] at i1; simp at i1 ⊢; omega

theorem expand_spec_no_token (v : List Char) : ∀ s : List Char,
    token_count s = 0 → expand_spec v s = s
  | [] => by simp [expand_spec]
  | [c] => by simp [expand_spec]
  | c :: d :: rest => by
    intro h0
    have ih := expand_spec_no_token v (d :: rest)
    by_cases h : c = LBRACE ∧ d = RBRACE
    · simp [token_count, h] at h0
    · simp only [token_count, if_neg h, Nat.zero_add] at h0
      simp only [expand_spec, if_neg h, ih h0]

theorem xform_general (fresh_b tmpl v : List Char) (len : Nat) (slot : Option BerValue)
    (h : tmpl ≠ TOKEN) :
    automember_xform_uid_to_dn fresh_b tmpl ⟨len, some v⟩ (some slot) =
      ⟨some ⟨tmpl.length - 2 * token_count tmpl + token_count tmpl * v.length,
             some (if tmpl = [] then fresh_b else expand_spec v tmpl)⟩,
       some (some ⟨tmpl.length - 2 * token_count tmpl + token_count tmpl * v.length,
             some (if tmpl = [] then fresh_b else expand_spec v tmpl)⟩)⟩ := by
  have hb : (if v.length = 0 then [] else (Option.getD (some v) []).take v.length) = v := by
    by_cases hv : v.length = 0
    · simp [hv, List.length_eq_zero.mp hv]
    · simp [hv]
  simp only [automember_xform_uid_to_dn, if_neg h, hb]
  rw [count_pass_eq _ _ _ _ _ (by omega) (by omega)]
  cases tmpl with
  | nil => simp
  | cons c cs =>
    simp only [fill_pass_eq _ _ _ _ (Nat.lt_succ_self _)]
    simp

theorem xform_nonempty_template (fresh_b tmpl v : List Char) (len : Nat)
    (slot : Option BerValue) (h : tmpl ≠ TOKEN) (hne : tmpl ≠ []) :
    ∃ r : BerValue,
      automember_xform_uid_to_dn fresh_b tmpl ⟨len, some v⟩ (some slot) =
        ⟨some r, some (some r)⟩ ∧
      r.bv_val = some (expand_spec v tmpl) ∧
      r.bv_val = some (List.intercalate v (split_at_token tmpl)) ∧
      (split_at_token tmpl).length = token_count tmpl + 1 ∧
      (token_count tmpl = 0 → r.bv_val = some tmpl) := by
  refine ⟨_, xform_general fresh_b tmpl v len slot h, ?_, ?_, split_length tmpl, ?_⟩
  · simp [hne]
  · simp [hne, (intercalate_split v tmpl).2]
  · intro h0
    simp [hne, expand_spec_no_token v tmpl h0]

theorem xform_nonempty_template_example :
    ∃ r : BerValue,
      automember_xform_uid_to_dn "J".toList "a\x7b\x7db\x7b\x7d".toList
        ⟨2, some "\x7b\x7d".toList⟩ (some none) = ⟨some r, some (some r)⟩ ∧
      r.bv_val = some (expand_spec "\x7b\x7d".toList "a\x7b\x7db\x7b\x7d".toList) ∧
      r.bv_val = some (List.intercalate "\x7b\x7d".toList (split_at_token "a\x7b\x7db\x7b\x7d".toList)) ∧
      (split_at_token "a\x7b\x7db\x7b\x7d".toList).length = token_count "a\x7b\x7db\x7b\x7d".toList + 1 ∧
      (token_count "a\x7b\x7db\x7b\x7d".toList = 0 → r.bv_val = some "a\x7b\x7db\x7b\x7d".toList) :=
  xform_nonempty_template _ _ _ 2 none (by decide) (by decide)

/-- C3: the value produced for a template with `n` placeholder occurrences
and a source value `v` (a string with its length) has length
`len(t) - 2n + n*len(v)`, where `2n <= len(t)`; the length that the counting
pass records in the value is the number of bytes that the filling pass
writes.  For a template that is not empty these bytes, terminated, are the
string that `bv_val` designates; for the empty template none is written. -/
theorem xform_length (fresh_b tmpl v : List Char) (slot : Option BerValue) :
    ∃ r : BerValue,
      (automember_xform_uid_to_dn fresh_b tmpl ⟨v.length, some v⟩ (some slot)).ret = some r ∧
      2 * token_count tmpl ≤ tmpl.length ∧
      r.bv_len = tmpl.length - 2 * token_count tmpl + token_count tmpl * v.length ∧
      (count_pass v.length (tmpl.length + 1) (some tmpl) 0 tmpl.length).2 =
        (fill_pass v (tmpl.length + 1) (some tmpl) []).length ∧
      r.bv_len = (fill_pass v (tmpl.length + 1) (some tmpl) []).length ∧
      (tmpl ≠ [] → (r.bv_val.getD []).length = r.bv_len) := by
  have hpass : (count_pass v.length (tmpl.length + 1) (some tmpl) 0 tmpl.length).2 =
      (fill_pass v (tmpl.length + 1) (some tmpl) []).length := by
    rw [count_pass_eq _ _ _ _ _ (by omega) (by omega), fill_pass_eq _ _ _ _ (by omega)]
    have e := expand_spec_length v tmpl
    have l := token_count_le tmpl
    simp only [List.nil_append]
    omega
  have hfill : (fill_pass v (tmpl.length + 1) (some tmpl) []).length =
      tmpl.length - 2 * token_count tmpl + token_count tmpl * v.length := by
    rw [← hpass, count_pass_eq _ _ _ _ _ (by omega) (by omega)]
  by_cases h : tmpl = TOKEN
  · subst h
    have hf : v.length = TOKEN.length - 2 * token_count TOKEN + token_count TOKEN * v.length := by
      have : token_count TOKEN = 1 := by decide
      rw [this]
      simp [TOKEN]
    refine ⟨⟨v.length, some v⟩, ?_, token_count_le _, hf, hpass, ?_, fun _ => rfl⟩
    · simp [automember_xform_uid_to_dn, ber_bvdup]
    · rw [hfill]
      exact hf
  · refine ⟨_, by rw [xform_general fresh_b tmpl v v.length slot h], token_count_le _, rfl,
      hpass, hfill.symm, ?_⟩
    intro hne
    have e := expand_spec_length v tmpl
    have l := token_count_le tmpl
    simp only [if_neg hne, Option.getD_some]
    omega

/-- Witness for C3: the template of the scenario of §8 and the value
`alice`. -/
theorem xform_length_witness :
    "uid=\x7b\x7d,ou=People,dc=example,dc=com".toList ≠ [] ∧
    ∃ r : BerValue,
      (automember_xform_uid_to_dn "J".toList "uid=\x7b\x7d,ou=People,dc=example,dc=com".toList
        ⟨5, some "alice".toList⟩ (some none)).ret = some r ∧
      r.bv_len = 37 ∧ (r.bv_val.getD []).length = r.bv_len :=
  ⟨by decide,
   match xform_length "J".toList "uid=\x7b\x7d,ou=People,dc=example,dc=com".toList
      "alice".toList none with
   | ⟨r, h1, _, h3, _, _, h6⟩ => ⟨r, h1, h3.trans (by decide), h6 (by decide)⟩⟩

/-- C4: with the identity template the value returned equals the source
value, same bytes and same length, whatever `out_val` is. -/
theorem xform_identity (fresh_b : List Char) (len : Nat) (v : List Char)
    (out_val : Option (Option BerValue)) :
    (automember_xform_uid_to_dn fresh_b TOKEN ⟨len, some v⟩ out_val).ret =
      some ⟨len, some v⟩ := by
  simp [automember_xform_uid_to_dn, ber_bvdup]

/-! ## The request classifier: lemmas -/

theorem req_bool_iff (l : List AttributeName) (attr : AttributeDescription) :
    req_bool l attr = true ↔ requested_by_list l attr := by
  simp only [req_bool, requested_by_list, explicit_entry, bvmatch, Bool.or_eq_true,
    Bool.and_eq_true, List.any_eq_true, decide_eq_true_eq, Bool.not_eq_true',
    decide_eq_false_iff_not, or_assoc]
  constructor
  · rintro (⟨h, ho⟩ | ⟨h, ho⟩ | ⟨an, hm, ⟨h1, h2⟩, h3⟩)
    · exact Or.inl ⟨h, ho⟩
    · exact Or.inr (Or.inl ⟨h, ho⟩)
    · exact Or.inr (Or.inr ⟨an, hm, h1, h2, h3⟩)
  · rintro (⟨h, ho⟩ | ⟨h, ho⟩ | ⟨an, hm, h1, h2, h3⟩)
    · exact Or.inl ⟨h, ho⟩
    · exact Or.inr (Or.inl ⟨h, ho⟩)
    · exact Or.inr (Or.inr ⟨an, hm, ⟨h1, h2⟩, h3⟩)

theorem star_ne_plus : slap_anlist_all_user_attributes ≠ slap_anlist_all_operational_attributes := by
  decide

theorem req_bool_cons (an : AttributeName) (rest : List AttributeName)
    (attr : AttributeDescription) :
    req_bool (an :: rest) attr =
      (((bvmatch an.an_name slap_anlist_all_user_attributes && !attr.ad_operational) ||
        (bvmatch an.an_name slap_anlist_all_operational_attributes && attr.ad_operational) ||
        (!bvmatch an.an_name slap_anlist_all_user_attributes &&
          !bvmatch an.an_name slap_anlist_all_operational_attributes &&
          decide (an.an_desc = some attr))) || req_bool rest attr) := by
  simp only [req_bool, List.any_cons]
  generalize (rest.any fun an => bvmatch an.an_name slap_anlist_all_user_attributes) = a
  generalize (rest.any fun an => bvmatch an.an_name slap_anlist_all_operational_attributes) = b
  generalize (rest.any fun an => !bvmatch an.an_name slap_anlist_all_user_attributes &&
    !bvmatch an.an_name slap_anlist_all_operational_attributes &&
      decide (an.an_desc = some attr)) = c
  generalize bvmatch an.an_name slap_anlist_all_user_attributes = x
  generalize bvmatch an.an_name slap_anlist_all_operational_attributes = y
  generalize decide (an.an_desc = some attr) = z
  generalize attr.ad_operational = o
  cases a <;> cases b <;> cases c <;> cases x <;> cases y <;> cases z <;> cases o <;> rfl

theorem member_scan_inv (am : automember_t) (hd : am.attr_memberuid ≠ am.attr_member) :
    ∀ (l : List AttributeName) (synth src : Bool),
      member_scan am l synth src =
        (synth || req_bool l am.attr_member, src || req_bool l am.attr_memberuid) ∧
      member_scan_no_exit am l synth src =
        (synth || req_bool l am.attr_member, src || req_bool l am.attr_memberuid) := by
  intro l
  induction l with
  | nil => intro synth src; simp [member_scan, member_scan_no_exit, req_bool]
  | cons an rest ih =>
    intro synth src
    simp only [member_scan, member_scan_no_exit, req_bool_cons]
    by_cases hs : an.an_name = slap_anlist_all_user_attributes
    · have hp : an.an_name ≠ slap_anlist_all_operational_attributes := hs ▸ star_ne_plus
      have e1 : bvmatch an.an_name slap_anlist_all_user_attributes = true := by simp [bvmatch, hs]
      have e2 : bvmatch an.an_name slap_anlist_all_operational_attributes = false := by
        simp [bvmatch, hp]
      simp only [e1, e2, if_true, ih]
      generalize req_bool rest am.attr_member = a
      generalize req_bool rest am.attr_memberuid = b
      cases synth <;> cases src <;> cases am.attr_member.ad_operational <;>
        cases am.attr_memberuid.ad_operational <;> cases a <;> cases b <;> simp
    · have e1 : bvmatch an.an_name slap_anlist_all_user_attributes = false := by simp [bvmatch, hs]
      by_cases hp : an.an_name = slap_anlist_all_operational_attributes
      · have e2 : bvmatch an.an_name slap_anlist_all_operational_attributes = true := by
          simp [bvmatch, hp]
        simp only [e1, e2, if_true, ih]
        generalize req_bool rest am.attr_member = a
        generalize req_bool rest am.attr_memberuid = b
        cases synth <;> cases src <;> cases am.attr_member.ad_operational <;>
          cases am.attr_memberuid.ad_operational <;> cases a <;> cases b <;> simp
      · have e2 : bvmatch an.an_name slap_anlist_all_operational_attributes = false := by
          simp [bvmatch, hp]
        by_cases h1 : an.an_desc = some am.attr_memberuid
        · have h2 : an.an_desc ≠ some am.attr_member := by
            rw [h1]; intro e; exact hd (Option.some.inj e)
          simp only [e1, e2, h1, h2, decide_True, decide_False, if_true, ih]
          generalize req_bool rest am.attr_member = a
          generalize req_bool rest am.attr_memberuid = b
          cases synth <;> cases src <;> cases a <;> cases b <;> simp [hd]
        · by_cases h2 : an.an_desc = some am.attr_member
          · simp only [e1, e2, h1, h2, decide_True, decide_False, if_true, ih]
            generalize req_bool rest am.attr_member = a
            generalize req_bool rest am.attr_memberuid = b
            cases synth <;> cases src <;> cases a <;> cases b <;> simp [Ne.symm hd]
          · simp only [e1, e2, h1, h2, decide_True, decide_False, if_true, ih]
            generalize req_bool rest am.attr_member = a
            generalize req_bool rest am.attr_memberuid = b
            cases synth <;> cases src <;> cases a <;> cases b <;> simp

theorem memberof_scan_inv (am : automember_t) :
    ∀ (l : List AttributeName) (synth : Bool),
      memberof_scan am l synth = (synth || req_bool l am.attr_memberof) ∧
      memberof_scan_no_exit am l synth = (synth || req_bool l am.attr_memberof) := by
  intro l
  induction l with
  | nil => intro synth; simp [memberof_scan, memberof_scan_no_exit, req_bool]
  | cons an rest ih =>
    intro synth
    simp only [memberof_scan, memberof_scan_no_exit, req_bool_cons]
    by_cases hs : an.an_name = slap_anlist_all_user_attributes
    · have hp : an.an_name ≠ slap_anlist_all_operational_attributes := hs ▸ star_ne_plus
      have e1 : bvmatch an.an_name slap_anlist_all_user_attributes = true := by simp [bvmatch, hs]
      have e2 : bvmatch an.an_name slap_anlist_all_operational_attributes = false := by
        simp [bvmatch, hp]
      simp only [e1, e2, if_true, ih]
      generalize req_bool rest am.attr_memberof = a
      cases synth <;> cases am.attr_memberof.ad_operational <;> cases a <;> simp
    · have e1 : bvmatch an.an_name slap_anlist_all_user_attributes = false := by simp [bvmatch, hs]
      by_cases hp : an.an_name = slap_anlist_all_operational_attributes
      · have e2 : bvmatch an.an_name slap_anlist_all_operational_attributes = true := by
          simp [bvmatch, hp]
        simp only [e1, e2, if_true, ih]
        generalize req_bool rest am.attr_memberof = a
        cases synth <;> cases am.attr_memberof.ad_operational <;> cases a <;> simp
      · have e2 : bvmatch an.an_name slap_anlist_all_operational_attributes = false := by
          simp [bvmatch, hp]
        by_cases h1 : an.an_desc = some am.attr_memberof
        · simp only [e1, e2, h1, decide_True, if_true, ih]
          generalize req_bool rest am.attr_memberof = a
          cases synth <;> cases a <;> simp
        · simp only [e1, e2, h1, decide_False, ih]
          generalize req_bool rest am.attr_memberof = a
          cases synth <;> cases a <;> simp

theorem requested_by_list_perm (l l' : List AttributeName) (attr : AttributeDescription)
    (hp : l.Perm l') : requested_by_list l attr ↔ requested_by_list l' attr := by
  simp only [requested_by_list, hp.mem_iff]

theorem req_bool_perm (l l' : List AttributeName) (attr : AttributeDescription)
    (hp : l.Perm l') : req_bool l attr = req_bool l' attr := by
  have h := requested_by_list_perm l l' attr hp
  rw [← req_bool_iff, ← req_bool_iff] at h
  cases h1 : req_bool l attr <;> cases h2 : req_bool l' attr <;> simp_all

/-- C6: for a present request list the classifier answers true exactly when
the list holds the all-user-attributes wildcard and the attribute is not
operational, or the all-operational-attributes wildcard and the attribute is
operational, or an explicit entry for the attribute; this for the derived and
the source attribute of forward synthesis and the derived attribute of
reverse synthesis.  The answer is the same for every permutation of the
list, and the early exit of the scan does not change it. -/
theorem classifier_present_list (am : automember_t)
    (hd : am.attr_memberuid ≠ am.attr_member) (l : List AttributeName) :
    ((member_requested am (some l)).1 = true ↔ requested_by_list l am.attr_member) ∧
    ((member_requested am (some l)).2 = true ↔ requested_by_list l am.attr_memberuid) ∧
    (memberof_requested am (some l) = true ↔ requested_by_list l am.attr_memberof) ∧
    (∀ l' : List AttributeName, l.Perm l' →
      member_requested am (some l') = member_requested am (some l) ∧
      memberof_requested am (some l') = memberof_requested am (some l)) ∧
    member_scan am l false false = member_scan_no_exit am l false false ∧
    memberof_scan am l false = memberof_scan_no_exit am l false := by
  have hm := fun l => member_scan_inv am hd l false false
  have ho := fun l => memberof_scan_inv am l false
  refine ⟨?_, ?_, ?_, ?_, ?_, ?_⟩
  · simp only [member_requested, (hm l).1, Bool.false_or, req_bool_iff]
  · simp only [member_requested, (hm l).1, Bool.false_or, req_bool_iff]
  · simp only [memberof_requested, (ho l).1, Bool.false_or, req_bool_iff]
  · intro l' hp
    simp only [member_requested, memberof_requested, (hm l).1, (hm l').1, (ho l).1, (ho l').1,
      req_bool_perm l l' _ hp, and_self]
  · rw [(hm l).1, (hm l).2]
  · rw [(ho l).1, (ho l).2]

/-- Witness for C6: a list naming the operational wildcard and `member`. -/
theorem classifier_present_list_witness :
    ex_am.attr_memberuid ≠ ex_am.attr_member ∧
    (((member_requested ex_am (some [⟨[Char.ofNat 43], none⟩, ⟨"member".toList, some ex_attr_member⟩])).1 = true ↔
      requested_by_list [⟨[Char.ofNat 43], none⟩, ⟨"member".toList, some ex_attr_member⟩] ex_am.attr_member) ∧
     ((member_requested ex_am (some [⟨[Char.ofNat 43], none⟩, ⟨"member".toList, some ex_attr_member⟩])).2 = true ↔
      requested_by_list [⟨[Char.ofNat 43], none⟩, ⟨"member".toList, some ex_attr_member⟩] ex_am.attr_memberuid)) :=
  ⟨by decide,
   (classifier_present_list ex_am (by decide) _).1,
   (classifier_present_list ex_am (by decide) _).2.1⟩

/-- C7: with an absent request list an attribute is requested exactly when
it is not operational, for the derived and the source attribute of forward
synthesis and for the derived attribute of reverse synthesis. -/
theorem classifier_absent_list (am : automember_t) :
    (member_requested am none).1 = !am.attr_member.ad_operational ∧
    (member_requested am none).2 = !am.attr_memberuid.ad_operational ∧
    memberof_requested am none = !am.attr_memberof.ad_operational ∧
    ((member_requested am none).1 = true ↔ am.attr_member.ad_operational = false) ∧
    ((member_requested am none).2 = true ↔ am.attr_memberuid.ad_operational = false) ∧
    (memberof_requested am none = true ↔ am.attr_memberof.ad_operational = false) := by
  simp [member_requested, memberof_requested]

/-- C9: on a record that already carries `member`, forward synthesis,
forced or not and for every request list, leaves the reply as it is: same
record, same heap (so the same derived values), same flags, no point-read;
a second invocation on the outcome gives the same outcome again. -/
theorem forward_idempotent (host : Host) (heap : List Entry) (op : Operation) (rs : SlapReply)
    (am : automember_t) (force_addition : Bool) (p : Nat) (orig : Entry) (a : Attribute)
    (hp : rs.sr_entry = some p) (ho : heap[p]? = some orig)
    (hm : attr_find orig.e_attrs am.attr_member = some a) :
    automember_populate_member_attr host heap op rs am force_addition =
      some ⟨SLAP_CB_CONTINUE, rs, heap, []⟩ ∧
    ∀ out : Outcome,
      automember_populate_member_attr host heap op rs am force_addition = some out →
      out.rs = rs ∧ out.heap = heap ∧ out.trace = [] ∧
      automember_populate_member_attr host out.heap op out.rs am force_addition = some out := by
  have h1 : automember_populate_member_attr host heap op rs am force_addition =
      some ⟨SLAP_CB_CONTINUE, rs, heap, []⟩ := by
    have hb : rs.sr_entry.bind (fun p => heap[p]?.map (fun e => (p, e))) = some (p, orig) := by
      simp [hp, ho]
    simp only [automember_populate_member_attr, hb, hm]
    split <;> rfl
  refine ⟨h1, ?_⟩
  intro out hout
  rw [h1] at hout
  cases hout
  exact ⟨rfl, rfl, rfl, h1⟩

/-- Witness for C9: a forced run on a group that already carries `member`. -/
theorem forward_idempotent_witness :
    ex_rs.sr_entry = some 0 ∧ [ex_group_with_member][0]? = some ex_group_with_member ∧
    attr_find ex_group_with_member.e_attrs ex_am.attr_member =
      some ⟨ex_attr_member, some [ex_bv "uid=zed,ou=People,dc=example,dc=com"]⟩ ∧
    automember_populate_member_attr ex_host [ex_group_with_member] ex_op ex_rs ex_am true =
      some ⟨SLAP_CB_CONTINUE, ex_rs, [ex_group_with_member], []⟩ :=
  ⟨rfl, rfl, by decide,
   (forward_idempotent ex_host [ex_group_with_member] ex_op ex_rs ex_am true 0
      ex_group_with_member ⟨ex_attr_member, some [ex_bv "uid=zed,ou=People,dc=example,dc=com"]⟩
      rfl rfl (by decide)).1⟩

/-! ## Copy on write: lemmas -/

theorem merge_into_reply_spec (heap : List Entry) (rs : SlapReply) (p : Nat)
    (desc : AttributeDescription) (vals : List BerValue) (orig : Entry)
    (ho : heap[p]? = some orig) :
    merge_into_reply heap rs p desc vals =
      some (if rs.sr_flags.REP_ENTRY_MODIFIABLE then
              (rs, heap.set p ⟨orig.e_name, orig.e_nname, attr_merge orig.e_attrs desc vals⟩)
            else
              (⟨rs.sr_type, some heap.length, ⟨true, true, false, rs.sr_flags.other_bits⟩⟩,
               heap ++ [⟨orig.e_name, orig.e_nname, attr_merge orig.e_attrs desc vals⟩])) := by
  have hlt : p < heap.length := by
    rcases List.getElem?_eq_some_iff.mp ho with ⟨h, _⟩
    exact h
  unfold merge_into_reply
  rw [ho]
  by_cases hm : rs.sr_flags.REP_ENTRY_MODIFIABLE = true
  · simp [hm, ho]
  · have hne : heap.length ≠ p := by omega
    simp [hm, hne, entry_dup]

theorem populate_member_shape (host : Host) (heap : List Entry) (op : Operation) (rs : SlapReply)
    (am : automember_t) (force_addition : Bool) (out : Outcome)
    (h : automember_populate_member_attr host heap op rs am force_addition = some out) :
    (out.rs = rs ∧ out.heap = heap) ∨
    ∃ (p : Nat) (vals : List BerValue),
      rs.sr_entry = some p ∧
      merge_into_reply heap rs p am.attr_member vals = some (out.rs, out.heap) := by
  unfold automember_populate_member_attr at h
  simp only at h
  split at h
  · split at h
    · exact absurd h (by simp)
    · rename_i orig_e orig hb
      have hp : rs.sr_entry = some orig_e := by
        cases hr : rs.sr_entry with
        | none => simp [hr] at hb
        | some q =>
          simp only [hr, Option.some_bind] at hb
          cases hq : heap[q]? with
          | none => simp [hq] at hb
          | some e => simp [hq] at hb; rw [hb.1]
      split at h
      · cases h; exact Or.inl ⟨rfl, rfl⟩
      · split at h
        · exact absurd h (by simp)
        · cases h; exact Or.inl ⟨rfl, rfl⟩
        · split at h
          · cases h; exact Or.inl ⟨rfl, rfl⟩
          · split at h
            · split at h
              · exact absurd h (by simp)
              · split at h
                · exact absurd h (by simp)
                · rename_i rs1 heap1 hmerge
                  cases h
                  exact Or.inr ⟨orig_e, _, hp, hmerge⟩
            · split at h
              · exact absurd h (by simp)
              · cases h; exact Or.inl ⟨rfl, rfl⟩
  · cases h; exact Or.inl ⟨rfl, rfl⟩

theorem populate_memberof_shape (host : Host) (heap : List Entry) (op : Operation)
    (rs : SlapReply) (am : automember_t) (force_addition : Bool) (out : Outcome)
    (h : automember_populate_memberof_attr host heap op rs am force_addition = some out) :
    (out.rs = rs ∧ out.heap = heap) ∨
    ∃ (p : Nat) (vals : List BerValue),
      rs.sr_entry = some p ∧
      merge_into_reply heap rs p am.attr_memberof vals = some (out.rs, out.heap) := by
  unfold automember_populate_memberof_attr at h
  simp only at h
  split at h
  · split at h
    · exact absurd h (by simp)
    · rename_i orig_e orig hb
      have hp : rs.sr_entry = some orig_e := by
        cases hr : rs.sr_entry with
        | none => simp [hr] at hb
        | some q =>
          simp only [hr, Option.some_bind] at hb
          cases hq : heap[q]? with
          | none => simp [hq] at hb
          | some e => simp [hq] at hb; rw [hb.1]
      split at h
      · cases h; exact Or.inl ⟨rfl, rfl⟩
      · split at h
        · cases h; exact Or.inl ⟨rfl, rfl⟩
        · split at h
          · cases h; exact Or.inl ⟨rfl, rfl⟩
          · split at h
            · cases h; exact Or.inl ⟨rfl, rfl⟩
            · split at h
              · cases h; exact Or.inl ⟨rfl, rfl⟩
              · split at h
                · exact absurd h (by simp)
                · split at h
                  · exact absurd h (by simp)
                  · split at h
                    · split at h
                      · split at h
                        · exact absurd h (by simp)
                        · rename_i rs1 heap1 hmerge
                          cases h
                          exact Or.inr ⟨orig_e, _, hp, hmerge⟩
                      · cases h; exact Or.inl ⟨rfl, rfl⟩
                    · cases h; exact Or.inl ⟨rfl, rfl⟩
  · cases h; exact Or.inl ⟨rfl, rfl⟩

theorem attr_merge_absent (attrs : List Attribute) (desc : AttributeDescription)
    (vals : List BerValue) (h : attr_find attrs desc = none) :
    attr_merge attrs desc vals = attrs ++ [⟨desc, some ((bvarray_vals vals).map ber_bvdup)⟩] := by
  induction attrs with
  | nil => rfl
  | cons a rest ih =>
    simp only [attr_find, List.find?_cons] at h ih
    by_cases ha : a.a_desc = desc
    · simp [ha] at h
    · simp only [ha, decide_False] at h
      simp only [attr_merge, if_neg ha, ih h, List.cons_append]

theorem cow_of_merge (heap : List Entry) (rs : SlapReply) (p : Nat) (orig : Entry)
    (desc : AttributeDescription) (vals : List BerValue) (out : Outcome)
    (ho : heap[p]? = some orig) (hp : rs.sr_entry = some p)
    (hlack : attr_find orig.e_attrs desc = none)
    (hm : merge_into_reply heap rs p desc vals = some (out.rs, out.heap)) :
    copy_on_write_outcome heap rs p orig desc out := by
  have hlt : p < heap.length := by
    rcases List.getElem?_eq_some_iff.mp ho with ⟨h, _⟩
    exact h
  rw [merge_into_reply_spec heap rs p desc vals orig ho, attr_merge_absent _ _ _ hlack] at hm
  refine ⟨(bvarray_vals vals).map ber_bvdup, ?_, ?_, ?_⟩
  · cases hmod : rs.sr_flags.REP_ENTRY_MODIFIABLE with
    | true =>
      simp only [hmod, if_true, Option.some.injEq, Prod.mk.injEq] at hm
      simp [← hm.1]
    | false =>
      simp only [hmod, Bool.false_eq_true, if_false, Option.some.injEq, Prod.mk.injEq] at hm
      simp only [Bool.false_eq_true, iff_false, ← hm.1, hp, Option.some.injEq]
      omega
  · intro hmod
    simp only [hmod, if_true, Option.some.injEq, Prod.mk.injEq] at hm
    refine ⟨hm.1.symm, ?_, hm.2.symm⟩
    rw [← hm.2]; simp
  · intro hmod
    simp only [hmod, Bool.false_eq_true, if_false, Option.some.injEq, Prod.mk.injEq] at hm
    refine ⟨hm.2.symm, ?_, hm.1.symm⟩
    rw [← hm.2, List.getElem?_append_left hlt, ho]

theorem carries_of_entry (heap : List Entry) (rs : SlapReply) (desc : AttributeDescription)
    (p : Nat) (orig : Entry) (hp : rs.sr_entry = some p) (ho : heap[p]? = some orig) :
    carries heap rs desc = (attr_find orig.e_attrs desc).isSome := by
  simp [carries, hp, ho]

/-- C8: when forward or reverse synthesis attaches its derived attribute
to a reply whose entry lacked it, the outcome follows the copy-on-write
discipline: the entry extended is the reply's own entry exactly when the
reply was flagged modifiable (no duplicate, reply and flags as before);
otherwise the original entry is as before, a duplicate with the same
identity and all the original attributes and values receives the attribute
and replaces the reply's entry, and the ownership flags become exactly
modifiable and must-be-freed. -/
theorem copy_on_write_discipline (host : Host) (heap : List Entry) (op : Operation) (rs : SlapReply)
    (am : automember_t) (force_addition : Bool) (p : Nat) (orig : Entry)
    (hp : rs.sr_entry = some p) (ho : heap[p]? = some orig) :
    (∀ out : Outcome,
      automember_populate_member_attr host heap op rs am force_addition = some out →
      attr_find orig.e_attrs am.attr_member = none →
      carries out.heap out.rs am.attr_member = true →
      copy_on_write_outcome heap rs p orig am.attr_member out) ∧
    (∀ out : Outcome,
      automember_populate_memberof_attr host heap op rs am force_addition = some out →
      attr_find orig.e_attrs am.attr_memberof = none →
      carries out.heap out.rs am.attr_memberof = true →
      copy_on_write_outcome heap rs p orig am.attr_memberof out) := by
  constructor
  · intro out h hlack hatt
    rcases populate_member_shape host heap op rs am force_addition out h with
      ⟨e1, e2⟩ | ⟨q, vals, hq, hm⟩
    · rw [e1, e2, carries_of_entry heap rs _ p orig hp ho, hlack] at hatt
      exact absurd hatt (by simp)
    · have : q = p := by rw [hp] at hq; exact (Option.some.inj hq).symm
      subst this
      exact cow_of_merge heap rs q orig _ vals out ho hp hlack hm
  · intro out h hlack hatt
    rcases populate_memberof_shape host heap op rs am force_addition out h with
      ⟨e1, e2⟩ | ⟨q, vals, hq, hm⟩
    · rw [e1, e2, carries_of_entry heap rs _ p orig hp ho, hlack] at hatt
      exact absurd hatt (by simp)
    · have : q = p := by rw [hp] at hq; exact (Option.some.inj hq).symm
      subst this
      exact cow_of_merge heap rs q orig _ vals out ho hp hlack hm

/-- Witness for C8: forward synthesis on a shared group entry and reverse
synthesis on a shared user entry both attach to a duplicate. -/
theorem copy_on_write_discipline_witness :
    ex_rs.sr_entry = some 0 ∧ [ex_group][0]? = some ex_group ∧
    [ex_user, ex_admins, ex_staff][0]? = some ex_user ∧
    copy_on_write_outcome [ex_group] ex_rs 0 ex_group ex_am.attr_member
      ⟨SLAP_CB_CONTINUE, ex_rs_replaced 1, [ex_group, ex_group_synth], []⟩ ∧
    copy_on_write_outcome [ex_user, ex_admins, ex_staff] ex_rs 0 ex_user ex_am.attr_memberof
      ⟨SLAP_CB_CONTINUE, ex_rs_replaced 3, [ex_user, ex_admins, ex_staff, ex_user_synth],
       [Event.search ex_op2]⟩ :=
  ⟨rfl, rfl, rfl,
   (copy_on_write_discipline ex_host [ex_group] ex_op ex_rs ex_am false 0 ex_group rfl rfl).1 _
     (by decide) (by decide) (by decide),
   (copy_on_write_discipline ex_host [ex_user, ex_admins, ex_staff] ex_op_memberof ex_rs ex_am false 0
      ex_user rfl rfl).2 _ (by decide) (by decide) (by decide)⟩

/-! ## Reverse synthesis: lemmas -/

theorem format_filter (c v : List Char) :
    format_s filter_fmt [c, v] =
      "(&(objectClass=".toList ++ c ++ ")(memberUid=".toList ++ v ++ "))".toList := by
  simp [filter_fmt, format_s]

theorem format_filter_length (oc : ObjectClass) (uid_value : BerValue) :
    (format_s filter_fmt [oc.soc_cname, uid_value.bv_val.getD []]).length =
      filter_bv_len oc uid_value := by
  rw [format_filter]
  simp [filter_bv_len, filter_fmt]
  omega

theorem filter_buffer_eq (oc : ObjectClass) (uid_value : BerValue) :
    filter_buffer oc uid_value = format_s filter_fmt [oc.soc_cname, uid_value.bv_val.getD []] := by
  unfold filter_buffer
  rw [← format_filter_length, List.take_length]

theorem overflow_test_fits (n : Nat) (h : n ≤ INT_MAX) :
    to_ber_len_t (snprintf_ret n) = n := by
  simp only [snprintf_ret, if_pos h, to_ber_len_t]
  simp only [INT_MAX] at h
  omega

theorem overflow_test_exceeds (n : Nat) (h : INT_MAX < n) :
    to_ber_len_t (snprintf_ret n) = 18446744073709551615 := by
  have h2 : ¬ n ≤ INT_MAX := by omega
  simp only [snprintf_ret, if_neg h2, to_ber_len_t]
  decide

theorem collect_overflow (host : Host) (heap : List Entry) (op : Operation)
    (oc : ObjectClass) (uid0 : BerValue)
    (h : to_ber_len_t (snprintf_ret (filter_bv_len oc uid0)) > filter_bv_len oc uid0) :
    automember_collect_memberof_dn host heap op oc uid0 = some ⟨LDAP_OTHER, none, []⟩ := by
  unfold automember_collect_memberof_dn
  simp only [format_filter_length, if_pos h]

theorem collect_no_overflow (host : Host) (heap : List Entry) (op : Operation)
    (oc : ObjectClass) (uid0 : BerValue)
    (h : ¬ to_ber_len_t (snprintf_ret (filter_bv_len oc uid0)) > filter_bv_len oc uid0) :
    automember_collect_memberof_dn host heap op oc uid0 =
      match host.str2filter_x (filter_buffer oc uid0) with
      | some filter =>
        match deliver_replies heap (host.be_search (internal_search_op op filter
            ⟨filter_bv_len oc uid0, some (filter_buffer oc uid0)⟩)).1 none with
        | none => none
        | some dn_list =>
          if (host.be_search (internal_search_op op filter
              ⟨filter_bv_len oc uid0, some (filter_buffer oc uid0)⟩)).2 = LDAP_SUCCESS then
            some ⟨LDAP_SUCCESS, dn_list, [Event.search (internal_search_op op filter
              ⟨filter_bv_len oc uid0, some (filter_buffer oc uid0)⟩)]⟩
          else
            some ⟨LDAP_SUCCESS, none, [Event.search (internal_search_op op filter
              ⟨filter_bv_len oc uid0, some (filter_buffer oc uid0)⟩)]⟩
      | none => some ⟨LDAP_OTHER, none, []⟩ := by
  unfold automember_collect_memberof_dn
  simp only [format_filter_length, if_neg h]

theorem fits_no_overflow (oc : ObjectClass) (uid0 : BerValue)
    (hfit : filter_bv_len oc uid0 ≤ INT_MAX) :
    ¬ to_ber_len_t (snprintf_ret (filter_bv_len oc uid0)) > filter_bv_len oc uid0 := by
  rw [overflow_test_fits _ hfit]
  exact lt_irrefl _

theorem bvarray_vals_terminated (xs : List BerValue) (rest : List BerValue)
    (hx : ∀ x ∈ xs, x.bv_val ≠ none) :
    bvarray_vals (xs ++ BER_BVZERO :: rest) = xs := by
  induction xs with
  | nil => simp [bvarray_vals, BER_BVZERO]
  | cons x xs ih =>
    have h1 : x.bv_val ≠ none := hx x (by simp)
    have h2 : x.bv_val.isSome = true := by
      cases hb : x.bv_val with
      | none => exact absurd hb h1
      | some _ => rfl
    have ih' := ih (fun y hy => hx y (by simp [hy]))
    simp only [bvarray_vals] at ih' ⊢
    simp [List.takeWhile_cons, h2, ih']

theorem ber_bvdup_of_val (x : BerValue) (hx : x.bv_val ≠ none) : ber_bvdup x = x := by
  cases x with
  | mk len val =>
    cases val with
    | none => exact absurd rfl hx
    | some s => rfl

theorem map_ber_bvdup (xs : List BerValue) (hx : ∀ x ∈ xs, x.bv_val ≠ none) :
    xs.map ber_bvdup = xs := by
  induction xs with
  | nil => rfl
  | cons x xs ih =>
    simp only [List.map_cons, ber_bvdup_of_val x (hx x (by simp)),
      ih (fun y hy => hx y (by simp [hy]))]

theorem per_entry_step (heap : List Entry) (xs : List BerValue) (r : SlapReply)
    (hx : ∀ x ∈ xs, x.bv_val ≠ none)
    (hval : r.sr_type = slap_reply_t.REP_SEARCH → ∀ q, r.sr_entry = some q →
      ∃ e, heap[q]? = some e ∧ e.e_name.bv_val ≠ none) :
    automember_collect_memberof_dn_per_entry heap (dn_list_of xs) r =
      some (dn_list_of (xs ++ delivered_identities heap [r]), LDAP_SUCCESS) ∧
    ∀ x ∈ xs ++ delivered_identities heap [r], x.bv_val ≠ none := by
  by_cases ht : r.sr_type = slap_reply_t.REP_SEARCH
  · cases he : r.sr_entry with
    | none =>
      simp [automember_collect_memberof_dn_per_entry, delivered_identities, ht, he]
      exact hx
    | some q =>
      obtain ⟨e, hq, hn⟩ := hval ht q he
      have hd : delivered_identities heap [r] = [e.e_name] := by
        simp [delivered_identities, ht, he, hq]
      have hn' : ∀ x ∈ xs ++ [e.e_name], x.bv_val ≠ none := by
        intro x hxm
        rcases List.mem_append.mp hxm with h | h
        · exact hx x h
        · rw [List.mem_singleton.mp h]; exact hn
      refine ⟨?_, by rw [hd]; exact hn'⟩
      rw [hd]
      simp only [automember_collect_memberof_dn_per_entry, ht, he, hq, ber_bvdup_of_val _ hn]
      by_cases hxs : xs = []
      · subst hxs
        simp [dn_list_of, bvarray_vals]
      · have hne : xs ++ [e.e_name] ≠ [] := by simp
        simp only [dn_list_of, if_neg hxs, if_neg hne, Option.getD_some,
          bvarray_vals_terminated xs [] hx, List.take_left']
        simp
  · have hd : delivered_identities heap [r] = [] := by
      cases hty : r.sr_type <;> first | exact absurd hty ht | simp [delivered_identities, hty]
    refine ⟨?_, by rw [hd]; simpa using hx⟩
    rw [hd, List.append_nil]
    cases hty : r.sr_type <;>
      first | exact absurd hty ht | simp [automember_collect_memberof_dn_per_entry, hty]

theorem delivered_identities_cons (heap : List Entry) (r : SlapReply) (rest : List SlapReply) :
    delivered_identities heap (r :: rest) =
      delivered_identities heap [r] ++ delivered_identities heap rest := by
  simp only [delivered_identities, List.filterMap_cons, List.filterMap_nil]
  split <;> simp

theorem deliver_replies_spec (heap : List Entry) : ∀ (replies : List SlapReply)
    (xs : List BerValue), (∀ x ∈ xs, x.bv_val ≠ none) →
    (∀ r ∈ replies, r.sr_type = slap_reply_t.REP_SEARCH → ∀ q, r.sr_entry = some q →
      ∃ e, heap[q]? = some e ∧ e.e_name.bv_val ≠ none) →
    deliver_replies heap replies (dn_list_of xs) =
      some (dn_list_of (xs ++ delivered_identities heap replies)) ∧
    ∀ x ∈ xs ++ delivered_identities heap replies, x.bv_val ≠ none := by
  intro replies
  induction replies with
  | nil =>
    intro xs hx _
    have hd : delivered_identities heap [] = [] := rfl
    rw [hd, List.append_nil]
    exact ⟨rfl, hx⟩
  | cons r rest ih =>
    intro xs hx hval
    obtain ⟨s1, s2⟩ := per_entry_step heap xs r hx (hval r (by simp))
    obtain ⟨i1, i2⟩ := ih (xs ++ delivered_identities heap [r]) s2
      (fun r' hr' => hval r' (by simp [hr']))
    rw [delivered_identities_cons, ← List.append_assoc]
    refine ⟨?_, i2⟩
    simp only [deliver_replies, s1, i1]

theorem collect_memberof_dn_success (host : Host) (heap : List Entry) (op : Operation)
    (oc : ObjectClass) (uid0 : BerValue) (f : Filter) (replies : List SlapReply)
    (hf : host.str2filter_x (filter_buffer oc uid0) = some f)
    (hs : host.be_search (internal_search_op op f
      ⟨filter_bv_len oc uid0, some (filter_buffer oc uid0)⟩) = (replies, LDAP_SUCCESS))
    (hval : ∀ r ∈ replies, r.sr_type = slap_reply_t.REP_SEARCH → ∀ q, r.sr_entry = some q →
      ∃ e, heap[q]? = some e ∧ e.e_name.bv_val ≠ none)
    (hfit : filter_bv_len oc uid0 ≤ INT_MAX) :
    automember_collect_memberof_dn host heap op oc uid0 =
      some ⟨LDAP_SUCCESS, dn_list_of (delivered_identities heap replies),
        [Event.search (internal_search_op op f
          ⟨filter_bv_len oc uid0, some (filter_buffer oc uid0)⟩)]⟩ ∧
    ∀ x ∈ delivered_identities heap replies, x.bv_val ≠ none := by
  have hd := deliver_replies_spec heap replies [] (by simp) hval
  simp only [List.nil_append] at hd
  have hnone : dn_list_of [] = none := rfl
  rw [hnone] at hd
  refine ⟨?_, hd.2⟩
  rw [collect_no_overflow host heap op oc uid0 (fits_no_overflow oc uid0 hfit)]
  simp only [hf, hs, hd.1]
  simp

/-- C10: when the internal query of reverse synthesis (whose filter string
has a length that fits a C `int`, so that the query is made) succeeds after
delivering search replies for the entries `e1, ..., ek`, `memberOf` is
attached exactly when `k >= 1`, and its values are then the identities of
those entries in the order of delivery, duplicates kept; with `k = 0`
nothing is attached, no copy is made and the reply is as before. -/
theorem reverse_attaches_identities (host : Host) (heap : List Entry) (op : Operation)
    (rs : SlapReply) (am : automember_t) (force_addition : Bool) (p : Nat) (orig : Entry)
    (ud : AttributeDescription) (a_vals : List BerValue) (uid0 : BerValue) (oc : ObjectClass)
    (f : Filter) (replies : List SlapReply)
    (hp : rs.sr_entry = some p) (ho : heap[p]? = some orig)
    (hreq : (force_addition || memberof_requested am op.ors_attrs) = true)
    (hmo : attr_find orig.e_attrs am.attr_memberof = none)
    (hu : attr_find orig.e_attrs am.attr_uid = some ⟨ud, some a_vals⟩)
    (hv : bvarray_vals a_vals = [uid0])
    (hoc : am.oc_member = some oc)
    (hf : host.str2filter_x (filter_buffer oc uid0) = some f)
    (hs : host.be_search (internal_search_op op f
      ⟨filter_bv_len oc uid0, some (filter_buffer oc uid0)⟩) = (replies, LDAP_SUCCESS))
    (hval : ∀ r ∈ replies, r.sr_type = slap_reply_t.REP_SEARCH → ∀ q, r.sr_entry = some q →
      ∃ e, heap[q]? = some e ∧ e.e_name.bv_val ≠ none)
    (hfit : filter_bv_len oc uid0 ≤ INT_MAX) :
    ∃ out : Outcome,
      automember_populate_memberof_attr host heap op rs am force_addition = some out ∧
      out.rc = SLAP_CB_CONTINUE ∧
      out.trace = [Event.search (internal_search_op op f
        ⟨filter_bv_len oc uid0, some (filter_buffer oc uid0)⟩)] ∧
      (carries out.heap out.rs am.attr_memberof = true ↔
        delivered_identities heap replies ≠ []) ∧
      (delivered_identities heap replies = [] → out.rs = rs ∧ out.heap = heap) ∧
      (delivered_identities heap replies ≠ [] →
        out.rs.sr_flags.REP_ENTRY_MODIFIABLE = true ∧
        (out.rs, out.heap) =
          if rs.sr_flags.REP_ENTRY_MODIFIABLE then
            (rs, heap.set p ⟨orig.e_name, orig.e_nname,
              orig.e_attrs ++ [⟨am.attr_memberof, some (delivered_identities heap replies)⟩]⟩)
          else
            (⟨rs.sr_type, some heap.length, ⟨true, true, false, rs.sr_flags.other_bits⟩⟩,
             heap ++ [⟨orig.e_name, orig.e_nname,
              orig.e_attrs ++ [⟨am.attr_memberof, some (delivered_identities heap replies)⟩]⟩])) := by
  have hlt : p < heap.length := by
    rcases List.getElem?_eq_some_iff.mp ho with ⟨h, _⟩
    exact h
  obtain ⟨hc, hn⟩ := collect_memberof_dn_success host heap op oc uid0 f replies hf hs hval hfit
  have hb : rs.sr_entry.bind (fun p => heap[p]?.map (fun e => (p, e))) = some (p, orig) := by
    simp [hp, ho]
  have hfind : ∀ (attrs : List Attribute) (x : Attribute),
      attr_find attrs am.attr_memberof = none →
      (attr_find (attrs ++ [⟨am.attr_memberof, x.a_vals⟩]) am.attr_memberof).isSome = true := by
    intro attrs x hnone
    simp only [attr_find] at hnone ⊢
    rw [List.find?_append, hnone]
    simp
  by_cases hd : delivered_identities heap replies = []
  · refine ⟨⟨SLAP_CB_CONTINUE, rs, heap, _⟩, ?_, rfl, rfl, ?_, fun _ => ⟨rfl, rfl⟩,
      fun h => absurd hd h⟩
    · simp only [automember_populate_memberof_attr, hreq, if_true, hb, hmo, hu, hv,
        List.length_singleton, gt_iff_lt, Nat.lt_irrefl, if_false, hoc, hc, hd, dn_list_of]
    · simp [carries_of_entry heap rs _ p orig hp ho, hmo, hd]
  · have hval2 : bvarray_vals (delivered_identities heap replies ++ [BER_BVZERO]) =
        delivered_identities heap replies := bvarray_vals_terminated _ [] hn
    have hmerge := merge_into_reply_spec heap rs p am.attr_memberof
      (delivered_identities heap replies ++ [BER_BVZERO]) orig ho
    rw [attr_merge_absent _ _ _ hmo, hval2, map_ber_bvdup _ hn] at hmerge
    cases hmod : rs.sr_flags.REP_ENTRY_MODIFIABLE with
    | true =>
      simp only [hmod, if_true] at hmerge
      refine ⟨⟨SLAP_CB_CONTINUE, rs, heap.set p ⟨orig.e_name, orig.e_nname,
          orig.e_attrs ++ [⟨am.attr_memberof, some (delivered_identities heap replies)⟩]⟩,
        [Event.search (internal_search_op op f
          ⟨filter_bv_len oc uid0, some (filter_buffer oc uid0)⟩)]⟩,
        ?_, rfl, rfl, ?_, fun h => absurd h hd, fun _ => ?_⟩
      · simp only [automember_populate_memberof_attr, hreq, if_true, hb, hmo, hu, hv,
          List.length_singleton, gt_iff_lt, Nat.lt_irrefl, if_false, hoc, hc, dn_list_of,
          if_neg hd, hmerge]
      · simp only [carries, hp, Option.some_bind, ne_eq, hd, not_false_eq_true, iff_true]
        rw [List.getElem?_set_self hlt]
        exact hfind orig.e_attrs ⟨am.attr_memberof, _⟩ hmo
      · exact ⟨hmod, by simp⟩
    | false =>
      simp only [hmod, Bool.false_eq_true, if_false] at hmerge
      refine ⟨⟨SLAP_CB_CONTINUE,
        ⟨rs.sr_type, some heap.length, ⟨true, true, false, rs.sr_flags.other_bits⟩⟩,
        heap ++ [⟨orig.e_name, orig.e_nname,
          orig.e_attrs ++ [⟨am.attr_memberof, some (delivered_identities heap replies)⟩]⟩],
        [Event.search (internal_search_op op f
          ⟨filter_bv_len oc uid0, some (filter_buffer oc uid0)⟩)]⟩,
        ?_, rfl, rfl, ?_, fun h => absurd h hd, fun _ => ?_⟩
      · simp only [automember_populate_memberof_attr, hreq, if_true, hb, hmo, hu, hv,
          List.length_singleton, gt_iff_lt, Nat.lt_irrefl, if_false, hoc, hc, dn_list_of,
          if_neg hd, hmerge]
      · simp only [carries, Option.some_bind, ne_eq, hd, not_false_eq_true, iff_true]
        rw [List.getElem?_append_right (Nat.le_refl _)]
        simp only [Nat.sub_self, List.getElem?_cons_zero]
        exact hfind orig.e_attrs ⟨am.attr_memberof, _⟩ hmo
      · exact ⟨rfl, by simp⟩

/-- Witness for C10: `alice` is referenced by two groups; both identities
are attached, in the order of delivery, to a duplicate that is flagged
modifiable. -/
theorem reverse_attaches_identities_witness :
    ex_rs.sr_entry = some 0 ∧ [ex_user, ex_admins, ex_staff][0]? = some ex_user ∧
    (false || memberof_requested ex_am ex_op_memberof.ors_attrs) = true ∧
    attr_find ex_user.e_attrs ex_am.attr_memberof = none ∧
    attr_find ex_user.e_attrs ex_am.attr_uid = some ⟨ex_attr_uid, some [ex_bv "alice"]⟩ ∧
    bvarray_vals [ex_bv "alice"] = [ex_bv "alice"] ∧
    ex_host.be_search ex_op2 = (ex_replies, LDAP_SUCCESS) ∧
    delivered_identities [ex_user, ex_admins, ex_staff] ex_replies =
      [ex_bv "cn=admins,ou=Groups,dc=example,dc=com", ex_bv "cn=staff,ou=Groups,dc=example,dc=com"] ∧
    filter_bv_len ⟨"posixGroup".toList⟩ (ex_bv "alice") ≤ INT_MAX ∧
    ∃ out : Outcome,
      automember_populate_memberof_attr ex_host [ex_user, ex_admins, ex_staff] ex_op_memberof
        ex_rs ex_am false = some out ∧
      out.rc = SLAP_CB_CONTINUE ∧
      (carries out.heap out.rs ex_am.attr_memberof = true ↔
        delivered_identities [ex_user, ex_admins, ex_staff] ex_replies ≠ []) ∧
      ex_rs.sr_flags.REP_ENTRY_MODIFIABLE = false ∧
      out.rs.sr_flags.REP_ENTRY_MODIFIABLE = true :=
  ⟨rfl, rfl, by decide, by decide, by decide, by decide, rfl, by decide, by decide,
   match reverse_attaches_identities ex_host [ex_user, ex_admins, ex_staff] ex_op_memberof
      ex_rs ex_am false 0 ex_user ex_attr_uid [ex_bv "alice"] (ex_bv "alice")
      ⟨"posixGroup".toList⟩ ex_filter ex_replies rfl rfl (by decide) (by decide) (by decide)
      (by decide) rfl rfl rfl
      (by
        intro r hr ht q hq
        simp only [ex_replies, List.mem_cons, List.mem_singleton, List.not_mem_nil, or_false] at hr
        rcases hr with h | h | h
        · subst h; cases hq; exact ⟨ex_admins, rfl, by decide⟩
        · subst h; cases hq; exact ⟨ex_staff, rfl, by decide⟩
        · subst h; cases hq)
      (by decide) with
   | ⟨out, h1, h2, _, h4, _, h6⟩ => ⟨out, h1, h2, h4, rfl, (h6 (by decide)).1⟩⟩

/-! ## Forward synthesis: lemmas -/

theorem xform_of_value (fresh_b tmpl : List Char) (v : BerValue) (slot : Option BerValue)
    (h : tmpl ≠ TOKEN) (hv : v.bv_val ≠ none) :
    automember_xform_uid_to_dn fresh_b tmpl v (some slot) =
      ⟨some (stored_value fresh_b tmpl v), some (some (stored_value fresh_b tmpl v))⟩ := by
  cases v with
  | mk len val =>
    cases val with
    | none => exact absurd rfl hv
    | some s => exact xform_general fresh_b tmpl s len slot h

theorem xform_loop_values (host : Host) (tmpl : List Char) (h : tmpl ≠ TOKEN) :
    ∀ (vs : List BerValue) (written rest : List (Option BerValue)) (j : Nat),
      (∀ v ∈ vs, v.bv_val ≠ none) → vs.length ≤ rest.length →
      xform_loop host tmpl vs (written ++ rest) written.length j =
        (written ++ stored_values host tmpl vs j ++ rest.drop vs.length,
         written.length + vs.length, j + vs.length) := by
  intro vs
  induction vs with
  | nil => intro written rest j _ _; simp [xform_loop, stored_values]
  | cons v vs ih =>
    intro written rest j hnn hlen
    have hv : v.bv_val ≠ none := hnn v (by simp)
    cases rest with
    | nil => simp at hlen
    | cons slot rest =>
      obtain ⟨s, hs⟩ : ∃ s, v.bv_val = some s := by
        cases hb : v.bv_val with
        | none => exact absurd hb hv
        | some s => exact ⟨s, rfl⟩
      have hx := xform_of_value (host.fresh_buffer j) tmpl v
        ((written ++ slot :: rest).getD written.length none) h hv
      have hset : (written ++ slot :: rest).set written.length
          (some (stored_value (host.fresh_buffer j) tmpl v)) =
          (written ++ [some (stored_value (host.fresh_buffer j) tmpl v)]) ++ rest := by
        simp [List.set_append]
      have hi := ih (written ++ [some (stored_value (host.fresh_buffer j) tmpl v)]) rest (j + 1)
        (fun y hy => hnn y (by simp [hy])) (by simpa using hlen)
      rw [xform_loop]
      simp only [hs, hx, Option.isSome_some, if_true, hset]
      simp only [List.length_append, List.length_singleton] at hi
      rw [hi]
      simp [stored_values, Nat.add_assoc, Nat.add_comm 1]

theorem set_getD_self {α : Type} (dst : List α) (k : Nat) (d : α) :
    dst.set k (dst.getD k d) = dst := by
  induction dst generalizing k with
  | nil => rfl
  | cons x xs ih =>
    cases k with
    | zero => rfl
    | succ k => simp only [List.getD_cons_succ, List.set_cons_succ, ih]

theorem xform_loop_identity (host : Host) :
    ∀ (vs : List BerValue) (dst : List (Option BerValue)) (k j : Nat),
      (∀ v ∈ vs, v.bv_val ≠ none) →
      xform_loop host TOKEN vs dst k j = (dst, k + vs.length, j + vs.length) := by
  intro vs
  induction vs with
  | nil => intro dst k j _; simp [xform_loop]
  | cons v vs ih =>
    intro dst k j hnn
    have hv : v.bv_val ≠ none := hnn v (by simp)
    obtain ⟨s, hs⟩ : ∃ s, v.bv_val = some s := by
      cases hb : v.bv_val with
      | none => exact absurd hb hv
      | some s => exact ⟨s, rfl⟩
    rw [xform_loop]
    simp only [hs, automember_xform_uid_to_dn, if_true, Option.isSome_some, set_getD_self]
    rw [ih dst (k + 1) (j + 1) (fun y hy => hnn y (by simp [hy]))]
    simp [Nat.add_assoc, Nat.add_comm 1]

theorem bvarray_vals_all (xs : List BerValue) (hx : ∀ x ∈ xs, x.bv_val ≠ none) :
    bvarray_vals xs = xs := by
  have h := bvarray_vals_terminated xs [] hx
  induction xs with
  | nil => rfl
  | cons x xs ih =>
    have h2 : x.bv_val.isSome = true := by
      cases hb : x.bv_val with
      | none => exact absurd hb (hx x (by simp))
      | some _ => rfl
    have ih' := ih (fun y hy => hx y (by simp [hy]))
      (bvarray_vals_terminated xs [] (fun y hy => hx y (by simp [hy])))
    simp only [bvarray_vals] at ih' ⊢
    simp [List.takeWhile_cons, h2, ih']

theorem stored_value_read (fresh_b tmpl : List Char) (v : BerValue) :
    (⟨(stored_value fresh_b tmpl v).bv_len,
      some ((if tmpl = [] then fresh_b else expand_spec (v.bv_val.getD []) tmpl).take
        (stored_value fresh_b tmpl v).bv_len)⟩ : BerValue) = expand_value tmpl v := by
  by_cases ht : tmpl = []
  · subst ht
    simp [stored_value, expand_value, expand_spec, token_count]
  · have e := expand_spec_length (v.bv_val.getD []) tmpl
    have l := token_count_le tmpl
    have hlen : (expand_spec (v.bv_val.getD []) tmpl).length =
        tmpl.length - 2 * token_count tmpl + token_count tmpl * (v.bv_val.getD []).length := by
      omega
    simp only [stored_value, expand_value, if_neg ht, ← hlen, List.take_length]

theorem bvarray_walk_stored (host : Host) (tmpl : List Char) :
    ∀ (vs : List BerValue) (j i : Nat) (rest : List (Option BerValue)),
      bvarray_walk host (stored_values host tmpl vs j ++ some BER_BVZERO :: rest) i =
        some (vs.map (expand_value tmpl)) := by
  intro vs
  induction vs with
  | nil => intro j i rest; simp [stored_values, bvarray_walk, BER_BVZERO]
  | cons v vs ih =>
    intro j i rest
    have hr := stored_value_read (host.fresh_buffer j) tmpl v
    simp only [stored_values, List.cons_append, bvarray_walk, List.map_cons]
    simp only [stored_value] at hr ⊢
    rw [hr]
    show Option.map _ (bvarray_walk host
      (stored_values host tmpl vs (j + 1) ++ some BER_BVZERO :: rest) (i + 1)) = _
    rw [ih (j + 1) (i + 1) rest]
    rfl

/-- The array that `attr_merge` walks in forward synthesis, according to the
template: the stored values for a template other than the identity
placeholder, and for the identity placeholder slots that were never
written, since `automember_xform_uid_to_dn` then returns a fresh duplicate
and does not write `*out_val`. -/
theorem populate_member_merged_array (host : Host) (heap : List Entry) (op : Operation)
    (rs : SlapReply) (am : automember_t) (force_addition : Bool) (p : Nat) (orig : Entry)
    (sd : AttributeDescription) (a_vals : List BerValue) (trace : List Event)
    (hp : rs.sr_entry = some p) (ho : heap[p]? = some orig)
    (hreq : (force_addition || (member_requested am op.ors_attrs).1) = true)
    (hdst : attr_find orig.e_attrs am.attr_member = none)
    (hsrc : source_attr host heap am orig (member_requested am op.ors_attrs).2 =
      some (some ⟨sd, some a_vals⟩, trace))
    (hnn : ∀ v ∈ a_vals, v.bv_val ≠ none) (hne : a_vals ≠ []) :
    automember_populate_member_attr host heap op rs am force_addition =
      (bvarray_walk host
        ((if am.synth_tmpl = TOKEN then List.replicate a_vals.length none
          else stored_values host am.synth_tmpl a_vals 0) ++ [some BER_BVZERO]) 0).bind
        (fun vals => (merge_into_reply heap rs p am.attr_member vals).map
          (fun r => ⟨SLAP_CB_CONTINUE, r.1, r.2, trace⟩)) := by
  have hb : rs.sr_entry.bind (fun p => heap[p]?.map (fun e => (p, e))) = some (p, orig) := by
    simp [hp, ho]
  have hpos : 0 < a_vals.length := List.length_pos.mpr hne
  have hmerge := merge_into_reply_spec heap rs p am.attr_member
  simp only [automember_populate_member_attr, hreq, if_true, hb, hdst, hsrc,
    bvarray_vals_all a_vals hnn]
  by_cases ht : am.synth_tmpl = TOKEN
  · have hset : (List.replicate (a_vals.length + 1) (none : Option BerValue)).set a_vals.length
        (some BER_BVZERO) = List.replicate a_vals.length none ++ [some BER_BVZERO] := by
      rw [List.replicate_succ', List.set_append_right _ _ (by simp)]
      simp
    simp only [ht, if_true, xform_loop_identity host a_vals _ 0 0 hnn, Nat.zero_add, gt_iff_lt,
      hpos, hset]
    cases bvarray_walk host (List.replicate a_vals.length none ++ [some BER_BVZERO]) 0 with
    | none => rfl
    | some vals =>
      simp only [Option.some_bind, hmerge _ orig ho, Option.map_some']
  · have hl := xform_loop_values host am.synth_tmpl ht a_vals []
      (List.replicate (a_vals.length + 1) none) 0 hnn (by simp)
    simp only [List.nil_append, List.length_nil, Nat.zero_add] at hl
    have hdrop : (List.replicate (a_vals.length + 1) (none : Option BerValue)).drop a_vals.length =
        [none] := by
      simp
    have hset : (stored_values host am.synth_tmpl a_vals 0 ++ [none]).set
        a_vals.length (some BER_BVZERO) =
        stored_values host am.synth_tmpl a_vals 0 ++ [some BER_BVZERO] := by
      have hlen : ∀ (vs : List BerValue) (j : Nat),
          (stored_values host am.synth_tmpl vs j).length = vs.length := by
        intro vs
        induction vs with
        | nil => intro j; rfl
        | cons v vs ih => intro j; simp [stored_values, ih]
      rw [List.set_append_right _ _ (by rw [hlen])]
      simp [hlen]
    simp only [hl, hdrop, if_neg ht, gt_iff_lt, hpos, if_true, hset]
    cases bvarray_walk host (stored_values host am.synth_tmpl a_vals 0 ++ [some BER_BVZERO]) 0 with
    | none => rfl
    | some vals =>
      simp only [Option.some_bind, hmerge _ orig ho, Option.map_some']

/-- Forward synthesis with a template other than the identity placeholder:
for a record that lacks `member`, has it requested (or synthesis forced)
and has the source values `a_vals` available, `member` is attached with
exactly the expansions of the source values, one per value and in source
order. -/
theorem forward_values_proper_template (host : Host) (heap : List Entry) (op : Operation)
    (rs : SlapReply) (am : automember_t) (force_addition : Bool) (p : Nat) (orig : Entry)
    (sd : AttributeDescription) (a_vals : List BerValue) (trace : List Event)
    (hp : rs.sr_entry = some p) (ho : heap[p]? = some orig)
    (hreq : (force_addition || (member_requested am op.ors_attrs).1) = true)
    (hdst : attr_find orig.e_attrs am.attr_member = none)
    (hsrc : source_attr host heap am orig (member_requested am op.ors_attrs).2 =
      some (some ⟨sd, some a_vals⟩, trace))
    (hnn : ∀ v ∈ a_vals, v.bv_val ≠ none) (hne : a_vals ≠ [])
    (ht : am.synth_tmpl ≠ TOKEN) :
    automember_populate_member_attr host heap op rs am force_addition =
      some (if rs.sr_flags.REP_ENTRY_MODIFIABLE then
        ⟨SLAP_CB_CONTINUE, rs,
         heap.set p ⟨orig.e_name, orig.e_nname, orig.e_attrs ++
           [⟨am.attr_member, some (a_vals.map (expand_value am.synth_tmpl))⟩]⟩, trace⟩
      else
        ⟨SLAP_CB_CONTINUE,
         ⟨rs.sr_type, some heap.length, ⟨true, true, false, rs.sr_flags.other_bits⟩⟩,
         heap ++ [⟨orig.e_name, orig.e_nname, orig.e_attrs ++
           [⟨am.attr_member, some (a_vals.map (expand_value am.synth_tmpl))⟩]⟩], trace⟩) := by
  have hx : ∀ x ∈ a_vals.map (expand_value am.synth_tmpl), x.bv_val ≠ none := by
    intro x hxm
    obtain ⟨v, _, rfl⟩ := List.mem_map.mp hxm
    simp [expand_value]
  rw [populate_member_merged_array host heap op rs am force_addition p orig sd a_vals trace
    hp ho hreq hdst hsrc hnn hne, if_neg ht, bvarray_walk_stored, Option.some_bind,
    merge_into_reply_spec _ _ _ _ _ orig ho,
    attr_merge_absent _ _ _ hdst, bvarray_vals_all _ hx, map_ber_bvdup _ hx]
  cases rs.sr_flags.REP_ENTRY_MODIFIABLE <;> simp

/-- C1 (the code departs from it): with the identity template and the
source values `alice` and `bob`, the values attached as `member` are not
the expansions `alice` and `bob` but what the allocator left in the value
array; with the template of the scenario of §8 the two expansions are
attached in source order. -/
theorem forward_identity_template_values :
    automember_populate_member_attr ex_host [ex_group] ex_op ex_rs ex_am_identity false =
      some ⟨SLAP_CB_CONTINUE, ex_rs_replaced 1,
        [ex_group, ⟨ex_group.e_name, ex_group.e_nname, ex_group.e_attrs ++
          [⟨ex_attr_member, some [ex_bv "junk", ex_bv "junk"]⟩]⟩], []⟩ ∧
    (automember_xform_uid_to_dn "J".toList ex_am_identity.synth_tmpl (ex_bv "alice") none).ret =
      some (ex_bv "alice") ∧
    (automember_xform_uid_to_dn "J".toList ex_am_identity.synth_tmpl (ex_bv "bob") none).ret =
      some (ex_bv "bob") ∧
    automember_populate_member_attr ex_host [ex_group] ex_op ex_rs ex_am false =
      some ⟨SLAP_CB_CONTINUE, ex_rs_replaced 1, [ex_group, ex_group_synth], []⟩ := by
  refine ⟨by decide, by decide, by decide, by decide⟩

/-- C5 (the code departs from it): with the identity template, forward
synthesis on a record whose source value is
`cn=admins,ou=Groups,dc=example,dc=com` attaches, for every host, the
content that the allocator left in the first slot of the value array, and
faults when the pointer left there is wild: the transformation returns a
duplicate of the source value and leaves the slot it was given untouched,
so the value merged is not the source value. -/
theorem identity_template_merges_fresh_memory :
    (∀ host : Host,
      automember_populate_member_attr host [ex_group_dn] ex_op ex_rs ex_am_identity false =
        if host.fresh_wild 0 then none
        else
          some ⟨SLAP_CB_CONTINUE, ex_rs_replaced 1,
            [ex_group_dn, ⟨ex_group_dn.e_name, ex_group_dn.e_nname, ex_group_dn.e_attrs ++
              [⟨ex_attr_member, some ((bvarray_vals [leftover_value host 0]).map ber_bvdup)⟩]⟩],
            []⟩) ∧
    (∀ (fresh_b : List Char) (slot : Option BerValue),
      automember_xform_uid_to_dn fresh_b automember_default_synth_tmpl
        (ex_bv "cn=admins,ou=Groups,dc=example,dc=com") (some slot) =
        ⟨some (ex_bv "cn=admins,ou=Groups,dc=example,dc=com"), some slot⟩) ∧
    automember_populate_member_attr ex_host [ex_group_dn] ex_op ex_rs ex_am_identity false =
      some ⟨SLAP_CB_CONTINUE, ex_rs_replaced 1,
        [ex_group_dn, ⟨ex_group_dn.e_name, ex_group_dn.e_nname, ex_group_dn.e_attrs ++
          [⟨ex_attr_member, some [ex_bv "junk"]⟩]⟩], []⟩ ∧
    ex_bv "junk" ≠ ex_bv "cn=admins,ou=Groups,dc=example,dc=com" := by
  refine ⟨?_, ?_, by decide, by decide⟩
  · intro host
    rw [populate_member_merged_array host [ex_group_dn] ex_op ex_rs ex_am_identity false 0
      ex_group_dn ex_attr_memberuid [ex_bv "cn=admins,ou=Groups,dc=example,dc=com"] []
      rfl rfl (by decide) (by decide) rfl (by decide) (by decide)]
    have ht : ex_am_identity.synth_tmpl = TOKEN := rfl
    rw [if_pos ht]
    simp only [List.length_singleton, List.replicate_one, List.singleton_append, bvarray_walk]
    cases hw : host.fresh_wild 0 with
    | true => simp
    | false =>
      simp only [Bool.false_eq_true, if_false]
      cases hs : (host.fresh_slot 0).bv_val with
      | none =>
        simp only [Option.some_bind, merge_into_reply_spec [ex_group_dn] ex_rs 0 _ _ ex_group_dn rfl,
          attr_merge_absent _ _ _ (by decide : attr_find ex_group_dn.e_attrs
            ex_am_identity.attr_member = none), Option.map_some']
        have hm : ex_rs.sr_flags.REP_ENTRY_MODIFIABLE = false := rfl
        simp [leftover_value, hs, bvarray_vals, hm]
        exact ⟨rfl, rfl⟩
      | some str =>
        simp only [BER_BVZERO, Option.map_some', Option.some_bind,
          merge_into_reply_spec [ex_group_dn] ex_rs 0 _ _ ex_group_dn rfl,
          attr_merge_absent _ _ _ (by decide : attr_find ex_group_dn.e_attrs
            ex_am_identity.attr_member = none)]
        have hm : ex_rs.sr_flags.REP_ENTRY_MODIFIABLE = false := rfl
        simp [leftover_value, hs, bvarray_vals, hm]
        exact ⟨rfl, rfl⟩
  · intro fresh_b slot
    rfl

/-! ## Reverse synthesis: not applicable, fail-soft -/

/-- C11: when the identifying attribute `uid` is absent from the record, or
holds no value, or holds more than one, reverse synthesis, forced or not
and for every request list, attaches nothing, issues no internal query (and
no other collaborator call), makes no copy, leaves the reply, its entry and
its flags as they are, and returns the continue status. -/
theorem reverse_not_applicable (host : Host) (heap : List Entry) (op : Operation)
    (rs : SlapReply) (am : automember_t) (force_addition : Bool) (p : Nat) (orig : Entry)
    (hp : rs.sr_entry = some p) (ho : heap[p]? = some orig)
    (hu : attr_find orig.e_attrs am.attr_uid = none ∨
      ∃ uid : Attribute, attr_find orig.e_attrs am.attr_uid = some uid ∧
        (bvarray_vals (uid.a_vals.getD [])).length ≠ 1) :
    automember_populate_memberof_attr host heap op rs am force_addition =
      some ⟨SLAP_CB_CONTINUE, rs, heap, []⟩ := by
  have hb : rs.sr_entry.bind (fun p => heap[p]?.map (fun e => (p, e))) = some (p, orig) := by
    simp [hp, ho]
  unfold automember_populate_memberof_attr
  simp only [hb]
  split
  · cases hmo : attr_find orig.e_attrs am.attr_memberof with
    | some _ => rfl
    | none =>
      rcases hu with hu | ⟨uid, hu, hl⟩
      · simp only [hu]
      · simp only [hu]
        cases hv : uid.a_vals with
        | none => rfl
        | some a_vals =>
          simp only [hv, Option.getD_some] at hl
          simp only []
          cases hb : bvarray_vals a_vals with
          | nil => rfl
          | cons uid0 more =>
            simp only []
            cases more with
            | nil => rw [hb] at hl; simp at hl
            | cons u2 more2 => simp
  · rfl

/-- Witness for C11: a record without `uid`, and one with two `uid` values. -/
theorem reverse_not_applicable_witness :
    ex_rs.sr_entry = some 0 ∧ [ex_user_no_uid][0]? = some ex_user_no_uid ∧
    attr_find ex_user_no_uid.e_attrs ex_am.attr_uid = none ∧
    automember_populate_memberof_attr ex_host [ex_user_no_uid] ex_op_memberof ex_rs ex_am false =
      some ⟨SLAP_CB_CONTINUE, ex_rs, [ex_user_no_uid], []⟩ ∧
    automember_populate_memberof_attr ex_host [ex_user_two_uids] ex_op_memberof ex_rs ex_am true =
      some ⟨SLAP_CB_CONTINUE, ex_rs, [ex_user_two_uids], []⟩ :=
  ⟨rfl, rfl, by decide,
   reverse_not_applicable ex_host [ex_user_no_uid] ex_op_memberof ex_rs ex_am false 0
     ex_user_no_uid rfl rfl (Or.inl (by decide)),
   reverse_not_applicable ex_host [ex_user_two_uids] ex_op_memberof ex_rs ex_am true 0
     ex_user_two_uids rfl rfl
     (Or.inr ⟨⟨ex_attr_uid, some [ex_bv "alice", ex_bv "al"]⟩, by decide, by decide⟩)⟩

theorem per_entry_some (heap : List Entry) (dn_list : Option (List BerValue)) (r : SlapReply)
    (hv : ∀ q : Nat, r.sr_entry = some q → q < heap.length) :
    ∃ l, automember_collect_memberof_dn_per_entry heap dn_list r = some (l, LDAP_SUCCESS) := by
  unfold automember_collect_memberof_dn_per_entry
  split
  · rename_i q _ he
    have hq : q < heap.length := hv q he
    rw [List.getElem?_eq_getElem hq]
    exact ⟨_, rfl⟩
  · exact ⟨_, rfl⟩

theorem deliver_replies_some (heap : List Entry) :
    ∀ (replies : List SlapReply) (dn_list : Option (List BerValue)),
      (∀ r ∈ replies, ∀ q : Nat, r.sr_entry = some q → q < heap.length) →
      ∃ l, deliver_replies heap replies dn_list = some l := by
  intro replies
  induction replies with
  | nil => intro dn_list _; exact ⟨dn_list, rfl⟩
  | cons r rest ih =>
    intro dn_list hv
    obtain ⟨l, hl⟩ := per_entry_some heap dn_list r (hv r (by simp))
    obtain ⟨l2, hl2⟩ := ih l (fun r' hr' => hv r' (by simp [hr']))
    exact ⟨l2, by simp only [deliver_replies, hl, hl2]⟩

theorem collect_memberof_dn_failure (host : Host) (heap : List Entry) (op : Operation)
    (oc : ObjectClass) (uid0 : BerValue) (hwf : host_wf host heap)
    (hfail : host.str2filter_x (filter_buffer oc uid0) = none ∨
      ∃ f : Filter, host.str2filter_x (filter_buffer oc uid0) = some f ∧
        (host.be_search (internal_search_op op f
          ⟨filter_bv_len oc uid0, some (filter_buffer oc uid0)⟩)).2 ≠ LDAP_SUCCESS) :
    ∃ c : CollectResult, automember_collect_memberof_dn host heap op oc uid0 = some c ∧
      c.out_dn_list = none := by
  by_cases hov : to_ber_len_t (snprintf_ret (filter_bv_len oc uid0)) > filter_bv_len oc uid0
  · exact ⟨_, collect_overflow host heap op oc uid0 hov, rfl⟩
  · rw [collect_no_overflow host heap op oc uid0 hov]
    rcases hfail with hf | ⟨f, hf, hs⟩
    · simp [hf]
    · simp only [hf]
      obtain ⟨l, hl⟩ := deliver_replies_some heap
        (host.be_search (internal_search_op op f
          ⟨filter_bv_len oc uid0, some (filter_buffer oc uid0)⟩)).1 none (hwf.2 _)
      simp [hl, hs]

/-- C12: when the filter of the internal query cannot be built, or the
query returns a status other than success, whatever identities it had
delivered before, reverse synthesis attaches nothing, makes no copy and
leaves the reply, its entry and its flags as they are; it returns the
continue status. -/
theorem reverse_fail_soft (host : Host) (heap : List Entry) (op : Operation)
    (rs : SlapReply) (am : automember_t) (force_addition : Bool) (p : Nat) (orig : Entry)
    (ud : AttributeDescription) (a_vals : List BerValue) (uid0 : BerValue) (oc : ObjectClass)
    (hp : rs.sr_entry = some p) (ho : heap[p]? = some orig)
    (hmo : attr_find orig.e_attrs am.attr_memberof = none)
    (hu : attr_find orig.e_attrs am.attr_uid = some ⟨ud, some a_vals⟩)
    (hv : bvarray_vals a_vals = [uid0])
    (hoc : am.oc_member = some oc)
    (hwf : host_wf host heap)
    (hfail : host.str2filter_x (filter_buffer oc uid0) = none ∨
      ∃ f : Filter, host.str2filter_x (filter_buffer oc uid0) = some f ∧
        (host.be_search (internal_search_op op f
          ⟨filter_bv_len oc uid0, some (filter_buffer oc uid0)⟩)).2 ≠ LDAP_SUCCESS) :
    ∃ out : Outcome,
      automember_populate_memberof_attr host heap op rs am force_addition = some out ∧
      out.rc = SLAP_CB_CONTINUE ∧ out.rs = rs ∧ out.heap = heap ∧
      carries out.heap out.rs am.attr_memberof = false := by
  have hb : rs.sr_entry.bind (fun p => heap[p]?.map (fun e => (p, e))) = some (p, orig) := by
    simp [hp, ho]
  have hcar : carries heap rs am.attr_memberof = false := by
    simp [carries_of_entry heap rs _ p orig hp ho, hmo]
  obtain ⟨c, hc, hnone⟩ := collect_memberof_dn_failure host heap op oc uid0 hwf hfail
  by_cases hreq : (force_addition || memberof_requested am op.ors_attrs) = true
  · refine ⟨⟨SLAP_CB_CONTINUE, rs, heap, c.trace⟩, ?_, rfl, rfl, rfl, hcar⟩
    simp only [automember_populate_memberof_attr, hreq, if_true, hb, hmo, hu, hv,
      List.length_singleton, gt_iff_lt, Nat.lt_irrefl, if_false, hoc, hc, hnone]
  · refine ⟨⟨SLAP_CB_CONTINUE, rs, heap, []⟩, ?_, rfl, rfl, rfl, hcar⟩
    simp only [automember_populate_memberof_attr, hreq]
    rfl

theorem ex_host_search_fails_wf : host_wf ex_host_search_fails [ex_user, ex_admins, ex_staff] := by
  constructor
  · intro ndn oc ad p h
    simp [ex_host_search_fails, ex_host] at h
  · intro op2 r hr q hq
    simp only [ex_host_search_fails, ex_replies, List.mem_cons, List.mem_singleton,
      List.not_mem_nil, or_false] at hr
    rcases hr with h | h | h <;> subst h <;> cases hq <;> decide

/-- Witness for C12: the search delivers the two groups that reference
`alice` and then fails; nothing is attached to the user entry. -/
theorem reverse_fail_soft_witness :
    ex_rs.sr_entry = some 0 ∧ [ex_user, ex_admins, ex_staff][0]? = some ex_user ∧
    attr_find ex_user.e_attrs ex_am.attr_memberof = none ∧
    delivered_identities [ex_user, ex_admins, ex_staff] (ex_host_search_fails.be_search ex_op2).1 =
      [ex_bv "cn=admins,ou=Groups,dc=example,dc=com", ex_bv "cn=staff,ou=Groups,dc=example,dc=com"] ∧
    (ex_host_search_fails.be_search ex_op2).2 ≠ LDAP_SUCCESS ∧
    ∃ out : Outcome,
      automember_populate_memberof_attr ex_host_search_fails [ex_user, ex_admins, ex_staff]
        ex_op_memberof ex_rs ex_am false = some out ∧
      out.rc = SLAP_CB_CONTINUE ∧ out.rs = ex_rs ∧ out.heap = [ex_user, ex_admins, ex_staff] ∧
      carries out.heap out.rs ex_am.attr_memberof = false :=
  ⟨rfl, rfl, by decide, by decide, by decide,
   reverse_fail_soft ex_host_search_fails [ex_user, ex_admins, ex_staff] ex_op_memberof ex_rs
     ex_am false 0 ex_user ex_attr_uid [ex_bv "alice"] (ex_bv "alice") ⟨"posixGroup".toList⟩
     rfl rfl (by decide) (by decide) (by decide) rfl ex_host_search_fails_wf
     (Or.inr ⟨ex_filter, rfl, by decide⟩)⟩

/-! ## The internal search operation -/

theorem search_setup_op (op : Operation) (filter : Filter) (filter_str : BerValue) :
    (search_setup op filter filter_str).op = op ∧
    (search_setup op filter filter_str).search_op = internal_search_op op filter filter_str :=
  ⟨rfl, rfl⟩

theorem collect_trace (host : Host) (heap : List Entry) (op : Operation) (oc : ObjectClass)
    (uid0 : BerValue) (c : CollectResult)
    (h : automember_collect_memberof_dn host heap op oc uid0 = some c) :
    c.trace = [] ∨
    ∃ f : Filter, host.str2filter_x (filter_buffer oc uid0) = some f ∧
      c.trace = [Event.search (internal_search_op op f
        ⟨filter_bv_len oc uid0, some (filter_buffer oc uid0)⟩)] := by
  by_cases hov : to_ber_len_t (snprintf_ret (filter_bv_len oc uid0)) > filter_bv_len oc uid0
  · rw [collect_overflow host heap op oc uid0 hov] at h
    cases h
    exact Or.inl rfl
  · rw [collect_no_overflow host heap op oc uid0 hov] at h
    cases hf : host.str2filter_x (filter_buffer oc uid0) with
    | none =>
      simp [hf] at h
      rw [← h]
      exact Or.inl rfl
    | some f =>
      simp only [hf] at h
      refine Or.inr ⟨f, rfl, ?_⟩
      split at h
      · cases h
      · split at h <;> (cases h; rfl)

theorem populate_memberof_trace (host : Host) (heap : List Entry) (op : Operation)
    (rs : SlapReply) (am : automember_t) (force_addition : Bool) (out : Outcome)
    (h : automember_populate_memberof_attr host heap op rs am force_addition = some out) :
    out.trace = [] ∨
    ∃ (f : Filter) (oc : ObjectClass) (uid0 : BerValue),
      am.oc_member = some oc ∧
      host.str2filter_x (filter_buffer oc uid0) = some f ∧
      out.trace = [Event.search (internal_search_op op f
        ⟨filter_bv_len oc uid0, some (filter_buffer oc uid0)⟩)] := by
  unfold automember_populate_memberof_attr at h
  simp only at h
  split at h
  · split at h
    · exact absurd h (by simp)
    · split at h
      · cases h; exact Or.inl rfl
      · split at h
        · cases h; exact Or.inl rfl
        · split at h
          · cases h; exact Or.inl rfl
          · split at h
            · cases h; exact Or.inl rfl
            · split at h
              · cases h; exact Or.inl rfl
              · split at h
                · exact absurd h (by simp)
                · rename_i oc hoc
                  split at h
                  · exact absurd h (by simp)
                  · rename_i c hc
                    have ht := collect_trace host heap op oc _ c hc
                    have key : out.trace = c.trace := by
                      split at h
                      · split at h
                        · split at h
                          · exact absurd h (by simp)
                          · cases h; rfl
                        · cases h; rfl
                      · cases h; rfl
                    rw [key]
                    rcases ht with h0 | ⟨f, hf, htr⟩
                    · exact Or.inl h0
                    · exact Or.inr ⟨f, oc, _, hoc, hf, htr⟩
  · cases h; exact Or.inl rfl

theorem internal_search_op_as_specified (op : Operation) (filter : Filter)
    (filter_str : BerValue) :
    internal_query_as_specified op (internal_search_op op filter filter_str) := by
  simp [internal_query_as_specified, internal_search_op]

/-- C13: the internal search that `automember_collect_memberof_dn` hands to
the host, and so every internal search of reverse synthesis, is on the
database of the triggering operation, with its first suffix as base and
subtree scope, under the root identity of the database, without size or
time limit, with no attribute requested and with the do-not-cache flag set;
it is built on the locals `op2` and `be`, and the triggering operation,
its database included, is after lines 506-561 what it was before. -/
theorem internal_search_operation (host : Host) (heap : List Entry) (op : Operation)
    (oc : ObjectClass) (uid_value : BerValue) (c : CollectResult) (op2 : Operation)
    (h : automember_collect_memberof_dn host heap op oc uid_value = some c)
    (hm : Event.search op2 ∈ c.trace) :
    (∃ (f : Filter) (filter_str : BerValue),
      op2 = (search_setup op f filter_str).search_op ∧
      (search_setup op f filter_str).op = op ∧
      (search_setup op f filter_str).op2_bd = BdRef.of_be) ∧
    internal_query_as_specified op op2 ∧
    (∀ (rs : SlapReply) (am : automember_t) (force_addition : Bool) (out : Outcome)
      (op3 : Operation),
      automember_populate_memberof_attr host heap op rs am force_addition = some out →
      Event.search op3 ∈ out.trace → internal_query_as_specified op op3) := by
  refine ⟨?_, ?_, ?_⟩
  · rcases collect_trace host heap op oc uid_value c h with h0 | ⟨f, _, htr⟩
    · rw [h0] at hm; simp at hm
    · rw [htr] at hm
      simp only [List.mem_singleton, Event.search.injEq] at hm
      exact ⟨f, _, by rw [hm, (search_setup_op op f _).2], rfl, rfl⟩
  · rcases collect_trace host heap op oc uid_value c h with h0 | ⟨f, _, htr⟩
    · rw [h0] at hm; simp at hm
    · rw [htr] at hm
      simp only [List.mem_singleton, Event.search.injEq] at hm
      rw [hm]
      exact internal_search_op_as_specified op f _
  · intro rs am force_addition out op3 hout hm3
    rcases populate_memberof_trace host heap op rs am force_addition out hout with
      h0 | ⟨f, oc', uid0, _, _, htr⟩
    · rw [h0] at hm3; simp at hm3
    · rw [htr] at hm3
      simp only [List.mem_singleton, Event.search.injEq] at hm3
      rw [hm3]
      exact internal_search_op_as_specified op f _

/-- Witness for C13: the search built for `alice` from a request for
`memberOf`. -/
theorem internal_search_operation_witness :
    automember_collect_memberof_dn ex_host [ex_user, ex_admins, ex_staff] ex_op_memberof
      ⟨"posixGroup".toList⟩ (ex_bv "alice") =
      some ⟨LDAP_SUCCESS,
        some [ex_bv "cn=admins,ou=Groups,dc=example,dc=com",
              ex_bv "cn=staff,ou=Groups,dc=example,dc=com", BER_BVZERO],
        [Event.search ex_op2]⟩ ∧
    Event.search ex_op2 ∈ [Event.search ex_op2] ∧
    internal_query_as_specified ex_op_memberof ex_op2 ∧
    ex_op2.o_req_dn = ex_bv "dc=example,dc=com" ∧
    ex_op2.o_dn = ex_bv "cn=root,dc=example,dc=com" ∧
    ex_op_memberof.o_dn = ex_bv "uid=carol,ou=People,dc=example,dc=com" :=
  ⟨by decide, List.mem_singleton.mpr rfl,
   (internal_search_operation ex_host [ex_user, ex_admins, ex_staff] ex_op_memberof
      ⟨"posixGroup".toList⟩ (ex_bv "alice")
      ⟨LDAP_SUCCESS,
        some [ex_bv "cn=admins,ou=Groups,dc=example,dc=com",
              ex_bv "cn=staff,ou=Groups,dc=example,dc=com", BER_BVZERO],
        [Event.search ex_op2]⟩ ex_op2 (by decide) (List.mem_singleton.mpr rfl)).2.1,
   by decide, by decide, by decide⟩

/-! ## The filter string -/

/-- C14 (the code departs from it): the identifier value is copied into the
filter string as it is.  For the identifier `*` the string built is
`(&(objectClass=posixGroup)(memberUid=*))`, in which `memberUid=*` is a
presence test: the search issued carries that filter, both groups are
delivered although the `memberUid` of neither holds `*`, and their
identities are attached as `memberOf`.  For the identifier `a)(uid=*` the
string built has three conjuncts. -/
theorem filter_value_not_escaped :
    filter_buffer ⟨"posixGroup".toList⟩ (ex_bv "*") =
      "(&(objectClass=posixGroup)(memberUid=*))".toList ∧
    filter_buffer ⟨"posixGroup".toList⟩ (ex_bv "a)(uid=*") =
      "(&(objectClass=posixGroup)(memberUid=a)(uid=*))".toList ∧
    automember_populate_memberof_attr ex_host_star [ex_user_star, ex_admins, ex_staff]
      ex_op_memberof ex_rs ex_am false =
      some ⟨SLAP_CB_CONTINUE, ex_rs_replaced 3,
        [ex_user_star, ex_admins, ex_staff, ex_user_star_synth], [Event.search ex_op2_star]⟩ ∧
    ex_op2_star.ors_filter = some ex_filter_star ∧
    attr_find ex_admins.e_attrs ex_attr_memberuid = some ⟨ex_attr_memberuid, some [ex_bv "alice"]⟩ ∧
    attr_find ex_staff.e_attrs ex_attr_memberuid =
      some ⟨ex_attr_memberuid, some [ex_bv "alice", ex_bv "bob"]⟩ := by
  refine ⟨by decide, by decide, by decide, by decide, by decide, by decide⟩

/-! ## Forward synthesis: the point-read -/

theorem fetch_src_attr_total (host : Host) (heap : List Entry) (oc : Option ObjectClass)
    (ndn : BerValue) (ad : AttributeDescription) (hwf : host_wf host heap) :
    ∃ x, automember_fetch_src_attr host heap oc ndn ad = some x := by
  unfold automember_fetch_src_attr
  cases hg : host.overlay_entry_get_ov ndn oc ad with
  | mk rc e =>
    simp only []
    split
    · cases e with
      | none => exact ⟨_, rfl⟩
      | some ep =>
        have hlt : ep < heap.length := hwf.1 ndn oc ad ep (by rw [hg])
        simp only [List.getElem?_eq_getElem hlt]
        exact ⟨_, rfl⟩
    · exact ⟨_, rfl⟩

theorem source_attr_cases (host : Host) (heap : List Entry) (am : automember_t) (orig : Entry)
    (b : Bool) :
    (b = true → source_attr host heap am orig b =
      some (attr_find orig.e_attrs am.attr_memberuid, [])) ∧
    (b = false → source_attr host heap am orig b =
      (automember_fetch_src_attr host heap am.oc_member orig.e_nname am.attr_memberuid).map
        (fun a => (a, [Event.point_read orig.e_nname am.oc_member am.attr_memberuid]))) := by
  constructor <;> intro hb <;> subst hb <;> simp [source_attr]

theorem source_attr_trace (host : Host) (heap : List Entry) (am : automember_t) (orig : Entry)
    (b : Bool) (x : Option Attribute) (tr : List Event)
    (h : source_attr host heap am orig b = some (x, tr)) :
    tr = if b then [] else [Event.point_read orig.e_nname am.oc_member am.attr_memberuid] := by
  cases b with
  | true =>
    rw [(source_attr_cases host heap am orig true).1 rfl] at h
    cases h; rfl
  | false =>
    rw [(source_attr_cases host heap am orig false).2 rfl] at h
    cases hf : automember_fetch_src_attr host heap am.oc_member orig.e_nname am.attr_memberuid with
    | none => rw [hf] at h; cases h
    | some a => rw [hf] at h; cases h; rfl

theorem populate_member_trace (host : Host) (heap : List Entry) (op : Operation)
    (rs : SlapReply) (am : automember_t) (force_addition : Bool) (p : Nat) (orig : Entry)
    (out : Outcome)
    (hp : rs.sr_entry = some p) (ho : heap[p]? = some orig)
    (htrig : (force_addition || (member_requested am op.ors_attrs).1) = true)
    (hdst : attr_find orig.e_attrs am.attr_member = none)
    (h : automember_populate_member_attr host heap op rs am force_addition = some out) :
    out.trace = if (member_requested am op.ors_attrs).2 then []
      else [Event.point_read orig.e_nname am.oc_member am.attr_memberuid] := by
  have hb : rs.sr_entry.bind (fun p => heap[p]?.map (fun e => (p, e))) = some (p, orig) := by
    simp [hp, ho]
  simp only [automember_populate_member_attr, htrig, if_true, hb, hdst] at h
  cases hs : source_attr host heap am orig (member_requested am op.ors_attrs).2 with
  | none => simp [hs] at h
  | some xt =>
    obtain ⟨x, tr⟩ := xt
    have htr := source_attr_trace host heap am orig _ x tr hs
    rw [hs] at h
    have key : out.trace = tr := by
      cases x with
      | none => simp only [] at h; cases h; rfl
      | some src =>
        simp only [] at h
        split at h
        · cases h; rfl
        · split at h
          · split at h
            · exact absurd h (by simp)
            · split at h
              · exact absurd h (by simp)
              · cases h; rfl
          · split at h
            · exact absurd h (by simp)
            · cases h; rfl
    rw [key, htr]

theorem xform_loop_bvarray (host : Host) (tmpl : List Char) :
    ∀ (a_vals : List BerValue) (dst : List (Option BerValue)) (k j : Nat),
      xform_loop host tmpl a_vals dst k j = xform_loop host tmpl (bvarray_vals a_vals) dst k j := by
  intro a_vals
  induction a_vals with
  | nil => intro dst k j; rfl
  | cons v vs ih =>
    intro dst k j
    cases hv : v.bv_val with
    | none =>
      have hb : bvarray_vals (v :: vs) = [] := by
        simp [bvarray_vals, List.takeWhile_cons, hv]
      rw [hb]
      simp [xform_loop, hv]
    | some str =>
      have hb : bvarray_vals (v :: vs) = v :: bvarray_vals vs := by
        simp [bvarray_vals, List.takeWhile_cons, hv]
      rw [hb, xform_loop, xform_loop]
      simp only [hv]
      split
      · exact ih _ _ _
      · exact ih _ _ _

theorem bvarray_vals_ne_none (l : List BerValue) : ∀ v ∈ bvarray_vals l, v.bv_val ≠ none := by
  intro v hv
  have h := List.mem_takeWhile_imp hv
  intro hn
  rw [hn] at h
  simp at h

theorem stored_values_length (host : Host) (tmpl : List Char) :
    ∀ (vs : List BerValue) (j : Nat), (stored_values host tmpl vs j).length = vs.length := by
  intro vs
  induction vs with
  | nil => intro j; rfl
  | cons v vs ih => intro j; simp [stored_values, ih]

theorem populate_member_total (host : Host) (heap : List Entry) (op : Operation)
    (rs : SlapReply) (am : automember_t) (force_addition : Bool) (p : Nat) (orig : Entry)
    (hp : rs.sr_entry = some p) (ho : heap[p]? = some orig) (hwf : host_wf host heap)
    (ht : am.synth_tmpl ≠ TOKEN) (hvals : attrs_have_values heap) :
    ∃ out, automember_populate_member_attr host heap op rs am force_addition = some out := by
  have hb : rs.sr_entry.bind (fun p => heap[p]?.map (fun e => (p, e))) = some (p, orig) := by
    simp [hp, ho]
  have hfind : ∀ (e : Entry) (a : Attribute), e ∈ heap →
      attr_find e.e_attrs am.attr_memberuid = some a →
      ∀ l, a.a_vals = some l → bvarray_vals l ≠ [] := by
    intro e a he ha l hl
    exact hvals e he a (List.mem_of_find?_eq_some ha) l hl
  unfold automember_populate_member_attr
  simp only [hb]
  split
  · cases attr_find orig.e_attrs am.attr_member with
    | some _ => exact ⟨_, rfl⟩
    | none =>
      simp only []
      have hsrc : ∃ x tr, source_attr host heap am orig (member_requested am op.ors_attrs).2 =
          some (x, tr) ∧ ∀ src, x = some src → ∀ l, src.a_vals = some l → bvarray_vals l ≠ [] := by
        cases hreq : (member_requested am op.ors_attrs).2 with
        | true =>
          refine ⟨_, _, (source_attr_cases host heap am orig true).1 rfl, ?_⟩
          intro src hsrc l hl
          obtain ⟨hlt, heq⟩ := List.getElem?_eq_some_iff.mp ho
          exact hfind orig src (heq ▸ List.getElem_mem hlt) hsrc l hl
        | false =>
          rw [(source_attr_cases host heap am orig false).2 rfl]
          unfold automember_fetch_src_attr
          cases hg : host.overlay_entry_get_ov orig.e_nname am.oc_member am.attr_memberuid with
          | mk rc e =>
            simp only []
            split
            · cases e with
              | none => exact ⟨_, _, rfl, fun src h => by cases h⟩
              | some ep =>
                have hlt : ep < heap.length := hwf.1 _ _ _ ep (by rw [hg])
                simp only [List.getElem?_eq_getElem hlt]
                refine ⟨_, _, rfl, ?_⟩
                intro src hsrc l hl
                cases hf : attr_find heap[ep].e_attrs am.attr_memberuid with
                | none => rw [hf] at hsrc; cases hsrc
                | some a =>
                  rw [hf] at hsrc
                  simp only [Option.map_some', attr_dup, Option.some.injEq] at hsrc
                  subst hsrc
                  exact hfind heap[ep] a (List.getElem_mem _) hf l hl
            · exact ⟨_, _, rfl, fun src h => by cases h⟩
      obtain ⟨x, tr, hxt, hx⟩ := hsrc
      rw [hxt]
      cases x with
      | none => exact ⟨_, rfl⟩
      | some src =>
        simp only []
        cases hav : src.a_vals with
        | none => exact ⟨_, rfl⟩
        | some a_vals =>
          have hne : bvarray_vals a_vals ≠ [] := hx src rfl a_vals hav
          have hpos : 0 < (bvarray_vals a_vals).length := List.length_pos.mpr hne
          have hl := xform_loop_values host am.synth_tmpl ht (bvarray_vals a_vals) []
            (List.replicate ((bvarray_vals a_vals).length + 1) none) 0
            (bvarray_vals_ne_none a_vals) (by simp)
          simp only [List.nil_append, List.length_nil, Nat.zero_add] at hl
          have hdrop : (List.replicate ((bvarray_vals a_vals).length + 1)
              (none : Option BerValue)).drop (bvarray_vals a_vals).length = [none] := by
            simp
          have hset : (stored_values host am.synth_tmpl (bvarray_vals a_vals) 0 ++ [none]).set
              (bvarray_vals a_vals).length (some BER_BVZERO) =
              stored_values host am.synth_tmpl (bvarray_vals a_vals) 0 ++ [some BER_BVZERO] := by
            rw [List.set_append_right _ _ (by rw [stored_values_length])]
            simp [stored_values_length]
          simp only [xform_loop_bvarray host am.synth_tmpl a_vals, hl, hdrop, gt_iff_lt, hpos,
            if_true, hset, bvarray_walk_stored,
            merge_into_reply_spec heap rs p am.attr_member _ orig ho]
          exact ⟨_, rfl⟩
  · exact ⟨_, rfl⟩

theorem forward_values_attached (host : Host) (heap : List Entry) (op : Operation)
    (rs : SlapReply) (am : automember_t) (force_addition : Bool) (p : Nat) (orig : Entry)
    (sd : AttributeDescription) (a_vals : List BerValue) (trace : List Event)
    (hp : rs.sr_entry = some p) (ho : heap[p]? = some orig)
    (hreq : (force_addition || (member_requested am op.ors_attrs).1) = true)
    (hdst : attr_find orig.e_attrs am.attr_member = none)
    (hsrc : source_attr host heap am orig (member_requested am op.ors_attrs).2 =
      some (some ⟨sd, some a_vals⟩, trace))
    (hnn : ∀ v ∈ a_vals, v.bv_val ≠ none) (hne : a_vals ≠ [])
    (ht : am.synth_tmpl ≠ TOKEN) :
    automember_populate_member_attr host heap op rs am force_addition =
      some (attach_outcome heap rs p orig am.attr_member
        (a_vals.map (expand_value am.synth_tmpl)) trace) :=
  forward_values_proper_template host heap op rs am force_addition p orig sd a_vals trace
    hp ho hreq hdst hsrc hnn hne ht

/-- The point-read fallback of forward synthesis: on a record that lacks
`member`, when `member` is requested (or synthesis forced) and the source
attribute is not requested, one point-read of the record's identity
restricted to the source attribute is issued; when it returns no attribute
the reply is left as it is, and when it returns source values and the
template is not the identity placeholder their expansions are attached. -/
theorem point_read_fallback (host : Host) (heap : List Entry) (op : Operation)
    (rs : SlapReply) (am : automember_t) (force_addition : Bool) (p : Nat) (orig : Entry)
    (hp : rs.sr_entry = some p) (ho : heap[p]? = some orig)
    (htrig : (force_addition || (member_requested am op.ors_attrs).1) = true)
    (hdst : attr_find orig.e_attrs am.attr_member = none)
    (hnsrc : (member_requested am op.ors_attrs).2 = false) :
    (∀ out : Outcome,
      automember_populate_member_attr host heap op rs am force_addition = some out →
      out.trace = [Event.point_read orig.e_nname am.oc_member am.attr_memberuid]) ∧
    (host_wf host heap → am.synth_tmpl ≠ TOKEN → attrs_have_values heap →
      ∃ out, automember_populate_member_attr host heap op rs am force_addition = some out) ∧
    (automember_fetch_src_attr host heap am.oc_member orig.e_nname am.attr_memberuid =
        some none →
      automember_populate_member_attr host heap op rs am force_addition =
        some ⟨SLAP_CB_CONTINUE, rs, heap,
          [Event.point_read orig.e_nname am.oc_member am.attr_memberuid]⟩) ∧
    (∀ (sd : AttributeDescription) (a_vals : List BerValue),
      automember_fetch_src_attr host heap am.oc_member orig.e_nname am.attr_memberuid =
        some (some ⟨sd, some a_vals⟩) →
      (∀ v ∈ a_vals, v.bv_val ≠ none) → a_vals ≠ [] → am.synth_tmpl ≠ TOKEN →
      automember_populate_member_attr host heap op rs am force_addition =
        some (attach_outcome heap rs p orig am.attr_member
          (a_vals.map (expand_value am.synth_tmpl))
          [Event.point_read orig.e_nname am.oc_member am.attr_memberuid])) := by
  have hb : rs.sr_entry.bind (fun p => heap[p]?.map (fun e => (p, e))) = some (p, orig) := by
    simp [hp, ho]
  refine ⟨?_, ?_, ?_, ?_⟩
  · intro out h
    rw [populate_member_trace host heap op rs am force_addition p orig out hp ho htrig hdst h,
      hnsrc]
    rfl
  · intro hwf ht hvals
    exact populate_member_total host heap op rs am force_addition p orig hp ho hwf ht hvals
  · intro hf
    simp only [automember_populate_member_attr, htrig, if_true, hb, hdst, hnsrc,
      (source_attr_cases host heap am orig false).2 rfl, hf, Option.map_some']
  · intro sd a_vals hf hnn hne ht
    refine forward_values_attached host heap op rs am force_addition p orig sd a_vals _
      hp ho htrig hdst ?_ hnn hne ht
    rw [hnsrc, (source_attr_cases host heap am orig false).2 rfl, hf]
    rfl

/-- C15 (the code departs from it): for the in-flight group that lacks both
`member` and `memberUid`, with a request list that names `member` only,
forward synthesis issues the point-read of the group's identity restricted
to `memberUid`, and it leaves the reply as it is when the read fails.  When
the read returns `alice` and `bob`: with the template of the scenario of §8
their expansions are attached, but with the identity template, whose
transformations are `alice` and `bob`, what is attached is the content that
the allocator left in the value array. -/
theorem point_read_fallback_identity_template :
    member_requested ex_am ex_op_member.ors_attrs = (true, false) ∧
    automember_populate_member_attr ex_host [ex_group_bare] ex_op_member ex_rs ex_am false =
      some ⟨SLAP_CB_CONTINUE, ex_rs, [ex_group_bare], [ex_point_read]⟩ ∧
    automember_populate_member_attr ex_host_store [ex_group_bare, ex_group] ex_op_member ex_rs
      ex_am false =
      some ⟨SLAP_CB_CONTINUE, ex_rs_replaced 2,
        [ex_group_bare, ex_group,
         ex_group_bare_with [ex_bv "uid=alice,ou=People,dc=example,dc=com",
                             ex_bv "uid=bob,ou=People,dc=example,dc=com"]],
        [ex_point_read]⟩ ∧
    automember_populate_member_attr ex_host_store [ex_group_bare, ex_group] ex_op_member ex_rs
      ex_am_identity false =
      some ⟨SLAP_CB_CONTINUE, ex_rs_replaced 2,
        [ex_group_bare, ex_group, ex_group_bare_with [ex_bv "junk", ex_bv "junk"]],
        [ex_point_read]⟩ ∧
    (automember_xform_uid_to_dn "J".toList ex_am_identity.synth_tmpl (ex_bv "alice")
      (some none)).ret = some (ex_bv "alice") ∧
    (automember_xform_uid_to_dn "J".toList ex_am_identity.synth_tmpl (ex_bv "bob")
      (some none)).ret = some (ex_bv "bob") := by
  refine ⟨by decide, by decide, by decide, by decide, by decide, by decide⟩

/-- Counterexample to C16: the record carries the source attribute
`memberUid` with the values `alice` and `bob`, the request list names
`member` only; a point-read is issued all the same, and since it fails
nothing is derived from the values on the record. -/
theorem point_read_despite_source_on_record :
    attr_find ex_group.e_attrs ex_am.attr_memberuid =
      some ⟨ex_attr_memberuid, some [ex_bv "alice", ex_bv "bob"]⟩ ∧
    automember_populate_member_attr ex_host [ex_group] ex_op_member ex_rs ex_am false =
      some ⟨SLAP_CB_CONTINUE, ex_rs, [ex_group], [ex_point_read]⟩ ∧
    point_reads [ex_point_read] = true ∧
    carries [ex_group] ex_rs ex_am.attr_member = false := by
  refine ⟨by decide, by decide, by decide, by decide⟩

/-- C16 as amended: forward synthesis, once triggered on a record without
`member`, issues the point-read exactly when the source attribute was not
requested, whether or not the record carries it.  When the source attribute
was requested, the source is the attribute on the record and no point-read
is issued; when it was not, the source is what the point-read of the
record's identity returns.  With a template other than the identity
placeholder, the expansions of the values of that source are attached. -/
theorem point_read_iff_source_not_requested (host : Host) (heap : List Entry)
    (op : Operation) (rs : SlapReply) (am : automember_t) (force_addition : Bool) (p : Nat)
    (orig : Entry)
    (hp : rs.sr_entry = some p) (ho : heap[p]? = some orig)
    (htrig : (force_addition || (member_requested am op.ors_attrs).1) = true)
    (hdst : attr_find orig.e_attrs am.attr_member = none) :
    (∀ out : Outcome,
      automember_populate_member_attr host heap op rs am force_addition = some out →
      (point_reads out.trace = true ↔ (member_requested am op.ors_attrs).2 = false) ∧
      out.trace = if (member_requested am op.ors_attrs).2 then []
        else [Event.point_read orig.e_nname am.oc_member am.attr_memberuid]) ∧
    ((member_requested am op.ors_attrs).2 = true →
      source_attr host heap am orig (member_requested am op.ors_attrs).2 =
        some (attr_find orig.e_attrs am.attr_memberuid, [])) ∧
    ((member_requested am op.ors_attrs).2 = false →
      source_attr host heap am orig (member_requested am op.ors_attrs).2 =
        (automember_fetch_src_attr host heap am.oc_member orig.e_nname am.attr_memberuid).map
          (fun a => (a, [Event.point_read orig.e_nname am.oc_member am.attr_memberuid]))) ∧
    (∀ (sd : AttributeDescription) (a_vals : List BerValue) (trace : List Event),
      source_attr host heap am orig (member_requested am op.ors_attrs).2 =
        some (some ⟨sd, some a_vals⟩, trace) →
      (∀ v ∈ a_vals, v.bv_val ≠ none) → a_vals ≠ [] → am.synth_tmpl ≠ TOKEN →
      automember_populate_member_attr host heap op rs am force_addition =
        some (attach_outcome heap rs p orig am.attr_member
          (a_vals.map (expand_value am.synth_tmpl)) trace)) := by
  refine ⟨?_, ?_, ?_, ?_⟩
  · intro out h
    have ht := populate_member_trace host heap op rs am force_addition p orig out hp ho
      htrig hdst h
    refine ⟨?_, ht⟩
    rw [ht]
    cases (member_requested am op.ors_attrs).2 <;> simp [point_reads]
  · intro hreq
    rw [hreq]
    exact (source_attr_cases host heap am orig true).1 rfl
  · intro hreq
    rw [hreq]
    exact (source_attr_cases host heap am orig false).2 rfl
  · intro sd a_vals trace hsrc hnn hne ht
    exact forward_values_attached host heap op rs am force_addition p orig sd a_vals trace
      hp ho htrig hdst hsrc hnn hne ht

/-- Witness for C16 as amended: the source attribute is requested, so the
values on the record are expanded and no point-read is issued. -/
theorem point_read_iff_source_not_requested_witness :
    ex_rs.sr_entry = some 0 ∧ [ex_group][0]? = some ex_group ∧
    (false || (member_requested ex_am ex_op.ors_attrs).1) = true ∧
    attr_find ex_group.e_attrs ex_am.attr_member = none ∧
    source_attr ex_host [ex_group] ex_am ex_group (member_requested ex_am ex_op.ors_attrs).2 =
      some (some ⟨ex_attr_memberuid, some [ex_bv "alice", ex_bv "bob"]⟩, []) ∧
    automember_populate_member_attr ex_host [ex_group] ex_op ex_rs ex_am false =
      some (attach_outcome [ex_group] ex_rs 0 ex_group ex_am.attr_member
        ([ex_bv "alice", ex_bv "bob"].map (expand_value ex_am.synth_tmpl)) []) :=
  ⟨rfl, rfl, by decide, by decide, by decide,
   (point_read_iff_source_not_requested ex_host [ex_group] ex_op ex_rs ex_am false 0 ex_group
      rfl rfl (by decide) (by decide)).2.2.2 ex_attr_memberuid [ex_bv "alice", ex_bv "bob"] []
      (by decide) (by decide) (by decide) (by decide)⟩

/-! ## Invocation modes -/

theorem populate_member_not_requested (host : Host) (heap : List Entry) (op : Operation)
    (rs : SlapReply) (am : automember_t)
    (h : (member_requested am op.ors_attrs).1 = false) :
    automember_populate_member_attr host heap op rs am false =
      some ⟨SLAP_CB_CONTINUE, rs, heap, []⟩ := by
  simp [automember_populate_member_attr, h]

theorem populate_memberof_not_requested (host : Host) (heap : List Entry) (op : Operation)
    (rs : SlapReply) (am : automember_t)
    (h : memberof_requested am op.ors_attrs = false) :
    automember_populate_memberof_attr host heap op rs am false =
      some ⟨SLAP_CB_CONTINUE, rs, heap, []⟩ := by
  simp [automember_populate_memberof_attr, h]

theorem response_routes (host : Host) (heap : List Entry) (op : Operation) (rs : SlapReply)
    (am : automember_t) (p : Nat) (e : Entry) (ocm : ObjectClass)
    (hp : rs.sr_entry = some p) (he : heap[p]? = some e)
    (hty : rs.sr_type = slap_reply_t.REP_SEARCH) (hoc : am.oc_member = some ocm) :
    (host.is_entry_objectclass_or_sub e ocm = true →
      automember_response host heap op rs am =
        automember_populate_member_attr host heap op rs am false) ∧
    (∀ ocmo : ObjectClass, host.is_entry_objectclass_or_sub e ocm = false →
      am.oc_memberof = some ocmo → host.is_entry_objectclass_or_sub e ocmo = true →
      automember_response host heap op rs am =
        automember_populate_memberof_attr host heap op rs am false) ∧
    (host.is_entry_objectclass_or_sub e ocm = false →
      (∀ ocmo : ObjectClass, am.oc_memberof = some ocmo →
        host.is_entry_objectclass_or_sub e ocmo = false) →
      automember_response host heap op rs am = some ⟨SLAP_CB_CONTINUE, rs, heap, []⟩) := by
  refine ⟨?_, ?_, ?_⟩
  · intro h1
    simp [automember_response, hoc, hty, hp, he, h1]
  · intro ocmo h1 h2 h3
    simp [automember_response, hoc, hty, hp, he, h1, h2, h3]
  · intro h1 h2
    cases hmo : am.oc_memberof with
    | none => simp [automember_response, hoc, hty, hp, he, h1, hmo]
    | some ocmo => simp [automember_response, hoc, hty, hp, he, h1, hmo, h2 ocmo hmo]

theorem search_cb_routes (host : Host) (heap : List Entry) (op : Operation) (rs : SlapReply)
    (am : automember_t) (p : Nat) (e : Entry) (ocm : ObjectClass)
    (hp : rs.sr_entry = some p) (he : heap[p]? = some e) (hoc : am.oc_member = some ocm) :
    (host.is_entry_objectclass_or_sub e ocm = true →
      automember_search_cb host heap op rs am =
        automember_populate_member_attr host heap op rs am true) ∧
    (∀ ocmo : ObjectClass, host.is_entry_objectclass_or_sub e ocm = false →
      am.oc_memberof = some ocmo → host.is_entry_objectclass_or_sub e ocmo = true →
      automember_search_cb host heap op rs am =
        automember_populate_memberof_attr host heap op rs am true) ∧
    (host.is_entry_objectclass_or_sub e ocm = false →
      (∀ ocmo : ObjectClass, am.oc_memberof = some ocmo →
        host.is_entry_objectclass_or_sub e ocmo = false) →
      automember_search_cb host heap op rs am = some ⟨SLAP_CB_CONTINUE, rs, heap, []⟩) := by
  refine ⟨?_, ?_, ?_⟩
  · intro h1
    simp [automember_search_cb, hoc, hp, he, h1]
  · intro ocmo h1 h2 h3
    simp [automember_search_cb, hoc, hp, he, h1, h2, h3]
  · intro h1 h2
    cases hmo : am.oc_memberof with
    | none => simp [automember_search_cb, hoc, hp, he, h1, hmo]
    | some ocmo => simp [automember_search_cb, hoc, hp, he, h1, hmo, h2 ocmo hmo]

/-- C17: in post-query mode, when the classifier reports the derived
attribute as not requested, nothing is done: `automember_response` leaves
the reply as it is (same entry, same heap, same flags) and issues neither a
point-read nor an internal search, for a record of the forward gate whose
`member` is not requested and for a record of the reverse gate whose
`memberOf` is not requested; the two synthesis routines called with
`force_addition = 0` do the same for every reply. -/
theorem post_query_not_requested (host : Host) (heap : List Entry) (op : Operation)
    (rs : SlapReply) (am : automember_t) (p : Nat) (e : Entry)
    (hp : rs.sr_entry = some p) (he : heap[p]? = some e) :
    (∀ ocm : ObjectClass, am.oc_member = some ocm →
      host.is_entry_objectclass_or_sub e ocm = true →
      (member_requested am op.ors_attrs).1 = false →
      automember_response host heap op rs am = some ⟨SLAP_CB_CONTINUE, rs, heap, []⟩) ∧
    (∀ ocm ocmo : ObjectClass, am.oc_member = some ocm →
      host.is_entry_objectclass_or_sub e ocm = false →
      am.oc_memberof = some ocmo → host.is_entry_objectclass_or_sub e ocmo = true →
      memberof_requested am op.ors_attrs = false →
      automember_response host heap op rs am = some ⟨SLAP_CB_CONTINUE, rs, heap, []⟩) ∧
    ((member_requested am op.ors_attrs).1 = false →
      automember_populate_member_attr host heap op rs am false =
        some ⟨SLAP_CB_CONTINUE, rs, heap, []⟩) ∧
    (memberof_requested am op.ors_attrs = false →
      automember_populate_memberof_attr host heap op rs am false =
        some ⟨SLAP_CB_CONTINUE, rs, heap, []⟩) := by
  refine ⟨?_, ?_, populate_member_not_requested host heap op rs am,
    populate_memberof_not_requested host heap op rs am⟩
  · intro ocm hoc h1 hreq
    by_cases hty : rs.sr_type = slap_reply_t.REP_SEARCH
    · rw [(response_routes host heap op rs am p e ocm hp he hty hoc).1 h1]
      exact populate_member_not_requested host heap op rs am hreq
    · simp [automember_response, hoc, hty]
  · intro ocm ocmo hoc h1 hmo h2 hreq
    by_cases hty : rs.sr_type = slap_reply_t.REP_SEARCH
    · rw [(response_routes host heap op rs am p e ocm hp he hty hoc).2.1 ocmo h1 hmo h2]
      exact populate_memberof_not_requested host heap op rs am hreq
    · simp [automember_response, hoc, hty]

/-- Witness for C17: a group and a user, with a request list that names
`cn` only. -/
theorem post_query_not_requested_witness :
    ex_rs.sr_entry = some 0 ∧ [ex_group][0]? = some ex_group ∧
    [ex_user, ex_admins, ex_staff][0]? = some ex_user ∧
    (member_requested ex_am ex_op_cn.ors_attrs).1 = false ∧
    memberof_requested ex_am ex_op_cn.ors_attrs = false ∧
    automember_response ex_host_gates [ex_group] ex_op_cn ex_rs ex_am =
      some ⟨SLAP_CB_CONTINUE, ex_rs, [ex_group], []⟩ ∧
    automember_response ex_host_gates [ex_user, ex_admins, ex_staff] ex_op_cn ex_rs ex_am =
      some ⟨SLAP_CB_CONTINUE, ex_rs, [ex_user, ex_admins, ex_staff], []⟩ :=
  ⟨rfl, rfl, rfl, by decide, by decide,
   (post_query_not_requested ex_host_gates [ex_group] ex_op_cn ex_rs ex_am 0 ex_group
      rfl rfl).1 ⟨"posixGroup".toList⟩ rfl (by decide) (by decide),
   (post_query_not_requested ex_host_gates [ex_user, ex_admins, ex_staff] ex_op_cn ex_rs ex_am 0
      ex_user rfl rfl).2.1 ⟨"posixGroup".toList⟩ ⟨"posixAccount".toList⟩ rfl (by decide) rfl
      (by decide) (by decide)⟩

theorem populate_member_forced_congr (host : Host) (heap : List Entry) (op : Operation)
    (rs : SlapReply) (am : automember_t) (l1 l2 : Option (List AttributeName))
    (h : (member_requested am l1).2 = (member_requested am l2).2) :
    automember_populate_member_attr host heap { op with ors_attrs := l1 } rs am true =
      automember_populate_member_attr host heap { op with ors_attrs := l2 } rs am true := by
  simp only [automember_populate_member_attr, Bool.true_or, h]

theorem populate_memberof_forced_congr (host : Host) (heap : List Entry) (op : Operation)
    (rs : SlapReply) (am : automember_t) (l1 l2 : Option (List AttributeName)) :
    automember_populate_memberof_attr host heap { op with ors_attrs := l1 } rs am true =
      automember_populate_memberof_attr host heap { op with ors_attrs := l2 } rs am true := by
  have hc : ∀ (oc : ObjectClass) (uid0 : BerValue),
      automember_collect_memberof_dn host heap { op with ors_attrs := l1 } oc uid0 =
        automember_collect_memberof_dn host heap { op with ors_attrs := l2 } oc uid0 := by
    intro oc uid0
    rfl
  simp only [automember_populate_memberof_attr, Bool.true_or, hc]

/-- Counterexample to C18: on the same group entry, with the same
configuration and the same host, the forced run without request list
attaches `member`, and the forced run whose request list names `member`
only attaches nothing, because the source attribute then counts as not
requested and the point-read made for it fails. -/
theorem pre_query_depends_on_request :
    ex_op_member = { ex_op with ors_attrs := some [⟨"member".toList, some ex_attr_member⟩] } ∧
    automember_search_cb ex_host [ex_group] ex_op ex_rs ex_am =
      some ⟨SLAP_CB_CONTINUE, ex_rs_replaced 1, [ex_group, ex_group_synth], []⟩ ∧
    automember_search_cb ex_host [ex_group] ex_op_member ex_rs ex_am =
      some ⟨SLAP_CB_CONTINUE, ex_rs, [ex_group], [ex_point_read]⟩ ∧
    carries [ex_group, ex_group_synth] (ex_rs_replaced 1) ex_am.attr_member = true ∧
    carries [ex_group] ex_rs ex_am.attr_member = false := by
  refine ⟨rfl, by decide, by decide, by decide, by decide⟩

/-- C18 as amended: in pre-query mode the request specification matters
only through whether the source attribute counts as requested.  For a fixed
record, configuration and host, two runs that differ only in the request
list and agree on that produce the same outcome, whether or not the derived
attribute is requested; forced reverse synthesis does not depend on the
request list at all. -/
theorem pre_query_request_independence (host : Host) (heap : List Entry) (op : Operation)
    (rs : SlapReply) (am : automember_t) (l1 l2 : Option (List AttributeName))
    (h : (member_requested am l1).2 = (member_requested am l2).2) :
    automember_search_cb host heap { op with ors_attrs := l1 } rs am =
      automember_search_cb host heap { op with ors_attrs := l2 } rs am ∧
    (∀ l3 l4 : Option (List AttributeName),
      automember_populate_memberof_attr host heap { op with ors_attrs := l3 } rs am true =
        automember_populate_memberof_attr host heap { op with ors_attrs := l4 } rs am true) := by
  refine ⟨?_, fun l3 l4 => populate_memberof_forced_congr host heap op rs am l3 l4⟩
  simp only [automember_search_cb, populate_member_forced_congr host heap op rs am l1 l2 h,
    populate_memberof_forced_congr host heap op rs am l1 l2]

/-- Witness for C18 as amended: no request list, and a request list with
the all-user-attributes wildcard; both request the source attribute. -/
theorem pre_query_request_independence_witness :
    (member_requested ex_am none).2 = (member_requested ex_am (some [⟨[Char.ofNat 42], none⟩])).2 ∧
    automember_search_cb ex_host [ex_group] { ex_op with ors_attrs := none } ex_rs ex_am =
      automember_search_cb ex_host [ex_group]
        { ex_op with ors_attrs := some [⟨[Char.ofNat 42], none⟩] } ex_rs ex_am :=
  ⟨by decide,
   (pre_query_request_independence ex_host [ex_group] ex_op ex_rs ex_am none
      (some [⟨[Char.ofNat 42], none⟩]) (by decide)).1⟩

/-! ## Status returned -/

theorem collect_memberof_dn_total (host : Host) (heap : List Entry) (op : Operation)
    (oc : ObjectClass) (uid0 : BerValue) (hwf : host_wf host heap) :
    ∃ c, automember_collect_memberof_dn host heap op oc uid0 = some c := by
  by_cases hov : to_ber_len_t (snprintf_ret (filter_bv_len oc uid0)) > filter_bv_len oc uid0
  · exact ⟨_, collect_overflow host heap op oc uid0 hov⟩
  · rw [collect_no_overflow host heap op oc uid0 hov]
    cases hf : host.str2filter_x (filter_buffer oc uid0) with
    | none => exact ⟨_, rfl⟩
    | some f =>
      obtain ⟨l, hl⟩ := deliver_replies_some heap
        (host.be_search (internal_search_op op f
          ⟨filter_bv_len oc uid0, some (filter_buffer oc uid0)⟩)).1 none (hwf.2 _)
      simp only [hl]
      split <;> exact ⟨_, rfl⟩

theorem populate_memberof_total (host : Host) (heap : List Entry) (op : Operation)
    (rs : SlapReply) (am : automember_t) (force_addition : Bool) (p : Nat) (orig : Entry)
    (oc : ObjectClass)
    (hp : rs.sr_entry = some p) (ho : heap[p]? = some orig) (hwf : host_wf host heap)
    (hoc : am.oc_member = some oc) :
    ∃ out, automember_populate_memberof_attr host heap op rs am force_addition = some out := by
  have hb : rs.sr_entry.bind (fun p => heap[p]?.map (fun e => (p, e))) = some (p, orig) := by
    simp [hp, ho]
  unfold automember_populate_memberof_attr
  simp only [hb, hoc]
  split
  · cases attr_find orig.e_attrs am.attr_memberof with
    | some _ => exact ⟨_, rfl⟩
    | none =>
      simp only []
      cases attr_find orig.e_attrs am.attr_uid with
      | none => exact ⟨_, rfl⟩
      | some uid =>
        simp only []
        cases uid.a_vals with
        | none => exact ⟨_, rfl⟩
        | some a_vals =>
          simp only []
          cases bvarray_vals a_vals with
          | nil => exact ⟨_, rfl⟩
          | cons uid0 more =>
            simp only []
            split
            · exact ⟨_, rfl⟩
            · obtain ⟨c, hc⟩ := collect_memberof_dn_total host heap op oc uid0 hwf
              rw [hc]
              simp only []
              cases c.out_dn_list with
              | none => exact ⟨_, rfl⟩
              | some dn_list =>
                simp only []
                split
                · rw [merge_into_reply_spec heap rs p am.attr_memberof _ orig ho]
                  exact ⟨_, rfl⟩
                · exact ⟨_, rfl⟩
  · exact ⟨_, rfl⟩

theorem populate_member_no_search (host : Host) (heap : List Entry) (op : Operation)
    (rs : SlapReply) (am : automember_t) (force_addition : Bool) (p : Nat) (orig : Entry)
    (out : Outcome)
    (hp : rs.sr_entry = some p) (ho : heap[p]? = some orig)
    (h : automember_populate_member_attr host heap op rs am force_addition = some out) :
    searches out.trace = false := by
  have hb : rs.sr_entry.bind (fun p => heap[p]?.map (fun e => (p, e))) = some (p, orig) := by
    simp [hp, ho]
  by_cases htrig : (force_addition || (member_requested am op.ors_attrs).1) = true
  · cases hdst : attr_find orig.e_attrs am.attr_member with
    | none =>
      rw [populate_member_trace host heap op rs am force_addition p orig out hp ho htrig hdst h]
      split <;> rfl
    | some d =>
      simp only [automember_populate_member_attr, htrig, if_true, hb, hdst] at h
      cases h
      rfl
  · simp only [automember_populate_member_attr, htrig] at h
    cases h
    rfl

theorem collect_trace_parsed (host : Host) (heap : List Entry) (op : Operation)
    (oc : ObjectClass) (uid0 : BerValue) (c : CollectResult)
    (hf : host.str2filter_x (filter_buffer oc uid0) ≠ none)
    (hfit : filter_bv_len oc uid0 ≤ INT_MAX)
    (h : automember_collect_memberof_dn host heap op oc uid0 = some c) :
    searches c.trace = true := by
  rcases collect_trace host heap op oc uid0 c h with h0 | ⟨f, _, htr⟩
  · rw [collect_no_overflow host heap op oc uid0 (fits_no_overflow oc uid0 hfit)] at h
    cases hf2 : host.str2filter_x (filter_buffer oc uid0) with
    | none => exact absurd hf2 hf
    | some f =>
      simp only [hf2] at h
      split at h
      · cases h
      · split at h <;> (cases h; cases h0)
  · rw [htr]
    rfl

theorem populate_memberof_searches (host : Host) (heap : List Entry) (op : Operation)
    (rs : SlapReply) (am : automember_t) (force_addition : Bool) (p : Nat) (orig : Entry)
    (ud : AttributeDescription) (a_vals : List BerValue) (uid0 : BerValue) (oc : ObjectClass)
    (out : Outcome)
    (hp : rs.sr_entry = some p) (ho : heap[p]? = some orig)
    (hu : attr_find orig.e_attrs am.attr_uid = some ⟨ud, some a_vals⟩)
    (hv : bvarray_vals a_vals = [uid0])
    (hoc : am.oc_member = some oc)
    (hf : host.str2filter_x (filter_buffer oc uid0) ≠ none)
    (hfit : filter_bv_len oc uid0 ≤ INT_MAX)
    (h : automember_populate_memberof_attr host heap op rs am force_addition = some out) :
    searches out.trace = true ↔
      (attr_find orig.e_attrs am.attr_memberof = none ∧
        (force_addition || memberof_requested am op.ors_attrs) = true) := by
  have hb : rs.sr_entry.bind (fun p => heap[p]?.map (fun e => (p, e))) = some (p, orig) := by
    simp [hp, ho]
  by_cases hreq : (force_addition || memberof_requested am op.ors_attrs) = true
  · cases hmo : attr_find orig.e_attrs am.attr_memberof with
    | some m =>
      simp only [automember_populate_memberof_attr, hreq, if_true, hb, hmo] at h
      cases h
      simp [searches]
    | none =>
      simp only [automember_populate_memberof_attr, hreq, if_true, hb, hmo, hu, hv,
        List.length_singleton, gt_iff_lt, Nat.lt_irrefl, if_false, hoc] at h
      cases hc : automember_collect_memberof_dn host heap op oc uid0 with
      | none => simp [hc] at h
      | some c =>
        have hs := collect_trace_parsed host heap op oc uid0 c hf hfit hc
        simp only [hc] at h
        have key : out.trace = c.trace := by
          split at h
          · split at h
            · split at h
              · exact absurd h (by simp)
              · cases h; rfl
            · cases h; rfl
          · cases h; rfl
        rw [key, hs]
        exact ⟨fun _ => ⟨rfl, hreq⟩, fun _ => rfl⟩
  · simp only [automember_populate_memberof_attr, hreq] at h
    cases h
    simp [searches, hreq]

theorem gate_dispatch_searches (host : Host) (heap : List Entry) (op : Operation)
    (rs : SlapReply) (am : automember_t) (force_addition : Bool) (p : Nat) (e : Entry)
    (ud : AttributeDescription) (a_vals : List BerValue) (uid0 : BerValue) (ocm : ObjectClass)
    (r : Option Outcome)
    (hp : rs.sr_entry = some p) (he : heap[p]? = some e)
    (hu : attr_find e.e_attrs am.attr_uid = some ⟨ud, some a_vals⟩)
    (hv : bvarray_vals a_vals = [uid0])
    (hoc : am.oc_member = some ocm)
    (hf : host.str2filter_x (filter_buffer ocm uid0) ≠ none)
    (hfit : filter_bv_len ocm uid0 ≤ INT_MAX)
    (hwf : host_wf host heap)
    (hfwd : host.is_entry_objectclass_or_sub e ocm = true →
      ∃ out, automember_populate_member_attr host heap op rs am force_addition = some out)
    (hr1 : host.is_entry_objectclass_or_sub e ocm = true →
      r = automember_populate_member_attr host heap op rs am force_addition)
    (hr2 : ∀ ocmo : ObjectClass, host.is_entry_objectclass_or_sub e ocm = false →
      am.oc_memberof = some ocmo → host.is_entry_objectclass_or_sub e ocmo = true →
      r = automember_populate_memberof_attr host heap op rs am force_addition)
    (hr3 : host.is_entry_objectclass_or_sub e ocm = false →
      (∀ ocmo : ObjectClass, am.oc_memberof = some ocmo →
        host.is_entry_objectclass_or_sub e ocmo = false) →
      r = some ⟨SLAP_CB_CONTINUE, rs, heap, []⟩) :
    ∃ out : Outcome, r = some out ∧
      (searches out.trace = true ↔
        (host.is_entry_objectclass_or_sub e ocm = false ∧
         (∃ ocmo : ObjectClass, am.oc_memberof = some ocmo ∧
            host.is_entry_objectclass_or_sub e ocmo = true) ∧
         attr_find e.e_attrs am.attr_memberof = none ∧
         (force_addition || memberof_requested am op.ors_attrs) = true)) := by
  cases h1 : host.is_entry_objectclass_or_sub e ocm with
  | true =>
    obtain ⟨out, hout⟩ := hfwd h1
    refine ⟨out, (hr1 h1).trans hout, ?_⟩
    rw [populate_member_no_search host heap op rs am force_addition p e out hp he hout]
    simp
  | false =>
    cases hmemof : am.oc_memberof with
    | none =>
      refine ⟨_, hr3 h1 (fun o h => by rw [hmemof] at h; cases h), ?_⟩
      simp [searches]
    | some ocmo =>
      cases h2 : host.is_entry_objectclass_or_sub e ocmo with
      | true =>
        obtain ⟨out, hout⟩ :=
          populate_memberof_total host heap op rs am force_addition p e ocm hp he hwf hoc
        refine ⟨out, (hr2 ocmo h1 hmemof h2).trans hout, ?_⟩
        rw [populate_memberof_searches host heap op rs am force_addition p e ud a_vals uid0 ocm
          out hp he hu hv hoc hf hfit hout]
        constructor
        · intro h
          exact ⟨rfl, ⟨ocmo, rfl, h2⟩, h.1, h.2⟩
        · intro h
          exact ⟨h.2.2.1, h.2.2.2⟩
      | false =>
        refine ⟨_, hr3 h1 (fun o h => by rw [hmemof] at h; cases h; exact h2), ?_⟩
        constructor
        · intro h
          simp [searches] at h
        · rintro ⟨_, ⟨o, ho, ho2⟩, _, _⟩
          cases ho
          rw [h2] at ho2
          cases ho2

/-- C20, counterexample: with the reverse gate `posixAccount` configured
and no forward gate, the user entry matches the reverse gate, carries no
`memberOf`, and `memberOf` is requested; yet `automember_response` and
`automember_search_cb` leave the reply as it is and issue no search.  The
same request under the configuration that also names a forward gate gets
`memberOf` attached.  And a record that matches both gates is given to
forward synthesis only. -/
theorem reverse_gate_alone_is_inert :
    ex_am_reverse_only.oc_member = none ∧
    ex_am_reverse_only.oc_memberof = some ⟨"posixAccount".toList⟩ ∧
    ex_host_gates.is_entry_objectclass_or_sub ex_user ⟨"posixAccount".toList⟩ = true ∧
    attr_find ex_user.e_attrs ex_am_reverse_only.attr_memberof = none ∧
    memberof_requested ex_am_reverse_only ex_op_memberof.ors_attrs = true ∧
    automember_response ex_host_gates [ex_user, ex_admins, ex_staff] ex_op_memberof ex_rs
      ex_am_reverse_only = some ⟨SLAP_CB_CONTINUE, ex_rs, [ex_user, ex_admins, ex_staff], []⟩ ∧
    automember_search_cb ex_host_gates [ex_user, ex_admins, ex_staff] ex_op_memberof ex_rs
      ex_am_reverse_only = some ⟨SLAP_CB_CONTINUE, ex_rs, [ex_user, ex_admins, ex_staff], []⟩ ∧
    automember_response ex_host_gates [ex_user, ex_admins, ex_staff] ex_op_memberof ex_rs
      ex_am = some ⟨SLAP_CB_CONTINUE, ex_rs_replaced 3,
        [ex_user, ex_admins, ex_staff, ex_user_synth], [Event.search ex_op2]⟩ ∧
    ex_host.is_entry_objectclass_or_sub ex_user ⟨"posixGroup".toList⟩ = true ∧
    ex_host.is_entry_objectclass_or_sub ex_user ⟨"posixAccount".toList⟩ = true ∧
    automember_response ex_host [ex_user, ex_admins, ex_staff] ex_op_memberof ex_rs
      ex_am = some ⟨SLAP_CB_CONTINUE, ex_rs, [ex_user, ex_admins, ex_staff], []⟩ := by
  refine ⟨rfl, rfl, ?_, ?_, ?_, ?_, ?_, ?_, rfl, rfl, ?_⟩ <;> decide

/-- C20, amended: for a record with a single identifying value, on a host
that parses the filter, an internal search is issued (reverse synthesis is
attempted) by `automember_response` exactly when a forward gate is
configured and the record does not match it, the record matches the
configured reverse gate, `memberOf` is absent from it and requested; by
`automember_search_cb` under the same conditions without the request.  With
no forward gate configured both leave the reply as it is.  The filter
string is one whose length fits a C `int`, so that the run reaches the
parser, and forward synthesis, where the record is given to it, is one that
returns. -/
theorem reverse_synthesis_gating (host : Host) (heap : List Entry) (op : Operation)
    (rs : SlapReply) (am : automember_t) (p : Nat) (e : Entry)
    (ud : AttributeDescription) (a_vals : List BerValue) (uid0 : BerValue)
    (hp : rs.sr_entry = some p) (he : heap[p]? = some e)
    (hty : rs.sr_type = slap_reply_t.REP_SEARCH)
    (hu : attr_find e.e_attrs am.attr_uid = some ⟨ud, some a_vals⟩)
    (hv : bvarray_vals a_vals = [uid0])
    (hf : ∀ oc : ObjectClass, am.oc_member = some oc →
      host.str2filter_x (filter_buffer oc uid0) ≠ none)
    (hwf : host_wf host heap)
    (hfit : ∀ oc : ObjectClass, am.oc_member = some oc → filter_bv_len oc uid0 ≤ INT_MAX)
    (hfwd : ∀ oc : ObjectClass, am.oc_member = some oc →
      host.is_entry_objectclass_or_sub e oc = true → ∀ force : Bool,
      ∃ out, automember_populate_member_attr host heap op rs am force = some out) :
    (∃ out : Outcome, automember_response host heap op rs am = some out ∧
      (searches out.trace = true ↔
        ((∃ ocm : ObjectClass, am.oc_member = some ocm ∧
            host.is_entry_objectclass_or_sub e ocm = false) ∧
         (∃ ocmo : ObjectClass, am.oc_memberof = some ocmo ∧
            host.is_entry_objectclass_or_sub e ocmo = true) ∧
         attr_find e.e_attrs am.attr_memberof = none ∧
         memberof_requested am op.ors_attrs = true))) ∧
    (∃ out : Outcome, automember_search_cb host heap op rs am = some out ∧
      (searches out.trace = true ↔
        ((∃ ocm : ObjectClass, am.oc_member = some ocm ∧
            host.is_entry_objectclass_or_sub e ocm = false) ∧
         (∃ ocmo : ObjectClass, am.oc_memberof = some ocmo ∧
            host.is_entry_objectclass_or_sub e ocmo = true) ∧
         attr_find e.e_attrs am.attr_memberof = none))) ∧
    (am.oc_member = none →
      automember_response host heap op rs am = some ⟨SLAP_CB_CONTINUE, rs, heap, []⟩ ∧
      automember_search_cb host heap op rs am = some ⟨SLAP_CB_CONTINUE, rs, heap, []⟩) := by
  have hnone : am.oc_member = none →
      automember_response host heap op rs am = some ⟨SLAP_CB_CONTINUE, rs, heap, []⟩ ∧
      automember_search_cb host heap op rs am = some ⟨SLAP_CB_CONTINUE, rs, heap, []⟩ := by
    intro hoc
    exact ⟨by simp [automember_response, hoc], by simp [automember_search_cb, hoc]⟩
  refine ⟨?_, ?_, hnone⟩
  · cases hoc : am.oc_member with
    | none =>
      refine ⟨_, (hnone hoc).1, ?_⟩
      simp [searches]
    | some ocm =>
      have hr := response_routes host heap op rs am p e ocm hp he hty hoc
      obtain ⟨out, hout, hiff⟩ := gate_dispatch_searches host heap op rs am false p e ud a_vals
        uid0 ocm _ hp he hu hv hoc (hf ocm hoc) (hfit ocm hoc) hwf
        (fun h => hfwd ocm hoc h false) hr.1 hr.2.1 hr.2.2
      refine ⟨out, hout, hiff.trans ?_⟩
      simp
  · cases hoc : am.oc_member with
    | none =>
      refine ⟨_, (hnone hoc).2, ?_⟩
      simp [searches]
    | some ocm =>
      have hr := search_cb_routes host heap op rs am p e ocm hp he hoc
      obtain ⟨out, hout, hiff⟩ := gate_dispatch_searches host heap op rs am true p e ud a_vals
        uid0 ocm _ hp he hu hv hoc (hf ocm hoc) (hfit ocm hoc) hwf
        (fun h => hfwd ocm hoc h true) hr.1 hr.2.1 hr.2.2
      refine ⟨out, hout, hiff.trans ?_⟩
      simp

theorem ex_host_gates_wf : host_wf ex_host_gates [ex_user, ex_admins, ex_staff] := by
  constructor
  · intro ndn oc ad p h
    simp [ex_host_gates, ex_host] at h
  · intro op2 r hr q hq
    simp only [ex_host_gates, ex_host, List.mem_cons, List.mem_singleton,
      List.not_mem_nil, or_false] at hr
    rcases hr with h | h | h <;> subst h <;> cases hq <;> decide

/-- Witness for C20, amended: the user entry `alice` under the
configuration with both gates, on a host that takes it for a
`posixAccount` and not for a `posixGroup`. -/
theorem reverse_synthesis_gating_witness :
    ex_rs.sr_entry = some 0 ∧ [ex_user, ex_admins, ex_staff][0]? = some ex_user ∧
    ex_rs.sr_type = slap_reply_t.REP_SEARCH ∧
    bvarray_vals [ex_bv "alice"] = [ex_bv "alice"] ∧
    filter_bv_len ⟨"posixGroup".toList⟩ (ex_bv "alice") ≤ INT_MAX ∧
    ex_host_gates.is_entry_objectclass_or_sub ex_user ⟨"posixGroup".toList⟩ = false ∧
    (∃ out : Outcome,
      automember_response ex_host_gates [ex_user, ex_admins, ex_staff] ex_op_memberof ex_rs
        ex_am = some out ∧
      (searches out.trace = true ↔
        ((∃ ocm : ObjectClass, ex_am.oc_member = some ocm ∧
            ex_host_gates.is_entry_objectclass_or_sub ex_user ocm = false) ∧
         (∃ ocmo : ObjectClass, ex_am.oc_memberof = some ocmo ∧
            ex_host_gates.is_entry_objectclass_or_sub ex_user ocmo = true) ∧
         attr_find ex_user.e_attrs ex_am.attr_memberof = none ∧
         memberof_requested ex_am ex_op_memberof.ors_attrs = true))) :=
  ⟨rfl, rfl, rfl, by decide, by decide, by decide,
   (reverse_synthesis_gating ex_host_gates [ex_user, ex_admins, ex_staff] ex_op_memberof ex_rs
      ex_am 0 ex_user ex_attr_uid [ex_bv "alice"] (ex_bv "alice") rfl rfl rfl (by decide)
      (by decide) (fun _ _ => by simp [ex_host_gates, ex_host]) ex_host_gates_wf
      (fun oc h => by
        have hoc := Option.some.inj h
        subst hoc
        decide)
      (fun oc h hsub => by
        have hoc := Option.some.inj h
        subst hoc
        exact absurd hsub (by decide))).1⟩

/-! ## Configuration -/

theorem config_wrong_arity (ch : ConfigHost) (c : ConfigArgs) (am : automember_t)
    (hop : c.op = ConfigOp.other)
    (hty : c.type = CFG_AUTOMEMBER_MEMBER_OBJECTCLASS ∨
      c.type = CFG_AUTOMEMBER_MEMBEROF_OBJECTCLASS)
    (hargc : c.argc ≠ 2) :
    ∃ r : ConfigResult, automember_config ch c am = some r ∧ r.rc = 1 ∧ r.am = am := by
  have hne : CFG_AUTOMEMBER_MEMBEROF_OBJECTCLASS ≠ CFG_AUTOMEMBER_MEMBER_OBJECTCLASS := by
    decide
  rcases hty with hty | hty
  · refine ⟨⟨1, am, cr_msg_snprintf ch
      "automember: automember_config:  expects 'automember-member-objectClass <oc-name>'".toList
      []⟩, ?_, rfl, rfl⟩
    simp [automember_config, hop, hty, hargc]
  · refine ⟨⟨1, am, cr_msg_snprintf ch
      "automember: automember_config:  expects 'automember-memberof-objectClass <oc-name>'".toList
      []⟩, ?_, rfl, rfl⟩
    simp [automember_config, hop, hty, hargc, hne]

theorem config_known_class (ch : ConfigHost) (c : ConfigArgs) (am : automember_t)
    (name : List Char) (oc : ObjectClass)
    (hop : c.op = ConfigOp.other) (hargc : c.argc = 2) (hname : c.argv[1]? = some name)
    (hfind : ch.oc_find name = some oc) :
    (c.type = CFG_AUTOMEMBER_MEMBER_OBJECTCLASS →
      automember_config ch c am = some ⟨0, { am with oc_member := some oc }, c.cr_msg⟩) ∧
    (c.type = CFG_AUTOMEMBER_MEMBEROF_OBJECTCLASS →
      automember_config ch c am = some ⟨0, { am with oc_memberof := some oc }, c.cr_msg⟩) := by
  have hne : CFG_AUTOMEMBER_MEMBEROF_OBJECTCLASS ≠ CFG_AUTOMEMBER_MEMBER_OBJECTCLASS := by
    decide
  constructor
  · intro hty
    simp [automember_config, hop, hty, hargc, hname, hfind]
  · intro hty
    simp [automember_config, hop, hty, hargc, hname, hfind, hne]

theorem config_unknown_class (ch : ConfigHost) (c : ConfigArgs) (am : automember_t)
    (name : List Char)
    (hop : c.op = ConfigOp.other) (hargc : c.argc = 2) (hname : c.argv[1]? = some name)
    (hfind : ch.oc_find name = none) :
    (c.type = CFG_AUTOMEMBER_MEMBER_OBJECTCLASS →
      ∃ r : ConfigResult, automember_config ch c am = some r ∧ r.rc = 1 ∧
        r.am = { am with oc_member := none }) ∧
    (c.type = CFG_AUTOMEMBER_MEMBEROF_OBJECTCLASS →
      ∃ r : ConfigResult, automember_config ch c am = some r ∧ r.rc = 1 ∧
        r.am = { am with oc_memberof := none }) := by
  have hne : CFG_AUTOMEMBER_MEMBEROF_OBJECTCLASS ≠ CFG_AUTOMEMBER_MEMBER_OBJECTCLASS := by
    decide
  constructor
  · intro hty
    refine ⟨⟨1, { am with oc_member := none }, cr_msg_snprintf ch
      "automember: automember_config:  'member' objectClass '%s' is undefined".toList
      [name]⟩, ?_, rfl, rfl⟩
    simp [automember_config, hop, hty, hargc, hname, hfind]
  · intro hty
    refine ⟨⟨1, { am with oc_memberof := none }, cr_msg_snprintf ch
      "automember: automember_config:  'memberof' objectClass '%s' is undefined".toList
      [name]⟩, ?_, rfl, rfl⟩
    simp [automember_config, hop, hty, hargc, hname, hfind, hne]

/-- C21 (the code departs from it): the instance has the forward gate
`posixGroup` and the reverse gate `posixAccount`.  The directive that names
the unknown class `noSuchClass` as forward gate returns the error status 1,
but the forward gate is no longer set afterwards; likewise for the reverse
gate.  A group that had `member` attached before the rejected directive gets
nothing attached after it.  The directive with a wrong number of arguments
returns 1 and leaves the configuration as it was, and the directive with the
known class `groupOfNames` returns 0 and replaces the forward gate only. -/
theorem config_unknown_class_clears_gate :
    ex_am.oc_member = some ⟨"posixGroup".toList⟩ ∧
    ex_am.oc_memberof = some ⟨"posixAccount".toList⟩ ∧
    ex_schema.oc_find "noSuchClass".toList = none ∧
    automember_config ex_schema (ex_member_directive "noSuchClass") ex_am =
      some ⟨1, { ex_am with oc_member := none },
        "automember: automember_config:  'member' objectClass 'noSuchClass' is undefined".toList⟩ ∧
    automember_config ex_schema (ex_memberof_directive "noSuchClass") ex_am =
      some ⟨1, { ex_am with oc_memberof := none },
        "automember: automember_config:  'memberof' objectClass 'noSuchClass' is undefined".toList⟩ ∧
    ({ ex_am with oc_member := none } : automember_t) ≠ ex_am ∧
    ({ ex_am with oc_memberof := none } : automember_t) ≠ ex_am ∧
    automember_response ex_host [ex_group] ex_op ex_rs ex_am =
      some ⟨SLAP_CB_CONTINUE, ex_rs_replaced 1, [ex_group, ex_group_synth], []⟩ ∧
    automember_response ex_host [ex_group] ex_op ex_rs { ex_am with oc_member := none } =
      some ⟨SLAP_CB_CONTINUE, ex_rs, [ex_group], []⟩ ∧
    (automember_config ex_schema ex_member_directive_arity ex_am).map
      (fun r => (r.rc, r.am)) = some (1, ex_am) ∧
    automember_config ex_schema (ex_member_directive "groupOfNames") ex_am =
      some ⟨0, { ex_am with oc_member := some ⟨"groupOfNames".toList⟩ }, []⟩ := by
  refine ⟨rfl, rfl, by decide, by decide, by decide, by decide, by decide, by decide,
    by decide, by decide, by decide⟩

/-! ## The filter string: length -/

theorem ex_host_wf : host_wf ex_host [ex_user, ex_admins, ex_staff] := by
  constructor
  · intro ndn oc ad p h
    simp [ex_host] at h
  · intro op2 r hr q hq
    simp only [ex_host, List.mem_cons, List.mem_singleton, List.not_mem_nil, or_false] at hr
    rcases hr with h | h | h <;> subst h <;> cases hq <;> decide

theorem collect_overflow_long (host : Host) (heap : List Entry) (op : Operation)
    (oc : ObjectClass) (n : Nat) (str : List Char) (k m : Nat)
    (hk : str.length = k)
    (hm : filter_fmt.length - 4 + oc.soc_cname.length + k = m)
    (hbig : INT_MAX < m) (hsmall : m < 18446744073709551615) :
    filter_bv_len oc ⟨n, some str⟩ = m ∧
    automember_collect_memberof_dn host heap op oc ⟨n, some str⟩ =
      some ⟨LDAP_OTHER, none, []⟩ := by
  have hlen : filter_bv_len oc ⟨n, some str⟩ = m := by
    rw [← hm, ← hk]
    rfl
  refine ⟨hlen, ?_⟩
  apply collect_overflow
  rw [hlen, overflow_test_exceeds _ hbig]
  exact hsmall

/-- Counterexample to C22: for the class `posixGroup` and an identifier
value of 2147483648 bytes the formatted length, 2147483687, is more than
`INT_MAX`; `snprintf` returns a negative `int`, the comparison of line 523,
made without sign, holds, and `automember_collect_memberof_dn` returns
`LDAP_OTHER` through the overflow branch, on a host whose parser accepts
every string. -/
theorem filter_overflow_branch_reached :
    (filter_bv_len ⟨"posixGroup".toList⟩
        ⟨2147483648, some (List.replicate 2147483648 (Char.ofNat 97))⟩ = 2147483687 ∧
      automember_collect_memberof_dn ex_host [ex_user, ex_admins, ex_staff] ex_op_memberof
        ⟨"posixGroup".toList⟩ ⟨2147483648, some (List.replicate 2147483648 (Char.ofNat 97))⟩ =
        some ⟨LDAP_OTHER, none, []⟩) ∧
    INT_MAX < 2147483687 ∧
    snprintf_ret 2147483687 = -1 ∧
    to_ber_len_t (snprintf_ret 2147483687) > 2147483687 ∧
    (∀ str : List Char, ex_host.str2filter_x str ≠ none) :=
  ⟨collect_overflow_long ex_host [ex_user, ex_admins, ex_staff] ex_op_memberof
      ⟨"posixGroup".toList⟩ 2147483648 (List.replicate 2147483648 (Char.ofNat 97))
      2147483648 2147483687 (List.length_replicate 2147483648 (Char.ofNat 97))
      (by decide) (by decide) (by decide),
   by decide, by decide, by decide, fun _ h => by cases h⟩

/-- C22 as amended: for every object class and identifier value the string
formatted by line 522 is the literal pieces of the format around the class
name and the value, and its length is the length computed at line 516 (the
length of the format less 4, plus the two lengths).  When that length is at
most `INT_MAX`, the buffer holds the string whole, the test of line 523 is
false, and `automember_collect_memberof_dn` returns, with the status
`LDAP_OTHER` only when the filter parser rejects that string and
`LDAP_SUCCESS` otherwise.  When that length is more than `INT_MAX` (and
less than the largest `ber_len_t`), the test of line 523 holds and the
routine returns `LDAP_OTHER` without parsing. -/
theorem filter_string_overflow_test (host : Host) (heap : List Entry) (op : Operation)
    (oc : ObjectClass) (uid_value : BerValue) (hwf : host_wf host heap) :
    format_s filter_fmt [oc.soc_cname, uid_value.bv_val.getD []] =
      "(&(objectClass=".toList ++ oc.soc_cname ++ ")(memberUid=".toList ++
        uid_value.bv_val.getD [] ++ "))".toList ∧
    (format_s filter_fmt [oc.soc_cname, uid_value.bv_val.getD []]).length =
      filter_fmt.length - 4 + oc.soc_cname.length + (uid_value.bv_val.getD []).length ∧
    filter_bv_len oc uid_value =
      filter_fmt.length - 4 + oc.soc_cname.length + (uid_value.bv_val.getD []).length ∧
    filter_buffer oc uid_value =
      "(&(objectClass=".toList ++ oc.soc_cname ++ ")(memberUid=".toList ++
        uid_value.bv_val.getD [] ++ "))".toList ∧
    (filter_bv_len oc uid_value ≤ INT_MAX →
      snprintf_ret (format_s filter_fmt [oc.soc_cname, uid_value.bv_val.getD []]).length =
        ((filter_bv_len oc uid_value : Nat) : Int) ∧
      ¬ (to_ber_len_t
          (snprintf_ret (format_s filter_fmt [oc.soc_cname, uid_value.bv_val.getD []]).length) >
        filter_bv_len oc uid_value) ∧
      ∃ c : CollectResult,
        automember_collect_memberof_dn host heap op oc uid_value = some c ∧
        (c.rc = LDAP_OTHER ↔ host.str2filter_x (filter_buffer oc uid_value) = none) ∧
        (c.rc = LDAP_SUCCESS ↔ host.str2filter_x (filter_buffer oc uid_value) ≠ none)) ∧
    (INT_MAX < filter_bv_len oc uid_value →
      filter_bv_len oc uid_value < 18446744073709551615 →
      to_ber_len_t
          (snprintf_ret (format_s filter_fmt [oc.soc_cname, uid_value.bv_val.getD []]).length) >
        filter_bv_len oc uid_value ∧
      automember_collect_memberof_dn host heap op oc uid_value =
        some ⟨LDAP_OTHER, none, []⟩) := by
  have hlen := format_filter_length oc uid_value
  refine ⟨format_filter _ _, hlen, rfl, ?_, ?_, ?_⟩
  · rw [filter_buffer_eq, format_filter]
  · intro hfit
    have hno := fits_no_overflow oc uid_value hfit
    refine ⟨?_, ?_, ?_⟩
    · rw [hlen]
      simp only [snprintf_ret, if_pos hfit]
    · rw [hlen]
      exact hno
    · obtain ⟨c, h⟩ := collect_memberof_dn_total host heap op oc uid_value hwf
      refine ⟨c, h, ?_⟩
      rw [collect_no_overflow host heap op oc uid_value hno] at h
      cases hf : host.str2filter_x (filter_buffer oc uid_value) with
      | none =>
        simp [hf] at h
        rw [← h]
        exact ⟨by simp, by simp [LDAP_OTHER, LDAP_SUCCESS]⟩
      | some f =>
        simp only [hf] at h
        split at h
        · cases h
        · split at h <;> (cases h; exact ⟨by simp [LDAP_OTHER, LDAP_SUCCESS], by simp⟩)
  · intro hbig hsmall
    have hov : to_ber_len_t (snprintf_ret (filter_bv_len oc uid_value)) >
        filter_bv_len oc uid_value := by
      rw [overflow_test_exceeds _ hbig]
      exact hsmall
    refine ⟨?_, collect_overflow host heap op oc uid_value hov⟩
    rw [hlen]
    exact hov

/-- Witness for C22 as amended: the search for the groups of `alice`, whose
filter string has 44 bytes. -/
theorem filter_string_overflow_test_witness :
    filter_bv_len ⟨"posixGroup".toList⟩ (ex_bv "alice") = 44 ∧
    filter_bv_len ⟨"posixGroup".toList⟩ (ex_bv "alice") ≤ INT_MAX ∧
    automember_collect_memberof_dn ex_host [ex_user, ex_admins, ex_staff] ex_op_memberof
      ⟨"posixGroup".toList⟩ (ex_bv "alice") =
      some ⟨LDAP_SUCCESS,
        some [ex_bv "cn=admins,ou=Groups,dc=example,dc=com",
              ex_bv "cn=staff,ou=Groups,dc=example,dc=com", BER_BVZERO],
        [Event.search ex_op2]⟩ ∧
    ¬ (to_ber_len_t (snprintf_ret (format_s filter_fmt
        ["posixGroup".toList, (ex_bv "alice").bv_val.getD []]).length) >
      filter_bv_len ⟨"posixGroup".toList⟩ (ex_bv "alice")) :=
  ⟨by decide, by decide, by decide,
   ((filter_string_overflow_test ex_host [ex_user, ex_admins, ex_staff] ex_op_memberof
      ⟨"posixGroup".toList⟩ (ex_bv "alice") ex_host_wf).2.2.2.2.1 (by decide)).2.1⟩

end Automember
